import Mathlib

/-!
Zenit: telemetry registry and admission pipeline.

A shallow embedding of the ingestion pipeline of `WoozyMasta/zenit`:

* `internal/models/models.go`      : `TelemetryRequest`, `Node`
* `internal/storage/sqlite.go`     : the SQL statements of `Repository`, read as
  functions on the list of rows of table `nodes`
* `internal/server/middleware.go`  : `GetRealIP`, `RateLimitMiddleware`
* `internal/server/handler_telemetry.go` : `handleTelemetry`, `processJob`

Conventions.  A `time.Time` is an integer count of nanoseconds, a
`time.Duration` an integer number of nanoseconds.  Go `int`/`int64` values are
`Int`; no arithmetic in the modelled code can leave the 64-bit range for
inputs that fit in it except `count + 1`, which would need 2^63 merges of one
key.  Every clock reading (`time.Now()`, `time.Since`) is an explicit argument,
one argument per call in the source.  Logging is omitted.
-/

namespace Zenit

/-! ## internal/models/models.go -/

/-- The payload sent by the game client (`models.TelemetryRequest`). -/
structure TelemetryRequest where
  Application : String
  Type_ : String
  Version : String
  Port : Int
  deriving DecidableEq, Repr

/-- A registered game server, one row of table `nodes` (`models.Node`). -/
structure Node where
  FirstSeen : Int
  LastSeen : Int
  Application : String
  Type_ : String
  IP : String
  CountryCode : String
  Version : String
  ServerName : String
  MapName : String
  GameVersion : String
  GameName : String
  ServerOS : String
  Port : Int
  Count : Int
  Players : Nat
  MaxPlayers : Nat
  deriving DecidableEq, Repr

/-- The composite key `(application, ip, port)` of the conflict target of
`UpsertNode` and of the `WHERE` clauses of `GetNode` and `DeleteNode`. -/
abbrev Key := String × String × Int

/-- The key of a row. -/
def Node.key (n : Node) : Key := (n.Application, n.IP, n.Port)

/-- The columns written from one successful protocol query: `server_name`,
`map_name`, `players`, `max_players`, `game_version`, `game_name`,
`server_os`. -/
structure Enrichment where
  ServerName : String
  MapName : String
  Players : Nat
  MaxPlayers : Nat
  GameVersion : String
  GameName : String
  ServerOS : String
  deriving DecidableEq, Repr

/-- The enrichment columns of a row. -/
def Node.enrichment (n : Node) : Enrichment :=
  { ServerName := n.ServerName, MapName := n.MapName, Players := n.Players,
    MaxPlayers := n.MaxPlayers, GameVersion := n.GameVersion, GameName := n.GameName,
    ServerOS := n.ServerOS }

/-! ## internal/storage/sqlite.go -/

/-- The rows of table `nodes`. -/
abbrev Rows := List Node

/-- The uniqueness constraint on `(application, ip, port)` that the conflict
target of `UpsertNode` names: no two rows share a key. -/
def UniqueKeys (rows : Rows) : Prop := (rows.map Node.key).Nodup

instance (rows : Rows) : Decidable (UniqueKeys rows) := by
  unfold UniqueKeys; infer_instance

/-- The row stored by the `INSERT ... VALUES (..., 1, ?, ?)` branch of
`UpsertNode`: every column from the argument, `count` the literal 1. -/
def insertRow (n : Node) : Node := { n with Count := 1 }

/-- The row left by the `ON CONFLICT ... DO UPDATE SET` branch of `UpsertNode`;
`old` is the stored row (`nodes.*`), `n` the proposed one (`excluded.*`). -/
def onConflict (old n : Node) : Node :=
  { old with
    Count := old.Count + 1
    LastSeen := n.LastSeen
    Version := n.Version
    Type_ := n.Type_
    CountryCode := if n.CountryCode ≠ "" then n.CountryCode else old.CountryCode
    ServerName := if n.ServerName ≠ "" then n.ServerName else old.ServerName
    MapName := if n.ServerName ≠ "" then n.MapName else old.MapName
    Players := if n.ServerName ≠ "" then n.Players else old.Players
    MaxPlayers := if n.ServerName ≠ "" then n.MaxPlayers else old.MaxPlayers
    GameVersion := if n.ServerName ≠ "" then n.GameVersion else old.GameVersion
    GameName := if n.ServerName ≠ "" then n.GameName else old.GameName
    ServerOS := if n.ServerName ≠ "" then n.ServerOS else old.ServerOS }

/-- The table after a successful `Repository.UpsertNode(n)`: the row with the
key of `n` is updated in place when there is one, and a new row is added
otherwise. -/
def UpsertNode (rows : Rows) (n : Node) : Rows :=
  if rows.any (fun m => m.key = n.key) then
    rows.map (fun m => if m.key = n.key then onConflict m n else m)
  else
    rows ++ [insertRow n]

/-- The result of `Repository.GetNode(app, ip, port)` when the query succeeds:
the row with that key, or `none` for `(nil, nil)`. -/
def GetNode (rows : Rows) (k : Key) : Option Node :=
  rows.find? (fun m => m.key = k)

/-- The table after a successful `Repository.DeleteNode(app, ip, port)`. -/
def DeleteNode (rows : Rows) (k : Key) : Rows :=
  rows.filter (fun m => ¬ (m.key = k))


/-! ### Sample rows -/

/-- A stored row with enrichment data and country code `US`. -/
def storedNode : Node :=
  { FirstSeen := 100, LastSeen := 200, Application := "MetricZ", Type_ := "steam",
    IP := "203.0.113.7", CountryCode := "US", Version := "1.0.0",
    ServerName := "DayZ #1", MapName := "chernarusplus", GameVersion := "1.25",
    GameName := "dayz", ServerOS := "Linux", Port := 2302, Count := 3,
    Players := 10, MaxPlayers := 60 }

/-- An observation of the key of `storedNode` that carries no enrichment data
(empty server name), a country code `DE` and an earlier `LastSeen`. -/
def bareNode : Node :=
  { FirstSeen := 150, LastSeen := 150, Application := "MetricZ", Type_ := "generic",
    IP := "203.0.113.7", CountryCode := "DE", Version := "1.0.1",
    ServerName := "", MapName := "", GameVersion := "", GameName := "",
    ServerOS := "", Port := 2302, Count := 0, Players := 0, MaxPlayers := 0 }

/-- An observation of the key of `storedNode` with a server name and otherwise
empty enrichment fields, no country code and a later `LastSeen`. -/
def namedNode : Node :=
  { FirstSeen := 300, LastSeen := 300, Application := "MetricZ", Type_ := "steam",
    IP := "203.0.113.7", CountryCode := "", Version := "1.0.2",
    ServerName := "DayZ #2", MapName := "", GameVersion := "", GameName := "",
    ServerOS := "", Port := 2302, Count := 0, Players := 0, MaxPlayers := 0 }

/-- A row as `fake.GenerateData` builds it: `FirstSeen` seven days before
`LastSeen` (in nanoseconds). -/
def generatedNode : Node :=
  { FirstSeen := 0, LastSeen := 604800000000000, Application := "DayZMod", Type_ := "",
    IP := "198.51.100.4", CountryCode := "PL", Version := "1.1.0",
    ServerName := "DayZ Server #7 [PvP]", MapName := "livonia", GameVersion := "1.24.160000",
    GameName := "dayz", ServerOS := "Windows", Port := 2350, Count := 0,
    Players := 12, MaxPlayers := 60 }

/-! ## Collaborators outside the repository -/

/-- The fields of the `a2s.Info` answer that the repository reads;
`Environment` is the text `info.Environment.String()`. -/
structure Info where
  Name : String
  Map : String
  Version : String
  Game : String
  Environment : String
  Players : Nat
  MaxPlayers : Nat
  deriving DecidableEq, Repr

/-- Library and network functions the server calls, as parameters of the
model. -/
structure Env where
  /-- `xxhash.Sum64String`. -/
  Sum64String : String → Nat
  /-- The host returned by `net.SplitHostPort`, `none` when it returns an error. -/
  SplitHostPort : String → Option String
  /-- Whether `net.ParseIP(s)` is non-nil with a non-nil `To4()`. -/
  IsIPv4 : String → Bool
  /-- The answer of `game.QueryServer(ip, port, options)`, `none` for an error. -/
  QueryServer : String → Int → Option Info

/-- A map with string keys (`map[string]T`, `sync.Map`) as an association
list. -/
abbrev StrMap (α : Type) := List (String × α)

/-- The value stored under `k`, if any (`m[k]`, `Load`). -/
def StrMap.Load {α : Type} (m : StrMap α) (k : String) : Option α :=
  (m.find? (fun e => e.1 = k)).map Prod.snd

/-- The map with `v` stored under `k` (`m[k] = v`, `Store`). -/
def StrMap.Store {α : Type} (m : StrMap α) (k : String) (v : α) : StrMap α :=
  (k, v) :: m.filter (fun e => ¬ (e.1 = k))

/-! ## internal/server/struct.go, server.go -/

/-- A unit of work for the background workers (`telemetryJob`). -/
structure telemetryJob where
  IP : String
  Req : TelemetryRequest
  deriving DecidableEq, Repr

/-- The configuration fields of `Server`, fixed by `New`.  `allowedApps` holds
the keys of the hash set, `geoip` is `none` for a nil provider and otherwise
the function `GetCountryCode`. -/
structure Server where
  geoip : Option (String → String)
  allowedApps : List Nat
  expectedUA : String
  expectedCT : String
  hardLimitCount : Int
  hardLimitWin : Int
  softLimitDur : Int
  trustProxy : Bool
  ignoreUA : Bool

/-- The capacity of the job queue: `make(chan telemetryJob, 1000)` in `New`. -/
def queueCapacity : Nat := 1000

/-- The mutable state behind a `Server`: the jobs buffered in channel `queue`
(oldest first), whether `close(s.queue)` has run, the soft-limit cache
`seenCache` and the table of `storage`. -/
structure State where
  queue : List telemetryJob
  closed : Bool
  seenCache : StrMap Int
  rows : Rows
  deriving DecidableEq, Repr

/-- What the handlers read of an `*http.Request`.  A header field is the
result of `r.Header.Get`, the empty string when the header is absent;
`Decoded` is the value that `json.NewDecoder(r.Body).Decode` produces from the
size-limited body, `none` when it returns an error. -/
structure Request where
  Method : String
  RemoteAddr : String
  ContentType : String
  UserAgent : String
  CFConnectingIP : String
  XForwardedFor : String
  Decoded : Option TelemetryRequest
  deriving DecidableEq, Repr

/-- Status code and body of a written response. -/
structure Response where
  Status : Nat
  Body : String
  deriving DecidableEq, Repr

/-- How the handling of a request ends: with a response, or with a run-time
panic of the handler goroutine. -/
inductive Reply where
  | response (r : Response)
  | panicked (msg : String)
  deriving DecidableEq, Repr

/-- A handler whose clock readings are fixed, acting on state `σ`. -/
abbrev Handler (σ : Type) := σ → Request → σ × Reply

/-! ## internal/server/middleware.go -/

/-- The white space of `unicode.IsSpace`, which `strings.TrimSpace` removes. -/
def isSpace (c : Char) : Bool :=
  c = '\t' || c = '\n' || c.toNat = 0x0B || c.toNat = 0x0C || c = '\r' || c = ' ' ||
  c.toNat = 0x85 || c.toNat = 0xA0 || c.toNat = 0x1680 ||
  (0x2000 ≤ c.toNat && c.toNat ≤ 0x200A) || c.toNat = 0x2028 || c.toNat = 0x2029 ||
  c.toNat = 0x202F || c.toNat = 0x205F || c.toNat = 0x3000

/-- The function `strings.TrimSpace`. -/
def TrimSpace (s : String) : String :=
  String.mk ((s.toList.dropWhile isSpace).reverse.dropWhile isSpace).reverse

/-- The first part `strings.Split(s, ",")[0]`: the text before the first comma. -/
def firstPart (s : String) : String :=
  String.mk (s.toList.takeWhile (fun c => c ≠ ','))

/-- The function `GetRealIP`. -/
def GetRealIP (env : Env) (r : Request) (trustProxy : Bool) : String :=
  let remote : String :=
    match env.SplitHostPort r.RemoteAddr with
    | none => r.RemoteAddr
    | some ip => ip
  if trustProxy = true then
    if r.CFConnectingIP ≠ "" then r.CFConnectingIP
    else if r.XForwardedFor ≠ "" then TrimSpace (firstPart r.XForwardedFor)
    else remote
  else remote

/-- The value `d.Seconds()` of a duration of `d` nanoseconds. -/
def Seconds (d : Int) : ℚ := (d : ℚ) / 1000000000

/-- Modelled from the spec: the per-IP token bucket ("one token bucket per
source IP, capacity = configured burst count, refill rate = count / window").
The code takes it from package `golang.org/x/time/rate`, whose source is not
part of the repository; the fields are those of `rate.Limiter`, with exact
rationals where the package computes in `float64`.  `limit = none` stands for
`rate.Inf`. -/
structure Limiter where
  limit : Option ℚ
  burst : Int
  tokens : ℚ
  last : Int
  deriving DecidableEq

/-- Modelled from the spec: `rate.NewLimiter(r, b)`, a full bucket ("first
request from an unseen IP allocates a fresh full bucket"). -/
def NewLimiter (r : Option ℚ) (b : Int) : Limiter :=
  { limit := r, burst := b, tokens := b, last := 0 }

/-- Modelled from the spec: `limiter.Allow()` read at clock value `now`: the
decision and the limiter afterwards.  The bucket is refilled at `limit` tokens
per second for the time since the last admitted request, capped at `burst`,
and the request is admitted, taking one token, when a whole token is there. -/
def Limiter.Allow (lim : Limiter) (now : Int) : Bool × Limiter :=
  match lim.limit with
  | none => (true, lim)
  | some l =>
    if l = 0 then
      if 1 ≤ lim.burst then (true, { lim with burst := lim.burst - 1 }) else (false, lim)
    else
      let last := if now < lim.last then now else lim.last
      let delta := Seconds (now - last) * l
      let tokens := if lim.tokens + delta > lim.burst then (lim.burst : ℚ) else lim.tokens + delta
      if 1 ≤ lim.burst ∧ 0 ≤ tokens - 1 then
        (true, { lim with last := now, tokens := tokens - 1 })
      else (false, lim)

/-- The limit `rate.Limit(float64(s.hardLimitCount) / s.hardLimitWin.Seconds())`
of `RateLimitMiddleware`.  A zero window makes the quotient infinite in Go
(`rate.Inf`) for a positive count; for a count of at most zero the quotient is
not a positive number and the limiter, whose burst is then below one, admits
nothing whatever the limit. -/
def hardLimit (count win : Int) : Option ℚ :=
  if win = 0 ∧ 0 < count then none else some ((count : ℚ) / Seconds win)

/-- The per-IP state `client` of `RateLimitMiddleware`. -/
structure client where
  limiter : Limiter
  lastSeen : Int
  deriving DecidableEq

/-- The function `http.Error(w, msg, code)`. -/
def httpError (msg : String) (code : Nat) : Response :=
  { Status := code, Body := msg ++ "\n" }

/-- The handler returned by `RateLimitMiddleware(next)`, applied to request `r`
with client map `clients` and state `st`; `nowSeen` is the clock read for
`cli.lastSeen`, `nowAllow` the clock read inside `limiter.Allow()`. -/
def RateLimitMiddleware {σ : Type} (env : Env) (s : Server) (next : Handler σ)
    (clients : StrMap client) (st : σ) (r : Request) (nowSeen nowAllow : Int) :
    StrMap client × σ × Reply :=
  let ip := GetRealIP env r s.trustProxy
  let cli : client :=
    match clients.Load ip with
    | some c => c
    | none =>
      { limiter := NewLimiter (hardLimit s.hardLimitCount s.hardLimitWin) s.hardLimitCount,
        lastSeen := 0 }
  let res := cli.limiter.Allow nowAllow
  let clients' := clients.Store ip { limiter := res.2, lastSeen := nowSeen }
  if res.1 = false then
    (clients', st, Reply.response (httpError "Too Many Requests" 429))
  else
    let out := next st r
    (clients', out.1, out.2)

/-! ## internal/server/handler_telemetry.go -/

/-- The function `respondOK`. -/
def respondOK (status : String) : Response := { Status := 200, Body := status }

/-- The soft-limit key `fmt.Sprintf("%s:%d", ip, req.Port)`. -/
def softKey (ip : String) (port : Int) : String := ip ++ ":" ++ toString port

/-- The soft-limit test of `handleTelemetry`: the cache holds a time for the
key and `time.Since` of it, read at clock value `nowSince`, is below
`softLimitDur`. -/
def softHit (s : Server) (cache : StrMap Int) (key : String) (nowSince : Int) : Bool :=
  match cache.Load key with
  | some lastSeen => decide (nowSince - lastSeen < s.softLimitDur)
  | none => false

/-- The function `handleTelemetry` applied to request `r` in state `st`;
`nowSince` is the clock read by `time.Since(lastSeen)`, `nowStore` the clock
read for `s.seenCache.Store(softKey, time.Now())`. -/
def handleTelemetry (env : Env) (s : Server) (nowSince nowStore : Int) : Handler State :=
  fun st r =>
  if r.Method ≠ "POST" then
    (st, Reply.response (httpError "Method not allowed" 405))
  else
    let ip := GetRealIP env r s.trustProxy
    if s.expectedCT ≠ "" ∧ ¬ (s.expectedCT.toList.isPrefixOf r.ContentType.toList = true) then
      (st, Reply.response (respondOK "not accounted"))
    else if ¬ (s.ignoreUA = true) ∧ r.UserAgent ≠ s.expectedUA then
      (st, Reply.response (respondOK "not accounted"))
    else
      match r.Decoded with
      | none => (st, Reply.response (respondOK "not accounted"))
      | some decoded =>
        if decoded.Port < 0 ∨ decoded.Port > 65535 then
          (st, Reply.response (respondOK "not accounted"))
        else
          let req : TelemetryRequest :=
            if decoded.Port = 0 then { decoded with Port := 27016 } else decoded
          if s.allowedApps.length > 0 ∧ env.Sum64String req.Application ∉ s.allowedApps then
            (st, Reply.response (respondOK "not accounted"))
          else
            if softHit s st.seenCache (softKey ip req.Port) nowSince = true then
              (st, Reply.response (respondOK "ok"))
            else
              let st1 : State :=
                { st with seenCache := st.seenCache.Store (softKey ip req.Port) nowStore }
              if st1.closed = true then
                (st1, Reply.panicked "send on closed channel")
              else if st1.queue.length < queueCapacity then
                ({ st1 with queue := st1.queue ++ [{ IP := ip, Req := req }] },
                  Reply.response (respondOK "successfully accounted"))
              else
                (st1, Reply.response (respondOK "not accounted"))

/-- The job of a beacon that passes every check of `handleTelemetry` before the
soft limit (method, content type, user agent, decoding, port range, allowed
application): the resolved address and the payload with port 0 replaced by
27016.  `none` when one of the checks fails. -/
def validBeacon (env : Env) (s : Server) (r : Request) : Option telemetryJob :=
  if r.Method ≠ "POST" then none
  else if s.expectedCT ≠ "" ∧ ¬ (s.expectedCT.toList.isPrefixOf r.ContentType.toList = true) then
    none
  else if ¬ (s.ignoreUA = true) ∧ r.UserAgent ≠ s.expectedUA then none
  else
    match r.Decoded with
    | none => none
    | some decoded =>
      if decoded.Port < 0 ∨ decoded.Port > 65535 then none
      else
        let req : TelemetryRequest :=
          if decoded.Port = 0 then { decoded with Port := 27016 } else decoded
        if s.allowedApps.length > 0 ∧ env.Sum64String req.Application ∉ s.allowedApps then none
        else some { IP := GetRealIP env r s.trustProxy, Req := req }

/-- The part of `handleTelemetry` from the soft limit on (lines "Soft Limit"
and "Send to queue"), for the job of a beacon that passed the checks before
it; `handleTelemetry_valid` relates the two. -/
def afterValidation (s : Server) (nowSince nowStore : Int) (st : State) (job : telemetryJob) :
    State × Reply :=
  if softHit s st.seenCache (softKey job.IP job.Req.Port) nowSince = true then
    (st, Reply.response (respondOK "ok"))
  else
    let st1 : State :=
      { st with seenCache := st.seenCache.Store (softKey job.IP job.Req.Port) nowStore }
    if st1.closed = true then
      (st1, Reply.panicked "send on closed channel")
    else if st1.queue.length < queueCapacity then
      ({ st1 with queue := st1.queue ++ [job] },
        Reply.response (respondOK "successfully accounted"))
    else
      (st1, Reply.response (respondOK "not accounted"))

/-- The node that `processJob` builds for a job; `nowFirst` and `nowLast` are
the two clock readings `time.Now()` of the fields `FirstSeen` and `LastSeen`. -/
def jobNode (env : Env) (s : Server) (job : telemetryJob) (nowFirst nowLast : Int) : Node :=
  let nodeType := if job.Req.Type_ = "" then "generic" else job.Req.Type_
  let queryIP := if job.IP = "::1" then "127.0.0.1" else job.IP
  let info : Option Info :=
    if nodeType = "steam" ∨ nodeType = "a2s" then
      if env.IsIPv4 queryIP = true then env.QueryServer queryIP job.Req.Port else none
    else none
  let country : String :=
    match s.geoip with
    | some GetCountryCode => GetCountryCode queryIP
    | none => ""
  { Application := job.Req.Application
    IP := queryIP
    Port := job.Req.Port
    Version := job.Req.Version
    Type_ := nodeType
    CountryCode := country
    ServerName := (info.map Info.Name).getD ""
    MapName := (info.map Info.Map).getD ""
    Players := (info.map Info.Players).getD 0
    MaxPlayers := (info.map Info.MaxPlayers).getD 0
    GameVersion := (info.map Info.Version).getD ""
    GameName := (info.map Info.Game).getD ""
    ServerOS := (info.map Info.Environment).getD ""
    Count := 0
    FirstSeen := nowFirst
    LastSeen := nowLast }

/-- The table after `processJob(job)` when the write succeeds. -/
def processJob (env : Env) (s : Server) (rows : Rows) (job : telemetryJob)
    (nowFirst nowLast : Int) : Rows :=
  UpsertNode rows (jobNode env s job nowFirst nowLast)

/-! ### Sample server -/

/-- Stand-ins for the library functions: the length of the name as its hash,
no host and port form recognised, every address IPv4, no game server
answering. -/
def sampleEnv : Env :=
  { Sum64String := fun a => a.length
    SplitHostPort := fun _ => none
    IsIPv4 := fun _ => true
    QueryServer := fun _ _ => none }

/-- A server that allows application `MetricZ`, with hard limit 2 requests per
minute and a soft window of five minutes. -/
def sampleServer : Server :=
  { geoip := none
    allowedApps := [sampleEnv.Sum64String "MetricZ"]
    expectedUA := ""
    expectedCT := "application/json"
    hardLimitCount := 2
    hardLimitWin := 60000000000
    softLimitDur := 300000000000
    trustProxy := false
    ignoreUA := false }

/-- A well-formed beacon of application `MetricZ` for port 2302. -/
def sampleRequest : Request :=
  { Method := "POST"
    RemoteAddr := "203.0.113.7"
    ContentType := "application/json; charset=utf-8"
    UserAgent := ""
    CFConnectingIP := ""
    XForwardedFor := ""
    Decoded := some { Application := "MetricZ", Type_ := "steam", Version := "1.0.0", Port := 2302 } }

/-- The job that `handleTelemetry` queues for `sampleRequest`. -/
def sampleJob : telemetryJob :=
  { IP := "203.0.113.7"
    Req := { Application := "MetricZ", Type_ := "steam", Version := "1.0.0", Port := 2302 } }

/-- A running server with nothing queued, nothing seen and an empty table. -/
def emptyState : State := { queue := [], closed := false, seenCache := [], rows := [] }

/-- A running server whose queue holds `queueCapacity` jobs. -/
def fullState : State :=
  { queue := List.replicate queueCapacity sampleJob, closed := false, seenCache := [], rows := [] }

/-! ### Sequences of requests -/

/-- A request reaching the rate limiter, with the two clock readings the
middleware takes for it and the handler behind the middleware (which carries
its own clock readings). -/
structure Arrival (σ : Type) where
  req : Request
  nowSeen : Int
  nowAllow : Int
  next : Handler σ

/-- The requests of a list served one after the other by
`RateLimitMiddleware`: the client map and state at the end and the replies in
order. -/
def serveAll {σ : Type} (env : Env) (s : Server) (clients : StrMap client) (st : σ) :
    List (Arrival σ) → StrMap client × σ × List Reply
  | [] => (clients, st, [])
  | a :: rest =>
    let out := RateLimitMiddleware env s a.next clients st a.req a.nowSeen a.nowAllow
    let tail := serveAll env s out.1 out.2.1 rest
    (tail.1, tail.2.1, out.2.2 :: tail.2.2)

/-- The reply of `RateLimitMiddleware` to a request over the limit. -/
def tooManyRequests : Reply := Reply.response (httpError "Too Many Requests" 429)

/-- The limiter that `RateLimitMiddleware` uses for address `ip`: the stored
one, or a new one for an unseen address. -/
def limiterOf (s : Server) (clients : StrMap client) (ip : String) : Limiter :=
  match clients.Load ip with
  | some c => c.limiter
  | none => NewLimiter (hardLimit s.hardLimitCount s.hardLimitWin) s.hardLimitCount

/-- The beacon `sampleRequest`, sent for port `port`, arriving at clock value
`t` (one reading for every clock call of its handling), with `handleTelemetry`
behind the limiter. -/
def sampleArrival (t : Int) (port : Int) : Arrival State :=
  { req :=
      { sampleRequest with
        Decoded := some { Application := "MetricZ", Type_ := "steam", Version := "1.0.0",
                          Port := port } }
    nowSeen := t
    nowAllow := t
    next := handleTelemetry sampleEnv sampleServer t t }

/-! ## internal/config/config.go, server.New -/

/-- The fields of `config.Server` that `server.New` copies into the fields
modelled in `Server`. -/
structure ConfigServer where
  AllowedApps : List String
  TrustProxy : Bool
  IgnoreUA : Bool
  ExpectedUA : String
  ContentType : String

/-- The type `config.RateLimit`. -/
structure ConfigRateLimit where
  HardLimitCount : Int
  HardLimitWin : Int
  SoftLimitDur : Int

/-- The maintenance flags of `config.Storage`. -/
structure ConfigStorage where
  PruneEmpty : String
  CheckInactive : String
  CheckAll : String

/-- The type `config.Config`, restricted to the groups above. -/
structure Config where
  Server : ConfigServer
  RateLimit : ConfigRateLimit
  Storage : ConfigStorage

/-- The function `server.New`: the allow-list becomes the set of the hashes
`xxhash.Sum64String(app)` of the configured names. -/
def New (env : Env) (geo : Option (String → String)) (cfg : Config) : Server :=
  { geoip := geo
    allowedApps := cfg.Server.AllowedApps.map env.Sum64String
    expectedUA := cfg.Server.ExpectedUA
    expectedCT := cfg.Server.ContentType
    hardLimitCount := cfg.RateLimit.HardLimitCount
    hardLimitWin := cfg.RateLimit.HardLimitWin
    softLimitDur := cfg.RateLimit.SoftLimitDur
    trustProxy := cfg.Server.TrustProxy
    ignoreUA := cfg.Server.IgnoreUA }

/-! ## Calls to the collaborators -/

/-- A call that a worker makes to the protocol client, the geolocation
provider or the storage. -/
inductive Call where
  | query (ip : String) (port : Int)
  | lookup (ip : String)
  | upsert (n : Node)
  | delete (k : Key)
  deriving DecidableEq, Repr

/-- The nodes passed to `UpsertNode` in a list of calls, in order. -/
def upserts : List Call → List Node
  | [] => []
  | Call.upsert n :: rest => n :: upserts rest
  | _ :: rest => upserts rest

/-- The arguments of the `QueryServer` calls in a list of calls, in order. -/
def queries : List Call → List (String × Int)
  | [] => []
  | Call.query ip port :: rest => (ip, port) :: queries rest
  | _ :: rest => queries rest

/-- The arguments of the `GetCountryCode` calls in a list of calls, in order. -/
def lookups : List Call → List String
  | [] => []
  | Call.lookup ip :: rest => ip :: lookups rest
  | _ :: rest => lookups rest

/-- The keys passed to `DeleteNode` in a list of calls, in order. -/
def deletes : List Call → List Key
  | [] => []
  | Call.delete k :: rest => k :: deletes rest
  | _ :: rest => deletes rest

/-- The table after the storage calls of a list, each succeeding. -/
def applyCalls (rows : Rows) : List Call → Rows
  | [] => rows
  | Call.upsert n :: rest => applyCalls (UpsertNode rows n) rest
  | Call.delete k :: rest => applyCalls (DeleteNode rows k) rest
  | _ :: rest => applyCalls rows rest

/-- The calls that `processJob` makes for a job, in order: the protocol query
when the type is queryable and the address is IPv4, the geolocation lookup
when a provider is configured, and the write of the node. -/
def processJobCalls (env : Env) (s : Server) (job : telemetryJob) (nowFirst nowLast : Int) :
    List Call :=
  let nodeType := if job.Req.Type_ = "" then "generic" else job.Req.Type_
  let queryIP := if job.IP = "::1" then "127.0.0.1" else job.IP
  let a2s : List Call :=
    if nodeType = "steam" ∨ nodeType = "a2s" then
      if env.IsIPv4 queryIP = true then [Call.query queryIP job.Req.Port] else []
    else []
  let geo : List Call :=
    match s.geoip with
    | some _ => [Call.lookup queryIP]
    | none => []
  a2s ++ geo ++ [Call.upsert (jobNode env s job nowFirst nowLast)]

/-! ## internal/maintenance/maintenance.go -/

/-- The node that `processNode` writes after a successful query: the node it
was given with the enrichment fields of the answer and `LastSeen` the clock
reading `now`. -/
def refreshedNode (node : Node) (info : Info) (now : Int) : Node :=
  { node with
    ServerName := info.Name
    MapName := info.Map
    Players := info.Players
    MaxPlayers := info.MaxPlayers
    GameVersion := info.Version
    GameName := info.Game
    ServerOS := info.Environment
    LastSeen := now }

/-- The calls that `processNode` makes for a node, in order; `now` is the clock
reading `time.Now()` of the field `LastSeen`. -/
def processNodeCalls (env : Env) (node : Node) (now : Int) : List Call :=
  if node.Port ≤ 1000 ∨ node.Port > 65535 then
    [Call.delete node.key]
  else
    match env.QueryServer node.IP node.Port with
    | none => [Call.query node.IP node.Port, Call.delete node.key]
    | some info =>
      [Call.query node.IP node.Port, Call.upsert (refreshedNode node info now)]

/-- The table after `processNode(node, store, a2sOpts)` when the storage calls
succeed. -/
def processNode (env : Env) (rows : Rows) (node : Node) (now : Int) : Rows :=
  if node.Port ≤ 1000 ∨ node.Port > 65535 then
    DeleteNode rows node.key
  else
    match env.QueryServer node.IP node.Port with
    | none => DeleteNode rows node.key
    | some info => UpsertNode rows (refreshedNode node info now)

/-- The table after a successful `Repository.DeleteEmptyNodes(appName)` and the
number of rows affected that it returns. -/
def DeleteEmptyNodes (rows : Rows) (appName : String) : Rows × Int :=
  if appName ≠ "" then
    (rows.filter (fun m => ¬ (m.ServerName = "" ∧ m.Application = appName)),
      ((rows.filter (fun m => m.ServerName = "" ∧ m.Application = appName)).length : Int))
  else
    (rows.filter (fun m => ¬ (m.ServerName = "")),
      ((rows.filter (fun m => m.ServerName = "")).length : Int))

/-- The configuration from which `New` builds `sampleServer`. -/
def sampleConfig : Config :=
  { Server := { AllowedApps := ["MetricZ"], TrustProxy := false, IgnoreUA := false,
                ExpectedUA := "", ContentType := "application/json" }
    RateLimit := { HardLimitCount := 2, HardLimitWin := 60000000000,
                   SoftLimitDur := 300000000000 }
    Storage := { PruneEmpty := "", CheckInactive := "", CheckAll := "" } }

/-- The beacon `sampleRequest` declaring port 0. -/
def portZeroRequest : Request :=
  { sampleRequest with
    Decoded := some { Application := "MetricZ", Type_ := "steam", Version := "1.0.0", Port := 0 } }

/-- A stand-in network in which the game server at 203.0.113.7:2302 answers
with an empty server name and map `livonia`, and no other server answers. -/
def namelessEnv : Env :=
  { sampleEnv with
    QueryServer := fun ip port =>
      if ip = "203.0.113.7" ∧ port = 2302 then
        some { Name := "", Map := "livonia", Version := "1.26", Game := "dayz",
               Environment := "Windows", Players := 5, MaxPlayers := 40 }
      else none }

/-- A stand-in network in which the game server at 203.0.113.7:2302 answers
with name `DayZ #9` and map `livonia`, and no other server answers. -/
def answeringEnv : Env :=
  { sampleEnv with
    QueryServer := fun ip port =>
      if ip = "203.0.113.7" ∧ port = 2302 then
        some { Name := "DayZ #9", Map := "livonia", Version := "1.26", Game := "dayz",
               Environment := "Windows", Players := 5, MaxPlayers := 40 }
      else none }

/-! ## The worker pool (server.go, handler_telemetry.go) -/

/-- The number of workers that `StartWorkers` starts (`workers := 10`). -/
def workerCount : Nat := 10

/-- The server state with its worker goroutines.  A worker is either at the
head of its loop `for job := range s.queue` (`waiting` counts these), or
inside `s.processJob(job)` for a job it received (`processing` lists these
jobs), or has left the loop and called `wg.Done()` (`exited` counts these).
`processed` records the jobs for which `processJob` has returned, in order. -/
structure Pool where
  st : State
  waiting : Nat
  processing : List telemetryJob
  exited : Nat
  processed : List telemetryJob
  deriving DecidableEq, Repr

/-- The pool after `StartWorkers`: ten workers at the head of their loop. -/
def StartWorkers (st : State) : Pool :=
  { st := st, waiting := workerCount, processing := [], exited := 0, processed := [] }

/-- The pool after `close(s.queue)` in `StopWorkers`. -/
def closeQueue (p : Pool) : Pool := { p with st := { p.st with closed := true } }

/-- Whether `s.wg.Wait()` in `StopWorkers` returns: every worker has called
`wg.Done()`. -/
def allExited (p : Pool) : Bool := decide (p.exited = workerCount)

/-- One move of one worker: it receives the job at the head of the queue; or
its call `processJob(job)` returns, having read the clock as `nowFirst` and
`nowLast`; or it finds the queue closed and empty and leaves its loop. -/
inductive WorkerMove where
  | receive
  | finish (job : telemetryJob) (nowFirst nowLast : Int)
  | exit
  deriving DecidableEq, Repr

/-- The pool after a move, `none` when no worker can make the move. -/
def workerStep (env : Env) (s : Server) (p : Pool) : WorkerMove → Option Pool
  | WorkerMove.receive =>
    match p.waiting, p.st.queue with
    | w + 1, job :: rest =>
      some { p with st := { p.st with queue := rest }, waiting := w,
                    processing := p.processing ++ [job] }
    | _, _ => none
  | WorkerMove.finish job nowFirst nowLast =>
    if job ∈ p.processing then
      some { p with st := { p.st with rows := processJob env s p.st.rows job nowFirst nowLast },
                    waiting := p.waiting + 1,
                    processing := p.processing.erase job,
                    processed := p.processed ++ [job] }
    else none
  | WorkerMove.exit =>
    if 0 < p.waiting ∧ p.st.queue = [] ∧ p.st.closed = true then
      some { p with waiting := p.waiting - 1, exited := p.exited + 1 }
    else none

/-- The pool after a sequence of moves of the workers, in any interleaving;
`none` when one of the moves cannot be made. -/
def runWorkers (env : Env) (s : Server) (p : Pool) : List WorkerMove → Option Pool
  | [] => some p
  | m :: rest =>
    match workerStep env s p m with
    | some p' => runWorkers env s p' rest
    | none => none

/-- The calls `processJob(job)` that return in a sequence of moves, in order,
each with the job and its two clock readings. -/
def returnedCalls : List WorkerMove → List (telemetryJob × Int × Int)
  | [] => []
  | WorkerMove.finish job nowFirst nowLast :: rest => (job, nowFirst, nowLast) :: returnedCalls rest
  | _ :: rest => returnedCalls rest

/-- The number of moves the workers of a pool still have to make before all
have exited, once the queue is closed. -/
def movesLeft (p : Pool) : Nat := 2 * p.st.queue.length + 2 * p.processing.length + p.waiting

/-- A pool whose queue has just been closed by `StopWorkers` while it holds two
jobs and one worker is inside `processJob`. -/
def drainingPool : Pool :=
  { st := { queue := [sampleJob, { sampleJob with IP := "198.51.100.4" }], closed := true,
            seenCache := [], rows := [] }
    waiting := 9
    processing := [{ sampleJob with IP := "192.0.2.1" }]
    exited := 0
    processed := [] }

/-- A run of the workers of `drainingPool` to the end: the call in process
returns, then one worker handles the first queued job and another the second,
the second finishing first, and the ten workers leave their loops. -/
def drainingRun : List WorkerMove :=
  [WorkerMove.finish { sampleJob with IP := "192.0.2.1" } 10 11,
    WorkerMove.receive, WorkerMove.receive,
    WorkerMove.finish { sampleJob with IP := "198.51.100.4" } 20 21,
    WorkerMove.finish sampleJob 30 31] ++ List.replicate 10 WorkerMove.exit

/-- The condition of a pool while `StopWorkers` waits: the queue is closed, it
is empty once a worker has exited, and the workers number `workerCount`. -/
def Draining (p : Pool) : Prop :=
  p.st.closed = true ∧ (0 < p.exited → p.st.queue = []) ∧
    p.waiting + p.processing.length + p.exited = workerCount

instance (p : Pool) : Decidable (Draining p) := by
  unfold Draining; infer_instance

/-! ## Listing (sqlite.go) -/

/-- The result of a successful `Repository.GetNodesSubset(appName,
onlyEmptyA2S)`: the rows that satisfy the clauses added to the query, in the
order of the table. -/
def GetNodesSubset (rows : Rows) (appName : String) (onlyEmptyA2S : Bool) : List Node :=
  let inScope := if appName ≠ "" then rows.filter (fun m => m.Application = appName) else rows
  if onlyEmptyA2S = true then inScope.filter (fun m => m.ServerName = "") else inScope

/-! ### Stored timestamps (package time, modernc.org/sqlite) -/

/-- A zone of a `time.Location`: its offset in seconds east of UTC and the
abbreviation of its name. -/
structure Zone where
  offset : Int
  name : String

/-- A `time.Location` as the text of a time uses it: the zone in force at an
instant, given in seconds since the Unix epoch.  Every `LastSeen` that the
repository writes is a reading of `time.Now()`, whose location is
`time.Local`. -/
abbrev Location := Int → Zone

/-- The decimal digits of `n` with zeros in front up to `width` characters
(`appendInt` of package `time`). -/
def padded (width : Nat) (n : Nat) : String :=
  String.mk (List.replicate (width - (Nat.repr n).length) '0') ++ Nat.repr n

/-- The civil date, as year, month and day, of the day that lies `days` days
after 1 January 1970. -/
def civilDate (days : Int) : Int × Nat × Nat :=
  let z := days + 719468
  let era := z / 146097
  let doe := (z - era * 146097).toNat
  let yoe := (doe - doe / 1460 + doe / 36524 - doe / 146096) / 365
  let doy := doe - (365 * yoe + yoe / 4 - yoe / 100)
  let mp := (5 * doy + 2) / 153
  let d := doy - (153 * mp + 2) / 5 + 1
  let m := if mp < 10 then mp + 3 else mp - 9
  let y := (yoe : Int) + era * 400
  (if m ≤ 2 then y + 1 else y, m, d)

/-- The year as layout element `2006` prints it. -/
def yearText (y : Int) : String :=
  if y < 0 then "-" ++ padded 4 y.natAbs else padded 4 y.natAbs

/-- The fraction of a second as layout element `.999999999` prints it: nothing
for zero, else the nine digits without the zeros at their end. -/
def fraction (ns : Nat) : String :=
  if ns = 0 then ""
  else "." ++ String.mk ((padded 9 ns).toList.reverse.dropWhile (fun c => c = '0')).reverse

/-- The zone offset as layout element `-0700` prints it: the sign, hours and
minutes of the offset cut to whole minutes. -/
def offsetText (offset : Int) : String :=
  (if offset ≤ -60 then "-" else "+") ++ padded 2 (offset.natAbs / 60 / 60) ++
    padded 2 (offset.natAbs / 60 % 60)

/-- The text that the driver stores for a `time.Time` bound to a statement:
with no time format in the DSN, `formatTime` of modernc.org/sqlite returns
`t.String()`, the layout `2006-01-02 15:04:05.999999999 -0700 MST` of the time
in its location; `t` is the instant in nanoseconds since the Unix epoch.  For a
reading of `time.Now()` the method appends the reading of the monotonic clock
(` m=+0.123`), left out here: it follows the zone, so it takes part in a
comparison only between the texts of one instant. -/
def formatTime (loc : Location) (t : Int) : String :=
  let sec := t / 1000000000
  let ns := (t % 1000000000).toNat
  let zone := loc sec
  let localSec := sec + zone.offset
  let date := civilDate (localSec / 86400)
  let rem := (localSec % 86400).toNat
  yearText date.1 ++ "-" ++ padded 2 date.2.1 ++ "-" ++ padded 2 date.2.2 ++ " " ++
    padded 2 (rem / 3600) ++ ":" ++ padded 2 (rem % 3600 / 60) ++ ":" ++ padded 2 (rem % 60) ++
    fraction ns ++ " " ++ offsetText zone.offset ++ " " ++
    (if zone.name ≠ "" then zone.name else offsetText zone.offset)

/-- The order of two TEXT values in SQLite under its default collation,
`BINARY`: the texts are compared byte by byte, which for UTF-8 is character
by character; `true` when the first is the second or comes before it. -/
def textLE : List Char → List Char → Bool
  | [], _ => true
  | _ :: _, [] => false
  | a :: as, b :: bs => decide (a.toNat < b.toNat) || (decide (a.toNat = b.toNat) && textLE as bs)

/-- The order of `ORDER BY last_seen DESC`: `a` may come before `b`.  The
column holds the text that the driver stored for `LastSeen`. -/
def seenNotBefore (loc : Location) (a b : Node) : Prop :=
  textLE (formatTime loc b.LastSeen).toList (formatTime loc a.LastSeen).toList = true

instance (loc : Location) : DecidableRel (seenNotBefore loc) := fun a b => by
  unfold seenNotBefore; infer_instance

/-- The result of a successful `Repository.GetNodes()` on a table written by
`UpsertNode` in location `loc`: the rows in the order of their stored
`last_seen`, greatest first.  `Scan` reads back every row of such a table, so
the loop skips none: a row holds Go strings, never NULL, in its text columns
and the text of a `time.Time` in its time columns. -/
def GetNodes (loc : Location) (rows : Rows) : List Node :=
  rows.insertionSort (seenNotBefore loc)

/-- The location `time.UTC`. -/
def utc : Location := fun _ => { offset := 0, name := "UTC" }

/-- The location `Europe/Berlin` in the months around 27 October 2024: summer
time, two hours east of UTC, until 01:00 UTC of that day, and one hour east of
UTC from then on. -/
def berlin : Location := fun sec =>
  if sec < 1729990800 then { offset := 7200, name := "CEST" } else { offset := 3600, name := "CET" }

/-- A node last seen on 27 October 2024 at 00:30:00.25 UTC. -/
def earlyNode : Node := { bareNode with Port := 2302, LastSeen := 1729989000250000000 }

/-- A node last seen forty minutes after `earlyNode`, at 01:10:00.5 UTC. -/
def lateNode : Node := { bareNode with Port := 2303, LastSeen := 1729991400500000000 }

/-! ## Maintenance tasks (maintenance.go) -/

/-- The constant `config.AnyApplications`. -/
def AnyApplications : String := "AnyApp"

/-- The function `parseAppName`. -/
def parseAppName (input : String) : String :=
  if input = AnyApplications then "" else input

/-- The table after `runWorkerPool(nodes, store, a2sOpts)`: `processNode` for
every node of the batch, here in the order of the batch; `clock i` is the
clock reading of the call for the node at position `i`. -/
def runWorkerPool (env : Env) (rows : Rows) : List Node → (Nat → Int) → Rows
  | [], _ => rows
  | node :: rest, clock =>
    runWorkerPool env (processNode env rows node (clock 0)) rest (fun i => clock (i + 1))

/-- A call of `maintenance.Run` to the storage or to `processNode`. -/
inductive MaintCall where
  | deleteEmptyNodes (appName : String)
  | getNodesSubset (appName : String) (onlyEmptyA2S : Bool)
  | processNode (node : Node)
  deriving DecidableEq, Repr

/-- The calls that `maintenance.Run` makes, the storage calls succeeding. -/
def RunCalls (cfg : Config) (rows : Rows) : List MaintCall :=
  if cfg.Storage.PruneEmpty ≠ "" then
    [MaintCall.deleteEmptyNodes (parseAppName cfg.Storage.PruneEmpty)]
  else if cfg.Storage.CheckInactive ≠ "" then
    MaintCall.getNodesSubset (parseAppName cfg.Storage.CheckInactive) true ::
      (GetNodesSubset rows (parseAppName cfg.Storage.CheckInactive) true).map
        MaintCall.processNode
  else if cfg.Storage.CheckAll ≠ "" then
    MaintCall.getNodesSubset (parseAppName cfg.Storage.CheckAll) false ::
      (GetNodesSubset rows (parseAppName cfg.Storage.CheckAll) false).map
        MaintCall.processNode
  else []

/-- The function `maintenance.Run`: its result and the table afterwards, the
storage calls succeeding. -/
def Run (env : Env) (cfg : Config) (rows : Rows) (clock : Nat → Int) : Bool × Rows :=
  if cfg.Storage.PruneEmpty ≠ "" then
    (true, (DeleteEmptyNodes rows (parseAppName cfg.Storage.PruneEmpty)).1)
  else if cfg.Storage.CheckInactive ≠ "" then
    (true, runWorkerPool env rows
      (GetNodesSubset rows (parseAppName cfg.Storage.CheckInactive) true) clock)
  else if cfg.Storage.CheckAll ≠ "" then
    (true, runWorkerPool env rows
      (GetNodesSubset rows (parseAppName cfg.Storage.CheckAll) false) clock)
  else (false, rows)

/-- The table after the calls of a list made by `maintenance.Run`, each
succeeding; `clock i` is the clock reading of the `processNode` call at
position `i` among the `processNode` calls. -/
def applyMaintCalls (env : Env) (rows : Rows) : List MaintCall → (Nat → Int) → Rows
  | [], _ => rows
  | MaintCall.deleteEmptyNodes appName :: rest, clock =>
    applyMaintCalls env (DeleteEmptyNodes rows appName).1 rest clock
  | MaintCall.getNodesSubset _ _ :: rest, clock => applyMaintCalls env rows rest clock
  | MaintCall.processNode node :: rest, clock =>
    applyMaintCalls env (processNode env rows node (clock 0)) rest (fun i => clock (i + 1))

/-! ## Eviction of idle clients (middleware.go) -/

/-- The idle time `10*time.Minute` after which a client is dropped. -/
def clientIdleLimit : Int := 600000000000

/-- The client map after one pass of the loop that drops old clients, run at
clock value `now`: a client stays unless `now.Sub(c.lastSeen)` exceeds ten
minutes. -/
def sweepClients (now : Int) (clients : StrMap client) : StrMap client :=
  clients.filter (fun e => ¬ (now - e.2.lastSeen > clientIdleLimit))

/-- What happens at the rate limiter: a request arrives, or the loop that drops
old clients runs at clock value `now`. -/
inductive Event (σ : Type) where
  | request (a : Arrival σ)
  | sweep (now : Int)

/-- The clock value of an event; for a request, the reading of the limiter. -/
def Event.time {σ : Type} : Event σ → Int
  | Event.request a => a.nowAllow
  | Event.sweep now => now

/-- The requests of a list of events, in order. -/
def requestsOf {σ : Type} : List (Event σ) → List (Arrival σ)
  | [] => []
  | Event.request a :: rest => a :: requestsOf rest
  | Event.sweep _ :: rest => requestsOf rest

/-- The events of a list handled one after the other: requests by
`RateLimitMiddleware`, sweeps by `sweepClients`. -/
def serveEvents {σ : Type} (env : Env) (s : Server) (clients : StrMap client) (st : σ) :
    List (Event σ) → StrMap client × σ × List Reply
  | [] => (clients, st, [])
  | Event.request a :: rest =>
    let out := RateLimitMiddleware env s a.next clients st a.req a.nowSeen a.nowAllow
    let tail := serveEvents env s out.1 out.2.1 rest
    (tail.1, tail.2.1, out.2.2 :: tail.2.2)
  | Event.sweep now :: rest => serveEvents env s (sweepClients now clients) st rest

/-- A server with hard limit 1 request per window of 20 minutes. -/
def slowServer : Server :=
  { sampleServer with hardLimitCount := 1, hardLimitWin := 1200000000000 }

/-- The beacon `sampleRequest`, sent for port `port`, arriving at `slowServer`
at clock value `t`. -/
def slowArrival (t : Int) (port : Int) : Arrival State :=
  { sampleArrival t port with next := handleTelemetry sampleEnv slowServer t t }

/-- A request through a trusted proxy, with both forwarding headers set. -/
def proxiedRequest : Request :=
  { sampleRequest with
    RemoteAddr := "10.0.0.1:443"
    CFConnectingIP := ""
    XForwardedFor := " 198.51.100.4 , 10.0.0.1" }

/-- A configuration with both check flags set, the first without a value. -/
def bothChecksConfig : Config :=
  { sampleConfig with
    Storage := { PruneEmpty := "", CheckInactive := "AnyApp", CheckAll := "MetricZ" } }

/-- A limiter of limit `l` and burst `K` whose tokens lie between 0 and `K`. -/
def GoodLimiter (l : ℚ) (K : Int) (lim : Limiter) : Prop :=
  lim.limit = some l ∧ lim.burst = K ∧ 0 ≤ lim.tokens ∧ lim.tokens ≤ K

/-- No two entries of a client map have the same address. -/
def UniqueIPs (m : StrMap client) : Prop := (m.map Prod.fst).Nodup

/-- The relation, at clock value `T`, between the client map `mA` of a server
that drops idle clients and the client map `mB` of one that never does, when
the limiter reads the clock at most `g` after the reading kept as `lastSeen`:
`mB` holds well-formed clients whose limiter last admitted by `T` and at most
`g` after `lastSeen`, and `mA` holds the same client for an address or, when
the client has been idle for more than ten minutes, none. -/
def Agree (l : ℚ) (K : Int) (g : Int) (T : Int) (mA mB : StrMap client) : Prop :=
  ∀ ip : String,
    match mB.Load ip with
    | none => mA.Load ip = none
    | some c =>
      GoodLimiter l K c.limiter ∧ c.limiter.last ≤ c.lastSeen + g ∧ c.limiter.last ≤ T ∧
        (mA.Load ip = some c ∨ (mA.Load ip = none ∧ T - c.lastSeen > clientIdleLimit))

/-- A request at 1000 s, a sweep eleven minutes later and a request from the
same address twelve minutes after the first, at `slowServer`. -/
def evictionEvents : List (Event State) :=
  [Event.request (slowArrival 1000000000000 2302), Event.sweep 1660000000000,
    Event.request (slowArrival 1720000000000 2303)]

/-- A server with hard limit 1 request per window of 10 minutes. -/
def tenMinuteServer : Server :=
  { sampleServer with hardLimitCount := 1, hardLimitWin := 600000000000 }

/-- At `tenMinuteServer`: a request whose `lastSeen` is read at 1000 s and
whose limiter reads the clock 10 ns later, a sweep 10 minutes and 5 ns after
that `lastSeen`, and a request from the same address at the time of the
sweep. -/
def gapEvents : List (Event State) :=
  [Event.request
      { sampleArrival 1000000000000 2302 with
        nowAllow := 1000000000010
        next := handleTelemetry sampleEnv tenMinuteServer 1000000000010 1000000000010 },
    Event.sweep 1600000000005,
    Event.request
      { sampleArrival 1600000000005 2303 with
        next := handleTelemetry sampleEnv tenMinuteServer 1600000000005 1600000000005 }]

/-! ## Lemmas on the registry operations -/

theorem key_insertRow (n : Node) : (insertRow n).key = n.key := rfl

theorem key_onConflict (old n : Node) : (onConflict old n).key = old.key := rfl

theorem getNode_key {rows : Rows} {k : Key} {m : Node} (h : GetNode rows k = some m) :
    m.key = k := by
  have := List.find?_some h
  simpa using this

theorem getNode_mem {rows : Rows} {k : Key} {m : Node} (h : GetNode rows k = some m) :
    m ∈ rows := List.mem_of_find?_eq_some h

theorem getNode_eq_none_iff (rows : Rows) (k : Key) :
    GetNode rows k = none ↔ ∀ m ∈ rows, m.key ≠ k := by
  simp [GetNode, List.find?_eq_none]

theorem any_key_iff (rows : Rows) (k : Key) :
    rows.any (fun m => m.key = k) = true ↔ ∃ m, GetNode rows k = some m := by
  induction rows with
  | nil => simp [GetNode]
  | cons a t ih =>
    by_cases h : a.key = k
    · simp [GetNode, List.find?, h]
    · simp only [GetNode] at ih
      simp [GetNode, List.find?, h, ih]

theorem getNode_cons (a : Node) (t : Rows) (k : Key) :
    GetNode (a :: t) k = if a.key = k then some a else GetNode t k := by
  by_cases h : a.key = k <;> simp [GetNode, List.find?, h]

theorem getNode_append_single (t : Rows) (a : Node) (k : Key) :
    GetNode (t ++ [a]) k =
      match GetNode t k with
      | some m => some m
      | none => if a.key = k then some a else none := by
  induction t with
  | nil => simp [getNode_cons]; rfl
  | cons b t ih =>
    rw [List.cons_append, getNode_cons, getNode_cons]
    by_cases h : b.key = k
    · simp [h]
    · simp [h, ih]

/-- Lookup of the updated key after the in-place update of `UpsertNode`. -/
theorem getNode_map_self (t : Rows) (n : Node) :
    GetNode (t.map (fun m => if m.key = n.key then onConflict m n else m)) n.key =
      (GetNode t n.key).map (fun old => onConflict old n) := by
  induction t with
  | nil => rfl
  | cons a t ih =>
    rw [List.map_cons, getNode_cons, getNode_cons]
    by_cases h : a.key = n.key
    · simp [h, key_onConflict]
    · simp [h, ih]

/-- Lookup of another key after the in-place update of `UpsertNode`. -/
theorem getNode_map_other (t : Rows) (n : Node) (k : Key) (hk : n.key ≠ k) :
    GetNode (t.map (fun m => if m.key = n.key then onConflict m n else m)) k =
      GetNode t k := by
  induction t with
  | nil => rfl
  | cons a t ih =>
    rw [List.map_cons, getNode_cons, getNode_cons]
    by_cases h : a.key = n.key
    · have hak : ¬ a.key = k := h ▸ hk
      have hck : ¬ (onConflict a n).key = k := by rw [key_onConflict]; exact hak
      simp [h, hak, hck, ih, hk]
    · simp [h, ih]

/-- The stored row of the upserted key after the call. -/
theorem getNode_upsert_self (rows : Rows) (n : Node) :
    GetNode (UpsertNode rows n) n.key =
      some (match GetNode rows n.key with
            | some old => onConflict old n
            | none => insertRow n) := by
  unfold UpsertNode
  by_cases hany : rows.any (fun m => m.key = n.key) = true
  · obtain ⟨old, hold⟩ := (any_key_iff rows n.key).1 hany
    rw [if_pos hany, getNode_map_self, hold]
    rfl
  · have hnone : GetNode rows n.key = none := by
      cases hg : GetNode rows n.key with
      | none => rfl
      | some m => exact absurd ((any_key_iff rows n.key).2 ⟨m, hg⟩) hany
    rw [if_neg hany, getNode_append_single, hnone]
    simp [key_insertRow]

/-- Rows of other keys are looked up as before the call. -/
theorem getNode_upsert_other (rows : Rows) (n : Node) (k : Key) (hk : n.key ≠ k) :
    GetNode (UpsertNode rows n) k = GetNode rows k := by
  unfold UpsertNode
  split
  · exact getNode_map_other rows n k hk
  · have : ¬ (insertRow n).key = k := by rw [key_insertRow]; exact hk
    rw [getNode_append_single]
    cases GetNode rows k <;> simp [this]


/-- Once a key is stored, further upserts (of any keys) add to its count the
number of upserts of that key and leave its `first_seen` alone. -/
theorem foldl_upsert_present (k : Key) (ns : List Node) :
    ∀ (rows : Rows) (r : Node), GetNode rows k = some r →
      ∃ r', GetNode (ns.foldl UpsertNode rows) k = some r' ∧
        r'.Count = r.Count + ((ns.filter (fun m => m.key = k)).length : Int) ∧
        r'.FirstSeen = r.FirstSeen := by
  induction ns with
  | nil => intro rows r h; exact ⟨r, h, by simp, rfl⟩
  | cons n ns ih =>
    intro rows r h
    rw [List.foldl_cons]
    by_cases hk : n.key = k
    · have h1 : GetNode (UpsertNode rows n) k = some (onConflict r n) := by
        have := getNode_upsert_self rows n
        rw [hk, h] at this
        exact this
      obtain ⟨r', hr', hc, hf⟩ := ih _ _ h1
      refine ⟨r', hr', ?_, ?_⟩
      · rw [hc]
        simp [hk, onConflict]
        ring
      · rw [hf]; rfl
    · have h1 : GetNode (UpsertNode rows n) k = some r := by
        rw [getNode_upsert_other rows n k hk]; exact h
      obtain ⟨r', hr', hc, hf⟩ := ih _ _ h1
      exact ⟨r', hr', by rw [hc]; simp [hk], hf⟩

/-- C1. Starting from a table without key `k`, after any sequence `ns` of
successful `UpsertNode` calls (no delete in between; calls for other keys may
be interleaved) in which the calls for `k` are `first :: later`, the stored
record of `k` has `count` equal to the number of those calls and `first_seen`
equal to the `FirstSeen` passed in the first of them. -/
theorem upsert_count_first_seen (rows : Rows) (k : Key) (ns : List Node)
    (first : Node) (later : List Node)
    (habsent : GetNode rows k = none)
    (hcalls : ns.filter (fun m => m.key = k) = first :: later) :
    ∃ r, GetNode (ns.foldl UpsertNode rows) k = some r ∧
      r.Count = ((first :: later).length : Int) ∧
      r.FirstSeen = first.FirstSeen := by
  induction ns generalizing rows with
  | nil => simp at hcalls
  | cons n ns ih =>
    rw [List.foldl_cons]
    by_cases hk : n.key = k
    · have hf : first = n ∧ ns.filter (fun m => m.key = k) = later := by
        simp [List.filter_cons, hk] at hcalls
        exact ⟨hcalls.1.symm, hcalls.2⟩
      have h1 : GetNode (UpsertNode rows n) k = some (insertRow n) := by
        have := getNode_upsert_self rows n
        rw [hk, habsent] at this
        exact this
      obtain ⟨r', hr', hc, hfs⟩ := foldl_upsert_present k ns _ _ h1
      refine ⟨r', hr', ?_, ?_⟩
      · rw [hc, hf.2]
        simp [insertRow]
        ring
      · rw [hfs, hf.1]; rfl
    · have h1 : GetNode (UpsertNode rows n) k = none := by
        rw [getNode_upsert_other rows n k hk]; exact habsent
      have h2 : ns.filter (fun m => m.key = k) = first :: later := by
        simpa [List.filter_cons, hk] using hcalls
      exact ih _ h1 h2

/-- Witness of C1: three merges of one key into the empty table. -/
theorem upsert_count_first_seen_witness :
    ∃ r, GetNode ([generatedNode, bareNode, storedNode, namedNode].foldl UpsertNode [])
        storedNode.key = some r ∧
      r.Count = (([bareNode, storedNode, namedNode] : List Node).length : Int) ∧
      r.FirstSeen = bareNode.FirstSeen :=
  upsert_count_first_seen [] storedNode.key [generatedNode, bareNode, storedNode, namedNode]
    bareNode [storedNode, namedNode] (by decide) (by decide)

/-- C2. After an `UpsertNode` call on the key of a stored record, the stored
enrichment group is the incoming node's whole group when the incoming
`ServerName` is non-empty, and the previously stored group when it is empty. -/
theorem upsert_enrichment_group (rows : Rows) (old n : Node)
    (hstored : GetNode rows n.key = some old) :
    ∃ r, GetNode (UpsertNode rows n) n.key = some r ∧
      (n.ServerName ≠ "" → r.enrichment = n.enrichment) ∧
      (n.ServerName = "" → r.enrichment = old.enrichment) := by
  refine ⟨onConflict old n, ?_, ?_, ?_⟩
  · rw [getNode_upsert_self, hstored]
  · intro h; simp [onConflict, Node.enrichment, h]
  · intro h; simp [onConflict, Node.enrichment, h]

/-- Witness of C2: a named observation with otherwise empty enrichment fields
merged into `storedNode`. -/
theorem upsert_enrichment_group_witness :
    ∃ r, GetNode (UpsertNode [generatedNode, storedNode] namedNode) namedNode.key = some r ∧
      (namedNode.ServerName ≠ "" → r.enrichment = namedNode.enrichment) ∧
      (namedNode.ServerName = "" → r.enrichment = storedNode.enrichment) :=
  upsert_enrichment_group [generatedNode, storedNode] storedNode namedNode (by decide)

/-- C3. After an `UpsertNode` call on the key of a stored record, the stored
`country_code` is the incoming `CountryCode` if that is non-empty and the
previously stored one otherwise, whatever the incoming `ServerName`. -/
theorem upsert_country_code (rows : Rows) (old n : Node)
    (hstored : GetNode rows n.key = some old) :
    ∃ r, GetNode (UpsertNode rows n) n.key = some r ∧
      r.CountryCode = if n.CountryCode ≠ "" then n.CountryCode else old.CountryCode := by
  refine ⟨onConflict old n, ?_, rfl⟩
  rw [getNode_upsert_self, hstored]

/-- Witness of C3: an observation without country code merged into
`storedNode`. -/
theorem upsert_country_code_witness :
    ∃ r, GetNode (UpsertNode [storedNode] namedNode) namedNode.key = some r ∧
      r.CountryCode =
        if namedNode.CountryCode ≠ "" then namedNode.CountryCode else storedNode.CountryCode :=
  upsert_country_code [storedNode] storedNode namedNode (by decide)

/-- Counterexample to C4 as stated: `bareNode` has an empty `ServerName` and
the key of the stored `storedNode`, and merging it replaces the stored
country code `US` by `DE`. -/
theorem upsert_bare_changes_country :
    GetNode [storedNode] bareNode.key = some storedNode ∧
      bareNode.ServerName = "" ∧
      storedNode.CountryCode = "US" ∧
      (GetNode (UpsertNode [storedNode] bareNode) bareNode.key).map Node.CountryCode
        = some "DE" := by
  decide

/-- C4, amended. After an `UpsertNode` call with empty incoming `ServerName` on
the key of a stored record, the stored `country_code` is unchanged when the
incoming `CountryCode` is empty and is the incoming `CountryCode` otherwise;
the enrichment group is unchanged, `last_seen` is the incoming `LastSeen` and
`count` is the previous count plus one. -/
theorem upsert_bare_observation (rows : Rows) (old n : Node)
    (hstored : GetNode rows n.key = some old) (hbare : n.ServerName = "") :
    ∃ r, GetNode (UpsertNode rows n) n.key = some r ∧
      (n.CountryCode = "" → r.CountryCode = old.CountryCode) ∧
      (n.CountryCode ≠ "" → r.CountryCode = n.CountryCode) ∧
      r.enrichment = old.enrichment ∧
      r.LastSeen = n.LastSeen ∧
      r.Count = old.Count + 1 := by
  refine ⟨onConflict old n, ?_, ?_, ?_, ?_, rfl, rfl⟩
  · rw [getNode_upsert_self, hstored]
  · intro h; simp [onConflict, h]
  · intro h; simp [onConflict, h]
  · simp [onConflict, Node.enrichment, hbare]

/-- Witness of C4 (amended): `bareNode` merged into `storedNode`. -/
theorem upsert_bare_observation_witness :
    ∃ r, GetNode (UpsertNode [storedNode] bareNode) bareNode.key = some r ∧
      (bareNode.CountryCode = "" → r.CountryCode = storedNode.CountryCode) ∧
      (bareNode.CountryCode ≠ "" → r.CountryCode = bareNode.CountryCode) ∧
      r.enrichment = storedNode.enrichment ∧
      r.LastSeen = bareNode.LastSeen ∧
      r.Count = storedNode.Count + 1 :=
  upsert_bare_observation [storedNode] storedNode bareNode (by decide) (by decide)

/-- Counterexample to C6 as stated: `storedNode` has `last_seen = 200`, and
merging `bareNode`, whose `LastSeen` is 150, moves the stored `last_seen`
back to 150. -/
theorem upsert_last_seen_backward :
    GetNode [storedNode] bareNode.key = some storedNode ∧
      storedNode.LastSeen = 200 ∧
      (GetNode (UpsertNode [storedNode] bareNode) bareNode.key).map Node.LastSeen
        = some 150 := by
  decide

/-- C6, amended. After an `UpsertNode` call on the key of a stored record, the
stored `last_seen` is the incoming `LastSeen`; it is therefore at least the
previous `last_seen` whenever the incoming `LastSeen` is. -/
theorem upsert_last_seen (rows : Rows) (old n : Node)
    (hstored : GetNode rows n.key = some old) :
    ∃ r, GetNode (UpsertNode rows n) n.key = some r ∧
      r.LastSeen = n.LastSeen ∧
      (old.LastSeen ≤ n.LastSeen → old.LastSeen ≤ r.LastSeen) := by
  refine ⟨onConflict old n, ?_, rfl, fun h => h⟩
  rw [getNode_upsert_self, hstored]

/-- Witness of C6 (amended): `namedNode` (`LastSeen = 300`) merged into
`storedNode` (`last_seen = 200`). -/
theorem upsert_last_seen_witness :
    ∃ r, GetNode (UpsertNode [storedNode] namedNode) namedNode.key = some r ∧
      r.LastSeen = namedNode.LastSeen ∧
      (storedNode.LastSeen ≤ namedNode.LastSeen → storedNode.LastSeen ≤ r.LastSeen) :=
  upsert_last_seen [storedNode] storedNode namedNode (by decide)

/-! ### Uniqueness of the key -/

theorem keys_map_update (rows : Rows) (n : Node) :
    (rows.map (fun m => if m.key = n.key then onConflict m n else m)).map Node.key =
      rows.map Node.key := by
  induction rows with
  | nil => rfl
  | cons a t ih =>
    simp only [List.map_cons, ih]
    by_cases h : a.key = n.key
    · simp [h, key_onConflict]
    · simp [h]

theorem keys_upsert (rows : Rows) (n : Node) :
    (UpsertNode rows n).map Node.key =
      if rows.any (fun m => m.key = n.key) then rows.map Node.key
      else rows.map Node.key ++ [n.key] := by
  unfold UpsertNode
  split
  · exact keys_map_update rows n
  · simp [key_insertRow]

theorem filter_key_length_one (rows : Rows) (k : Key) (huniq : UniqueKeys rows)
    (hmem : k ∈ rows.map Node.key) :
    (rows.filter (fun m => m.key = k)).length = 1 := by
  induction rows with
  | nil => simp at hmem
  | cons a t ih =>
    unfold UniqueKeys at huniq
    rw [List.map_cons, List.nodup_cons] at huniq
    by_cases h : a.key = k
    · have hnone : t.filter (fun m => m.key = k) = [] := by
        rw [List.filter_eq_nil_iff]
        intro m hm hk
        apply huniq.1
        rw [h]
        exact List.mem_map.2 ⟨m, hm, by simpa using hk⟩
      simp [List.filter_cons, h, hnone]
    · have hmem2 : k ∈ t.map Node.key := by
        rw [List.map_cons, List.mem_cons] at hmem
        rcases hmem with hmem | hmem
        · exact absurd hmem.symm h
        · exact hmem
      simpa [List.filter_cons, h] using ih huniq.2 hmem2

theorem filter_map_update_other (rows : Rows) (n : Node) :
    (rows.map (fun m => if m.key = n.key then onConflict m n else m)).filter
        (fun m => ¬ (m.key = n.key)) =
      rows.filter (fun m => ¬ (m.key = n.key)) := by
  induction rows with
  | nil => rfl
  | cons a t ih =>
    by_cases h : a.key = n.key
    · simpa [List.filter_cons, h, key_onConflict] using ih
    · simpa [List.filter_cons, h] using ih

theorem any_key_iff_mem (rows : Rows) (k : Key) :
    rows.any (fun m => m.key = k) = true ↔ k ∈ rows.map Node.key := by
  simp [List.any_eq_true]

/-- `UpsertNode` keeps the key unique. -/
theorem uniqueKeys_upsert (rows : Rows) (n : Node) (huniq : UniqueKeys rows) :
    UniqueKeys (UpsertNode rows n) := by
  unfold UniqueKeys at *
  rw [keys_upsert]
  split
  · exact huniq
  · rename_i hany
    have hnot : n.key ∉ rows.map Node.key := fun hm => hany ((any_key_iff_mem rows n.key).2 hm)
    exact List.Nodup.append huniq (List.nodup_singleton _)
      (by
        intro a ha hb
        rw [List.mem_singleton] at hb
        exact hnot (hb ▸ ha))

/-- C7. For every table with unique keys and every node `n`, after
`UpsertNode(n)` the table holds exactly one record with the key of `n`, the
records with other keys are the same as before (same rows, same order), and
the keys are still unique. -/
theorem upsert_one_record_per_key (rows : Rows) (n : Node) (huniq : UniqueKeys rows) :
    ((UpsertNode rows n).filter (fun m => m.key = n.key)).length = 1 ∧
      (UpsertNode rows n).filter (fun m => ¬ (m.key = n.key)) =
        rows.filter (fun m => ¬ (m.key = n.key)) ∧
      UniqueKeys (UpsertNode rows n) := by
  refine ⟨?_, ?_, uniqueKeys_upsert rows n huniq⟩
  · apply filter_key_length_one _ _ (uniqueKeys_upsert rows n huniq)
    rw [keys_upsert]
    split
    · rename_i hany
      exact (any_key_iff_mem rows n.key).1 hany
    · simp
  · unfold UpsertNode
    split
    · exact filter_map_update_other rows n
    · simp [List.filter_append, List.filter_cons, key_insertRow]

/-- Witness of C7: a merge into a two-row table. -/
theorem upsert_one_record_per_key_witness :
    ((UpsertNode [generatedNode, storedNode] bareNode).filter
        (fun m => m.key = bareNode.key)).length = 1 ∧
      (UpsertNode [generatedNode, storedNode] bareNode).filter
          (fun m => ¬ (m.key = bareNode.key)) =
        [generatedNode, storedNode].filter (fun m => ¬ (m.key = bareNode.key)) ∧
      UniqueKeys (UpsertNode [generatedNode, storedNode] bareNode) :=
  upsert_one_record_per_key [generatedNode, storedNode] bareNode (by decide)

/-- Counterexample to C5 as stated: `generatedNode`, whose `FirstSeen` is seven
days before its `LastSeen`, is inserted for an absent key with `count = 1` and
`first_seen` different from `last_seen`; and `processJob` for a first beacon,
with clock readings 1000 and 1001 for its two `time.Now()` calls, creates a
record with `first_seen = 1000` and `last_seen = 1001`. -/
theorem insert_first_seen_differs :
    GetNode [] generatedNode.key = none ∧
      (GetNode (UpsertNode [] generatedNode) generatedNode.key).map
          (fun r => (r.Count, r.FirstSeen, r.LastSeen)) = some (1, 0, 604800000000000) ∧
      (GetNode (processJob sampleEnv sampleServer [] sampleJob 1000 1001)
          (jobNode sampleEnv sampleServer sampleJob 1000 1001).key).map
          (fun r => (r.Count, r.FirstSeen, r.LastSeen)) = some (1, 1000, 1001) := by
  decide

/-- C5, amended. For every node whose key is absent from the table,
`UpsertNode` creates a record with `count = 1`, `first_seen` the node's
`FirstSeen` and `last_seen` the node's `LastSeen`; so `first_seen` equals
`last_seen` when the caller passes equal values. -/
theorem upsert_insert_record (rows : Rows) (n : Node) (habsent : GetNode rows n.key = none) :
    ∃ r, GetNode (UpsertNode rows n) n.key = some r ∧
      r.Count = 1 ∧ r.FirstSeen = n.FirstSeen ∧ r.LastSeen = n.LastSeen ∧
      (n.FirstSeen = n.LastSeen → r.FirstSeen = r.LastSeen) := by
  refine ⟨insertRow n, ?_, rfl, rfl, rfl, fun h => h⟩
  rw [getNode_upsert_self, habsent]

/-- Witness of C5 (amended): `bareNode` inserted next to another key. -/
theorem upsert_insert_record_witness :
    ∃ r, GetNode (UpsertNode [generatedNode] bareNode) bareNode.key = some r ∧
      r.Count = 1 ∧ r.FirstSeen = bareNode.FirstSeen ∧ r.LastSeen = bareNode.LastSeen ∧
      (bareNode.FirstSeen = bareNode.LastSeen → r.FirstSeen = r.LastSeen) :=
  upsert_insert_record [generatedNode] bareNode (by decide)

/-! ### The telemetry handler -/

theorem handleTelemetry_valid (env : Env) (s : Server) (nowSince nowStore : Int) (st : State)
    (r : Request) (job : telemetryJob) (hvalid : validBeacon env s r = some job) :
    handleTelemetry env s nowSince nowStore st r = afterValidation s nowSince nowStore st job := by
  unfold validBeacon at hvalid
  unfold handleTelemetry
  by_cases h1 : r.Method ≠ "POST"
  · rw [if_pos h1] at hvalid; exact absurd hvalid (by simp)
  rw [if_neg h1] at hvalid ⊢
  by_cases h2 : s.expectedCT ≠ "" ∧ ¬ (s.expectedCT.toList.isPrefixOf r.ContentType.toList = true)
  · rw [if_pos h2] at hvalid; exact absurd hvalid (by simp)
  rw [if_neg h2] at hvalid
  simp only [if_neg h2]
  by_cases h3 : ¬ (s.ignoreUA = true) ∧ r.UserAgent ≠ s.expectedUA
  · rw [if_pos h3] at hvalid; exact absurd hvalid (by simp)
  rw [if_neg h3] at hvalid
  simp only [if_neg h3]
  cases hd : r.Decoded with
  | none => rw [hd] at hvalid; exact absurd hvalid (by simp)
  | some decoded =>
    rw [hd] at hvalid
    simp only at hvalid ⊢
    by_cases h4 : decoded.Port < 0 ∨ decoded.Port > 65535
    · rw [if_pos h4] at hvalid; exact absurd hvalid (by simp)
    rw [if_neg h4] at hvalid ⊢
    generalize (if decoded.Port = 0 then { decoded with Port := 27016 } else decoded) = req
      at hvalid ⊢
    by_cases h5 : s.allowedApps.length > 0 ∧ env.Sum64String req.Application ∉ s.allowedApps
    · rw [if_pos h5] at hvalid; exact absurd hvalid (by simp)
    rw [if_neg h5] at hvalid ⊢
    simp only [Option.some.injEq] at hvalid
    subst hvalid
    rfl

theorem load_store_self {α : Type} (m : StrMap α) (k : String) (v : α) :
    (m.Store k v).Load k = some v := by
  simp [StrMap.Store, StrMap.Load, List.find?]

theorem load_store_other {α : Type} (m : StrMap α) (k k' : String) (v : α) (h : k ≠ k') :
    (m.Store k v).Load k' = m.Load k' := by
  have hfilter : (m.filter (fun e => ¬ (e.1 = k))).find? (fun e => e.1 = k')
      = m.find? (fun e => e.1 = k') := by
    induction m with
    | nil => rfl
    | cons a t ih =>
      by_cases h1 : a.1 = k
      · have h2 : ¬ a.1 = k' := fun h3 => h (h1.symm.trans h3)
        rw [List.filter_cons_of_neg (by simpa using h1),
          List.find?_cons_of_neg _ (by simpa using h2)]
        exact ih
      · rw [List.filter_cons_of_pos (by simpa using h1)]
        by_cases h2 : a.1 = k'
        · rw [List.find?_cons_of_pos _ (by simpa using h2),
            List.find?_cons_of_pos _ (by simpa using h2)]
        · rw [List.find?_cons_of_neg _ (by simpa using h2),
            List.find?_cons_of_neg _ (by simpa using h2)]
          exact ih
  simp only [StrMap.Store, StrMap.Load]
  rw [List.find?_cons_of_neg _ (by simpa using h), hfilter]

/-- A beacon answered "successfully accounted" leaves its clock reading
`nowStore` in the cache under its soft key. -/
theorem accepted_records_time (env : Env) (s : Server) (nowSince nowStore : Int) (st : State)
    (r : Request) (job : telemetryJob) (hvalid : validBeacon env s r = some job)
    (hacc : (handleTelemetry env s nowSince nowStore st r).2 =
      Reply.response (respondOK "successfully accounted")) :
    (handleTelemetry env s nowSince nowStore st r).1.seenCache.Load
      (softKey job.IP job.Req.Port) = some nowStore := by
  rw [handleTelemetry_valid env s nowSince nowStore st r job hvalid] at hacc ⊢
  unfold afterValidation at hacc ⊢
  by_cases hhit : softHit s st.seenCache (softKey job.IP job.Req.Port) nowSince = true
  · rw [if_pos hhit] at hacc
    simp [respondOK] at hacc
  · rw [if_neg hhit]
    simp only
    split_ifs <;> exact load_store_self _ _ _

/-- C9. Two valid beacons with the same soft key `ip:port`; the first is
answered "successfully accounted" and records clock reading `t1`, and the
cache entry of the key is still the one it left when the second arrives (state
`st`).  The second reads the clock as `c2` for the soft-limit test and as `t2`
for the cache write.  If `c2 - t1 < S` it is answered "ok" and the state,
queue and cache included, is unchanged.  If `c2 - t1 > S`, the queue being
open and not full, it is answered "successfully accounted", its job is added
at the end of the queue and the cache entry of the key becomes `t2`. -/
theorem soft_limit_window (env : Env) (s : Server) (st0 st : State) (r1 r2 : Request)
    (job1 job2 : telemetryJob) (c1 t1 c2 t2 : Int)
    (hvalid1 : validBeacon env s r1 = some job1)
    (hvalid2 : validBeacon env s r2 = some job2)
    (hkey : softKey job1.IP job1.Req.Port = softKey job2.IP job2.Req.Port)
    (haccepted : (handleTelemetry env s c1 t1 st0 r1).2 =
      Reply.response (respondOK "successfully accounted"))
    (hkept : st.seenCache.Load (softKey job2.IP job2.Req.Port) =
      (handleTelemetry env s c1 t1 st0 r1).1.seenCache.Load (softKey job2.IP job2.Req.Port)) :
    (c2 - t1 < s.softLimitDur →
      handleTelemetry env s c2 t2 st r2 = (st, Reply.response (respondOK "ok"))) ∧
    (c2 - t1 > s.softLimitDur → st.closed = false → st.queue.length < queueCapacity →
      (handleTelemetry env s c2 t2 st r2).2 =
          Reply.response (respondOK "successfully accounted") ∧
        (handleTelemetry env s c2 t2 st r2).1.queue = st.queue ++ [job2] ∧
        (handleTelemetry env s c2 t2 st r2).1.seenCache.Load (softKey job2.IP job2.Req.Port) =
          some t2) := by
  have hrec := accepted_records_time env s c1 t1 st0 r1 job1 hvalid1 haccepted
  rw [hkey] at hrec
  rw [hrec] at hkept
  rw [handleTelemetry_valid env s c2 t2 st r2 job2 hvalid2]
  unfold afterValidation
  constructor
  · intro hlt
    have hhit : softHit s st.seenCache (softKey job2.IP job2.Req.Port) c2 = true := by
      simp [softHit, hkept, hlt]
    rw [if_pos hhit]
  · intro hgt hopen hroom
    have hhit : ¬ softHit s st.seenCache (softKey job2.IP job2.Req.Port) c2 = true := by
      simp [softHit, hkept]
      omega
    rw [if_neg hhit]
    simp only [hopen, Bool.false_eq_true, if_false, if_pos hroom]
    exact ⟨trivial, trivial, load_store_self _ _ _⟩

/-- Witness of C9: `sampleRequest` accepted at clock value 1000 and sent again,
with the state the first left. -/
theorem soft_limit_window_witness :
    (2000 - 1000 < sampleServer.softLimitDur →
      handleTelemetry sampleEnv sampleServer 2000 2001
          (handleTelemetry sampleEnv sampleServer 1000 1000 emptyState sampleRequest).1
          sampleRequest =
        ((handleTelemetry sampleEnv sampleServer 1000 1000 emptyState sampleRequest).1,
          Reply.response (respondOK "ok"))) ∧
    (2000 - 1000 > sampleServer.softLimitDur →
      (handleTelemetry sampleEnv sampleServer 1000 1000 emptyState sampleRequest).1.closed
        = false →
      (handleTelemetry sampleEnv sampleServer 1000 1000 emptyState sampleRequest).1.queue.length
        < queueCapacity →
      (handleTelemetry sampleEnv sampleServer 2000 2001
          (handleTelemetry sampleEnv sampleServer 1000 1000 emptyState sampleRequest).1
          sampleRequest).2 = Reply.response (respondOK "successfully accounted") ∧
        (handleTelemetry sampleEnv sampleServer 2000 2001
          (handleTelemetry sampleEnv sampleServer 1000 1000 emptyState sampleRequest).1
          sampleRequest).1.queue =
          (handleTelemetry sampleEnv sampleServer 1000 1000 emptyState sampleRequest).1.queue
            ++ [sampleJob] ∧
        (handleTelemetry sampleEnv sampleServer 2000 2001
          (handleTelemetry sampleEnv sampleServer 1000 1000 emptyState sampleRequest).1
          sampleRequest).1.seenCache.Load (softKey sampleJob.IP sampleJob.Req.Port) =
          some 2001) :=
  soft_limit_window sampleEnv sampleServer emptyState
    (handleTelemetry sampleEnv sampleServer 1000 1000 emptyState sampleRequest).1
    sampleRequest sampleRequest sampleJob sampleJob 1000 1000 2000 2001
    (by decide) (by decide) rfl (by decide) rfl

/-- C10. A beacon passes all validation and the soft limit while the queue
holds its full capacity of 1000 jobs.  While the queue is open, `handleTelemetry`
takes the `default` branch of its `select`: it returns status 200 with body
"not accounted" and leaves the queue and the table as they were.  Once
`StopWorkers` has closed the queue, the same beacon is not answered
"not accounted": the send of the `select` panics, after the clock reading has
been stored under the soft key; queue and table are as they were. -/
theorem full_queue_not_accounted_or_panics (env : Env) (s : Server) (st : State) (r : Request)
    (job : telemetryJob) (nowSince nowStore : Int)
    (hvalid : validBeacon env s r = some job)
    (hsoft : softHit s st.seenCache (softKey job.IP job.Req.Port) nowSince = false)
    (hfull : st.queue.length = 1000) :
    (st.closed = false →
      (handleTelemetry env s nowSince nowStore st r).2 =
          Reply.response { Status := 200, Body := "not accounted" } ∧
        (handleTelemetry env s nowSince nowStore st r).1.queue = st.queue ∧
        (handleTelemetry env s nowSince nowStore st r).1.rows = st.rows) ∧
    (st.closed = true →
      (handleTelemetry env s nowSince nowStore st r).2 =
          Reply.panicked "send on closed channel" ∧
        (handleTelemetry env s nowSince nowStore st r).2 ≠
          Reply.response { Status := 200, Body := "not accounted" } ∧
        (handleTelemetry env s nowSince nowStore st r).1.seenCache =
          st.seenCache.Store (softKey job.IP job.Req.Port) nowStore ∧
        (handleTelemetry env s nowSince nowStore st r).1.queue = st.queue ∧
        (handleTelemetry env s nowSince nowStore st r).1.rows = st.rows) := by
  rw [handleTelemetry_valid env s nowSince nowStore st r job hvalid]
  unfold afterValidation
  have hroom : ¬ st.queue.length < queueCapacity := by
    rw [hfull]; decide
  constructor
  · intro hopen
    simp [hsoft, hopen, hroom, respondOK]
  · intro hclosed
    simp [hsoft, hclosed]

/-- Evaluation for C10: `sampleRequest` arriving when the queue holds 1000 jobs
and `StopWorkers` has closed it. -/
theorem full_queue_not_accounted_or_panics_witness :
    (closeQueue (StartWorkers fullState)).st.queue.length = 1000 ∧
      (closeQueue (StartWorkers fullState)).st.closed = true ∧
      (handleTelemetry sampleEnv sampleServer 5000 5000
          (closeQueue (StartWorkers fullState)).st sampleRequest).2 =
        Reply.panicked "send on closed channel" ∧
      (handleTelemetry sampleEnv sampleServer 5000 5000
          (closeQueue (StartWorkers fullState)).st sampleRequest).2 ≠
        Reply.response { Status := 200, Body := "not accounted" } :=
  ⟨List.length_replicate _ _, rfl,
    ((full_queue_not_accounted_or_panics sampleEnv sampleServer
      (closeQueue (StartWorkers fullState)).st sampleRequest sampleJob 5000 5000
      (by decide) (by decide) (List.length_replicate _ _)).2 rfl).1,
    ((full_queue_not_accounted_or_panics sampleEnv sampleServer
      (closeQueue (StartWorkers fullState)).st sampleRequest sampleJob 5000 5000
      (by decide) (by decide) (List.length_replicate _ _)).2 rfl).2.1⟩

/-! ### The hard limit -/

theorem seconds_nonneg {d : Int} (h : 0 ≤ d) : 0 ≤ Seconds d := by
  unfold Seconds
  have : (0 : ℚ) ≤ (d : ℚ) := by exact_mod_cast h
  positivity

/-- The limit of a positive count over a positive window refills `d * K / W`
tokens in `d` nanoseconds. -/
theorem hardLimit_pos (K W : Int) (hK : 1 ≤ K) (hW : 0 < W) :
    ∃ l : ℚ, hardLimit K W = some l ∧ 0 < l ∧
      ∀ d : Int, Seconds d * l = ((d : ℚ) * K) / W := by
  have hKq : (0 : ℚ) < (K : ℚ) := by exact_mod_cast (by omega : (0 : Int) < K)
  have hWq : (0 : ℚ) < (W : ℚ) := by exact_mod_cast hW
  refine ⟨(K : ℚ) / Seconds W, ?_, ?_, ?_⟩
  · unfold hardLimit
    rw [if_neg (by omega)]
  · unfold Seconds
    positivity
  · intro d
    unfold Seconds
    field_simp
    ring

/-- A new limiter admits its first request and is left with `burst - 1`
tokens. -/
theorem allow_fresh (l : ℚ) (hl : 0 < l) (K : Int) (hK : 1 ≤ K) (now : Int) :
    (NewLimiter (some l) K).Allow now =
      (true, { limit := some l, burst := K, tokens := (K : ℚ) - 1, last := now }) := by
  have hKq : (1 : ℚ) ≤ (K : ℚ) := by exact_mod_cast hK
  have hd : 0 ≤ Seconds (now - (if now < 0 then now else 0)) * l := by
    apply mul_nonneg _ hl.le
    apply seconds_nonneg
    split_ifs <;> omega
  unfold Limiter.Allow NewLimiter
  simp only [if_neg hl.ne']
  generalize Seconds (now - (if now < 0 then now else 0)) * l = δ at hd ⊢
  have htok : (if (K : ℚ) + δ > (K : ℚ) then (K : ℚ) else (K : ℚ) + δ) = (K : ℚ) := by
    by_cases h1 : (K : ℚ) + δ > (K : ℚ)
    · rw [if_pos h1]
    · rw [if_neg h1]
      have : δ = 0 := le_antisymm (by linarith) hd
      rw [this, add_zero]
  rw [htok]
  rw [if_pos ⟨hK, by linarith⟩]

/-- The middleware in terms of the limiter of the address. -/
theorem rateLimit_eq {σ : Type} (env : Env) (s : Server) (next : Handler σ)
    (clients : StrMap client) (st : σ) (r : Request) (nowSeen nowAllow : Int) :
    RateLimitMiddleware env s next clients st r nowSeen nowAllow =
      (clients.Store (GetRealIP env r s.trustProxy)
          { limiter := ((limiterOf s clients (GetRealIP env r s.trustProxy)).Allow nowAllow).2,
            lastSeen := nowSeen },
        if ((limiterOf s clients (GetRealIP env r s.trustProxy)).Allow nowAllow).1 = false
        then (st, tooManyRequests) else next st r) := by
  simp only [RateLimitMiddleware, limiterOf, tooManyRequests]
  cases clients.Load (GetRealIP env r s.trustProxy) <;> simp only <;> split_ifs <;> rfl

/-- A POST request that fails one of the checks before the soft limit is
answered "not accounted" and changes nothing. -/
theorem handleTelemetry_invalid (env : Env) (s : Server) (nowSince nowStore : Int) (st : State)
    (r : Request) (hpost : r.Method = "POST") (hinvalid : validBeacon env s r = none) :
    handleTelemetry env s nowSince nowStore st r =
      (st, Reply.response (respondOK "not accounted")) := by
  unfold validBeacon at hinvalid
  unfold handleTelemetry
  have h1 : ¬ r.Method ≠ "POST" := fun h => h hpost
  rw [if_neg h1] at hinvalid ⊢
  by_cases h2 : s.expectedCT ≠ "" ∧ ¬ (s.expectedCT.toList.isPrefixOf r.ContentType.toList = true)
  · simp only [if_pos h2]
  rw [if_neg h2] at hinvalid
  simp only [if_neg h2]
  by_cases h3 : ¬ (s.ignoreUA = true) ∧ r.UserAgent ≠ s.expectedUA
  · simp only [if_pos h3]
  rw [if_neg h3] at hinvalid
  simp only [if_neg h3]
  cases hd : r.Decoded with
  | none => rfl
  | some decoded =>
    rw [hd] at hinvalid
    simp only at hinvalid ⊢
    by_cases h4 : decoded.Port < 0 ∨ decoded.Port > 65535
    · rw [if_pos h4]
    rw [if_neg h4] at hinvalid ⊢
    generalize (if decoded.Port = 0 then { decoded with Port := 27016 } else decoded) = req
      at hinvalid ⊢
    by_cases h5 : s.allowedApps.length > 0 ∧ env.Sum64String req.Application ∉ s.allowedApps
    · rw [if_pos h5]
    rw [if_neg h5] at hinvalid
    exact absurd hinvalid (by simp)

/-- Counterexample to C11 as stated: `sampleRequest` sent with method GET
reaches `handleTelemetry` and is answered with status 405 and body
"Method not allowed" followed by a line feed. -/
theorem bad_method_status_405 :
    handleTelemetry sampleEnv sampleServer 1000 1000 emptyState
        { sampleRequest with Method := "GET" } =
      (emptyState, Reply.response { Status := 405, Body := "Method not allowed\n" }) := by
  decide

/-- C11, amended. While the job queue is open, every POST request that reaches
`handleTelemetry` is answered with status 200 and one of the bodies
"successfully accounted", "not accounted" and "ok"; a request with another
method is answered with status 405 and changes nothing. -/
theorem telemetry_reply_tokens (env : Env) (s : Server) (nowSince nowStore : Int) (st : State)
    (r : Request) (hopen : st.closed = false) :
    (r.Method = "POST" →
      ∃ body : String,
        (body = "successfully accounted" ∨ body = "not accounted" ∨ body = "ok") ∧
        (handleTelemetry env s nowSince nowStore st r).2 =
          Reply.response { Status := 200, Body := body }) ∧
    (r.Method ≠ "POST" →
      handleTelemetry env s nowSince nowStore st r =
        (st, Reply.response { Status := 405, Body := "Method not allowed\n" })) := by
  constructor
  · intro hpost
    cases hv : validBeacon env s r with
    | none =>
      rw [handleTelemetry_invalid env s nowSince nowStore st r hpost hv]
      exact ⟨"not accounted", Or.inr (Or.inl rfl), rfl⟩
    | some job =>
      rw [handleTelemetry_valid env s nowSince nowStore st r job hv]
      unfold afterValidation
      by_cases hhit : softHit s st.seenCache (softKey job.IP job.Req.Port) nowSince = true
      · rw [if_pos hhit]
        exact ⟨"ok", Or.inr (Or.inr rfl), rfl⟩
      · rw [if_neg hhit]
        simp only [hopen, Bool.false_eq_true, if_false]
        by_cases hroom : st.queue.length < queueCapacity
        · rw [if_pos hroom]
          exact ⟨"successfully accounted", Or.inl rfl, rfl⟩
        · rw [if_neg hroom]
          exact ⟨"not accounted", Or.inr (Or.inl rfl), rfl⟩
  · intro hbad
    unfold handleTelemetry
    rw [if_pos hbad]
    rfl

/-- Witness of C11 (amended): `sampleRequest` arriving at a running server. -/
theorem telemetry_reply_tokens_witness :
    (sampleRequest.Method = "POST" →
      ∃ body : String,
        (body = "successfully accounted" ∨ body = "not accounted" ∨ body = "ok") ∧
        (handleTelemetry sampleEnv sampleServer 1000 1000 emptyState sampleRequest).2 =
          Reply.response { Status := 200, Body := body }) ∧
    (sampleRequest.Method ≠ "POST" →
      handleTelemetry sampleEnv sampleServer 1000 1000 emptyState sampleRequest =
        (emptyState, Reply.response { Status := 405, Body := "Method not allowed\n" })) :=
  telemetry_reply_tokens sampleEnv sampleServer 1000 1000 emptyState sampleRequest rfl


/-! ### The allow-list -/

/-- Two different names with the same hash exist for every hash function with
64-bit values. -/
theorem hash_collision (h : String → Nat) (hbound : ∀ a, h a < 2 ^ 64) :
    ∃ a b : String, a ≠ b ∧ h a = h b := by
  obtain ⟨m, n, hmn, heq⟩ := Finite.exists_ne_map_eq_of_infinite
    (fun k : ℕ => (⟨h (String.mk (List.replicate k 'a')), hbound _⟩ : Fin (2 ^ 64)))
  refine ⟨String.mk (List.replicate m 'a'), String.mk (List.replicate n 'a'), ?_, ?_⟩
  · intro hab
    apply hmn
    have := congrArg String.length hab
    simpa [String.length] using this
  · exact congrArg Fin.val heq

/-- Counterexample to C12 as stated: whatever 64-bit hash function
`xxhash.Sum64String` is, the allow-list clause fails: two different names have
the same hash, and with one of them configured a POST beacon of the other,
which is not one of the configured names, is not answered "not accounted"
but queued. -/
theorem allow_list_compares_hashes :
    ¬ ∃ env : Env, (∀ a, env.Sum64String a < 2 ^ 64) ∧
      ∀ (cfg : Config) (st : State) (r : Request) (d : TelemetryRequest) (c t : Int),
        r.Method = "POST" → r.Decoded = some d → cfg.Server.AllowedApps ≠ [] →
        d.Application ∉ cfg.Server.AllowedApps →
        (handleTelemetry env (New env none cfg) c t st r).2 =
          Reply.response (respondOK "not accounted") := by
  rintro ⟨env, hbound, hclaim⟩
  obtain ⟨a, b, hab, hhash⟩ := hash_collision env.Sum64String hbound
  have hreply := hclaim
    { Server := { AllowedApps := [b], TrustProxy := false, IgnoreUA := true, ExpectedUA := "",
                  ContentType := "" }
      RateLimit := { HardLimitCount := 8, HardLimitWin := 60000000000,
                     SoftLimitDur := 300000000000 }
      Storage := { PruneEmpty := "", CheckInactive := "", CheckAll := "" } }
    emptyState
    { sampleRequest with
      Decoded := some { Application := a, Type_ := "", Version := "", Port := 2302 } }
    { Application := a, Type_ := "", Version := "", Port := 2302 } 0 0
    rfl rfl (by simp) (by simpa using hab)
  rw [handleTelemetry_valid _ _ _ _ _ _
    { IP := GetRealIP env
        { sampleRequest with
          Decoded := some { Application := a, Type_ := "", Version := "", Port := 2302 } } false,
      Req := { Application := a, Type_ := "", Version := "", Port := 2302 } }
    (by
      simp [validBeacon, New, sampleRequest, hhash])] at hreply
  simp [afterValidation, softHit, StrMap.Load, emptyState, queueCapacity, respondOK] at hreply

theorem normalised_application (d : TelemetryRequest) :
    (if d.Port = 0 then { d with Port := 27016 } else d).Application = d.Application := by
  split <;> rfl

/-- C12, amended. A POST request that fails the Content-Type prefix check, the
User-Agent check (when validation is enabled), JSON decoding, or the allow-list
check (allow-list non-empty and the hash of the application name is not the
hash of any configured name) is answered 200 "not accounted" and leaves the
state, job queue and soft-limit cache included, unchanged.  A request that
passes the other checks passes the allow-list check when the allow-list is
empty or its application name is one of the configured names. -/
theorem admission_errors (env : Env) (geo : Option (String → String)) (cfg : Config)
    (nowSince nowStore : Int) (st : State) (r : Request) (hpost : r.Method = "POST") :
    ((cfg.Server.ContentType ≠ "" ∧
        ¬ (cfg.Server.ContentType.toList.isPrefixOf r.ContentType.toList = true)) →
      handleTelemetry env (New env geo cfg) nowSince nowStore st r =
        (st, Reply.response { Status := 200, Body := "not accounted" })) ∧
    ((cfg.Server.IgnoreUA = false ∧ r.UserAgent ≠ cfg.Server.ExpectedUA) →
      handleTelemetry env (New env geo cfg) nowSince nowStore st r =
        (st, Reply.response { Status := 200, Body := "not accounted" })) ∧
    (r.Decoded = none →
      handleTelemetry env (New env geo cfg) nowSince nowStore st r =
        (st, Reply.response { Status := 200, Body := "not accounted" })) ∧
    (∀ d : TelemetryRequest, r.Decoded = some d → cfg.Server.AllowedApps ≠ [] →
      (∀ name ∈ cfg.Server.AllowedApps,
        env.Sum64String name ≠ env.Sum64String d.Application) →
      handleTelemetry env (New env geo cfg) nowSince nowStore st r =
        (st, Reply.response { Status := 200, Body := "not accounted" })) ∧
    (∀ d : TelemetryRequest,
      ¬ (cfg.Server.ContentType ≠ "" ∧
        ¬ (cfg.Server.ContentType.toList.isPrefixOf r.ContentType.toList = true)) →
      ¬ (cfg.Server.IgnoreUA = false ∧ r.UserAgent ≠ cfg.Server.ExpectedUA) →
      r.Decoded = some d → 0 ≤ d.Port → d.Port ≤ 65535 →
      (cfg.Server.AllowedApps = [] ∨ d.Application ∈ cfg.Server.AllowedApps) →
      validBeacon env (New env geo cfg) r =
        some { IP := GetRealIP env r cfg.Server.TrustProxy,
               Req := if d.Port = 0 then { d with Port := 27016 } else d }) := by
  have hm : ¬ r.Method ≠ "POST" := fun h => h hpost
  refine ⟨?_, ?_, ?_, ?_, ?_⟩
  · intro hct
    apply handleTelemetry_invalid _ _ _ _ _ _ hpost
    unfold validBeacon
    rw [if_neg hm]
    have : (New env geo cfg).expectedCT = cfg.Server.ContentType := rfl
    rw [this, if_pos hct]
  · intro hua
    apply handleTelemetry_invalid _ _ _ _ _ _ hpost
    unfold validBeacon
    rw [if_neg hm]
    split
    · rfl
    · have : ¬ ((New env geo cfg).ignoreUA = true) ∧ r.UserAgent ≠ (New env geo cfg).expectedUA := by
        refine ⟨?_, hua.2⟩
        show ¬ (cfg.Server.IgnoreUA = true)
        rw [hua.1]
        simp
      rw [if_pos this]
  · intro hdec
    apply handleTelemetry_invalid _ _ _ _ _ _ hpost
    unfold validBeacon
    rw [if_neg hm, hdec]
    split
    · rfl
    · split <;> rfl
  · intro d hdec hne hnot
    apply handleTelemetry_invalid _ _ _ _ _ _ hpost
    unfold validBeacon
    rw [if_neg hm, hdec]
    split
    · rfl
    · split
      · rfl
      · simp only
        split
        · rfl
        · have hfail : (New env geo cfg).allowedApps.length > 0 ∧
              env.Sum64String
                  (if d.Port = 0 then { d with Port := 27016 } else d).Application ∉
                (New env geo cfg).allowedApps := by
            rw [normalised_application]
            constructor
            · show (cfg.Server.AllowedApps.map env.Sum64String).length > 0
              rw [List.length_map]
              exact List.length_pos.2 hne
            · show env.Sum64String d.Application ∉ cfg.Server.AllowedApps.map env.Sum64String
              intro hmem
              obtain ⟨name, hname, heq⟩ := List.mem_map.1 hmem
              exact hnot name hname heq
          rw [if_pos hfail]
  · intro d hct hua hdec hlo hhi hallow
    unfold validBeacon
    rw [if_neg hm, hdec]
    have h2 : ¬ ((New env geo cfg).expectedCT ≠ "" ∧
        ¬ ((New env geo cfg).expectedCT.toList.isPrefixOf r.ContentType.toList = true)) := hct
    have h3 : ¬ (¬ ((New env geo cfg).ignoreUA = true) ∧
        r.UserAgent ≠ (New env geo cfg).expectedUA) := by
      rintro ⟨hi, hu⟩
      apply hua
      refine ⟨?_, hu⟩
      have hi2 : ¬ (cfg.Server.IgnoreUA = true) := hi
      simpa using hi2
    rw [if_neg h2, if_neg h3]
    simp only
    rw [if_neg (by omega)]
    have h5 : ¬ ((New env geo cfg).allowedApps.length > 0 ∧
        env.Sum64String (if d.Port = 0 then { d with Port := 27016 } else d).Application ∉
          (New env geo cfg).allowedApps) := by
      rw [normalised_application]
      rintro ⟨hlen, hnot⟩
      rcases hallow with hempty | hmem
      · have hlen2 : (cfg.Server.AllowedApps.map env.Sum64String).length > 0 := hlen
        rw [hempty] at hlen2
        simp at hlen2
      · exact hnot (List.mem_map.2 ⟨d.Application, hmem, rfl⟩)
    rw [if_neg h5]
    rfl

/-- Witness of C12 (amended): `sampleRequest` at the server built from
`sampleConfig`. -/
theorem admission_errors_witness :
    ((sampleConfig.Server.ContentType ≠ "" ∧
        ¬ (sampleConfig.Server.ContentType.toList.isPrefixOf
            sampleRequest.ContentType.toList = true)) →
      handleTelemetry sampleEnv (New sampleEnv none sampleConfig) 1000 1000 emptyState
          sampleRequest =
        (emptyState, Reply.response { Status := 200, Body := "not accounted" })) ∧
    ((sampleConfig.Server.IgnoreUA = false ∧
        sampleRequest.UserAgent ≠ sampleConfig.Server.ExpectedUA) →
      handleTelemetry sampleEnv (New sampleEnv none sampleConfig) 1000 1000 emptyState
          sampleRequest =
        (emptyState, Reply.response { Status := 200, Body := "not accounted" })) ∧
    (sampleRequest.Decoded = none →
      handleTelemetry sampleEnv (New sampleEnv none sampleConfig) 1000 1000 emptyState
          sampleRequest =
        (emptyState, Reply.response { Status := 200, Body := "not accounted" })) ∧
    (∀ d : TelemetryRequest, sampleRequest.Decoded = some d →
      sampleConfig.Server.AllowedApps ≠ [] →
      (∀ name ∈ sampleConfig.Server.AllowedApps,
        sampleEnv.Sum64String name ≠ sampleEnv.Sum64String d.Application) →
      handleTelemetry sampleEnv (New sampleEnv none sampleConfig) 1000 1000 emptyState
          sampleRequest =
        (emptyState, Reply.response { Status := 200, Body := "not accounted" })) ∧
    (∀ d : TelemetryRequest,
      ¬ (sampleConfig.Server.ContentType ≠ "" ∧
        ¬ (sampleConfig.Server.ContentType.toList.isPrefixOf
            sampleRequest.ContentType.toList = true)) →
      ¬ (sampleConfig.Server.IgnoreUA = false ∧
        sampleRequest.UserAgent ≠ sampleConfig.Server.ExpectedUA) →
      sampleRequest.Decoded = some d → 0 ≤ d.Port → d.Port ≤ 65535 →
      (sampleConfig.Server.AllowedApps = [] ∨
        d.Application ∈ sampleConfig.Server.AllowedApps) →
      validBeacon sampleEnv (New sampleEnv none sampleConfig) sampleRequest =
        some { IP := GetRealIP sampleEnv sampleRequest sampleConfig.Server.TrustProxy,
               Req := if d.Port = 0 then { d with Port := 27016 } else d }) :=
  admission_errors sampleEnv none sampleConfig 1000 1000 emptyState sampleRequest rfl

/-! ### The declared port -/

/-- C13. For a beacon that passes the other checks (method, content type, user
agent, decoding, allow-list) with declared port `d.Port`: a port below 0 or
above 65535 is answered "not accounted" and changes nothing; with port 0 the
soft key is that of port 27016 and the job queued carries port 27016; with a
port from 1 to 65535 the soft key and the job carry the port unchanged.  "The
job is queued" is for a request that passes the soft limit while the queue is
open and not full. -/
theorem declared_port_rule (env : Env) (s : Server) (nowSince nowStore : Int) (st : State)
    (r : Request) (d : TelemetryRequest)
    (hpost : r.Method = "POST")
    (hct : ¬ (s.expectedCT ≠ "" ∧
      ¬ (s.expectedCT.toList.isPrefixOf r.ContentType.toList = true)))
    (hua : ¬ (¬ (s.ignoreUA = true) ∧ r.UserAgent ≠ s.expectedUA))
    (hdec : r.Decoded = some d)
    (hallow : ¬ (s.allowedApps.length > 0 ∧ env.Sum64String d.Application ∉ s.allowedApps)) :
    ((d.Port < 0 ∨ d.Port > 65535) →
      handleTelemetry env s nowSince nowStore st r =
        (st, Reply.response (respondOK "not accounted"))) ∧
    (d.Port = 0 →
      (softHit s st.seenCache (softKey (GetRealIP env r s.trustProxy) 27016) nowSince = true →
        handleTelemetry env s nowSince nowStore st r = (st, Reply.response (respondOK "ok"))) ∧
      (softHit s st.seenCache (softKey (GetRealIP env r s.trustProxy) 27016) nowSince = false →
        st.closed = false → st.queue.length < queueCapacity →
        handleTelemetry env s nowSince nowStore st r =
          ({ queue := st.queue ++
               [{ IP := GetRealIP env r s.trustProxy, Req := { d with Port := 27016 } }],
             closed := false,
             seenCache :=
               st.seenCache.Store (softKey (GetRealIP env r s.trustProxy) 27016) nowStore,
             rows := st.rows },
            Reply.response (respondOK "successfully accounted")))) ∧
    (1 ≤ d.Port → d.Port ≤ 65535 →
      (softHit s st.seenCache (softKey (GetRealIP env r s.trustProxy) d.Port) nowSince = true →
        handleTelemetry env s nowSince nowStore st r = (st, Reply.response (respondOK "ok"))) ∧
      (softHit s st.seenCache (softKey (GetRealIP env r s.trustProxy) d.Port) nowSince = false →
        st.closed = false → st.queue.length < queueCapacity →
        handleTelemetry env s nowSince nowStore st r =
          ({ queue := st.queue ++ [{ IP := GetRealIP env r s.trustProxy, Req := d }],
             closed := false,
             seenCache :=
               st.seenCache.Store (softKey (GetRealIP env r s.trustProxy) d.Port) nowStore,
             rows := st.rows },
            Reply.response (respondOK "successfully accounted")))) := by
  have hm : ¬ r.Method ≠ "POST" := fun h => h hpost
  have hvalid : ∀ req : TelemetryRequest, 0 ≤ d.Port → d.Port ≤ 65535 →
      req = (if d.Port = 0 then { d with Port := 27016 } else d) →
      validBeacon env s r = some { IP := GetRealIP env r s.trustProxy, Req := req } := by
    intro req hlo hhi hreq
    unfold validBeacon
    rw [if_neg hm, if_neg hct, if_neg hua, hdec]
    simp only
    rw [if_neg (by omega)]
    have h5 : ¬ (s.allowedApps.length > 0 ∧
        env.Sum64String (if d.Port = 0 then { d with Port := 27016 } else d).Application ∉
          s.allowedApps) := by
      rw [normalised_application]; exact hallow
    rw [if_neg h5, hreq]
  refine ⟨?_, ?_, ?_⟩
  · intro hbad
    apply handleTelemetry_invalid _ _ _ _ _ _ hpost
    unfold validBeacon
    rw [if_neg hm, if_neg hct, if_neg hua, hdec]
    simp only
    rw [if_pos hbad]
  · intro h0
    have hv := hvalid { d with Port := 27016 } (by omega) (by omega) (by rw [if_pos h0])
    rw [handleTelemetry_valid env s nowSince nowStore st r _ hv]
    unfold afterValidation
    constructor
    · intro hhit
      rw [if_pos hhit]
    · intro hhit hopen hroom
      simp only [hhit, Bool.false_eq_true, if_false, hopen, if_pos hroom]
  · intro h1 h2
    have hv := hvalid d (by omega) (by omega) (by rw [if_neg (by omega)])
    rw [handleTelemetry_valid env s nowSince nowStore st r _ hv]
    unfold afterValidation
    constructor
    · intro hhit
      rw [if_pos hhit]
    · intro hhit hopen hroom
      simp only [hhit, Bool.false_eq_true, if_false, hopen, if_pos hroom]

/-- Witness of C13: `portZeroRequest` is queued with port 27016 and recorded
under the soft key of port 27016. -/
theorem declared_port_rule_witness :
    handleTelemetry sampleEnv sampleServer 1000 1000 emptyState portZeroRequest =
      ({ queue := emptyState.queue ++
           [{ IP := GetRealIP sampleEnv portZeroRequest sampleServer.trustProxy,
              Req := { Application := "MetricZ", Type_ := "steam", Version := "1.0.0",
                       Port := 27016 } }],
         closed := false,
         seenCache := emptyState.seenCache.Store
           (softKey (GetRealIP sampleEnv portZeroRequest sampleServer.trustProxy) 27016) 1000,
         rows := emptyState.rows },
        Reply.response (respondOK "successfully accounted")) :=
  ((declared_port_rule sampleEnv sampleServer 1000 1000 emptyState portZeroRequest
      { Application := "MetricZ", Type_ := "steam", Version := "1.0.0", Port := 0 }
      rfl (by decide) (by decide) rfl (by decide)).2.1 rfl).2 rfl rfl (by decide)


/-! ### The ingestion worker -/

/-- The calls of `processJob` in one expression. -/
theorem processJobCalls_eq (env : Env) (s : Server) (job : telemetryJob)
    (nowFirst nowLast : Int) :
    processJobCalls env s job nowFirst nowLast =
      (if ((if job.Req.Type_ = "" then "generic" else job.Req.Type_) = "steam" ∨
            (if job.Req.Type_ = "" then "generic" else job.Req.Type_) = "a2s") ∧
          env.IsIPv4 (if job.IP = "::1" then "127.0.0.1" else job.IP) = true
        then [Call.query (if job.IP = "::1" then "127.0.0.1" else job.IP) job.Req.Port]
        else []) ++
      ((if s.geoip.isSome = true
        then [Call.lookup (if job.IP = "::1" then "127.0.0.1" else job.IP)] else []) ++
      [Call.upsert (jobNode env s job nowFirst nowLast)]) := by
  unfold processJobCalls
  simp only
  generalize (if job.Req.Type_ = "" then "generic" else job.Req.Type_) = nodeType
  generalize (if job.IP = "::1" then "127.0.0.1" else job.IP) = queryIP
  have hgeo : (match s.geoip with
      | some _ => [Call.lookup queryIP]
      | none => []) = (if s.geoip.isSome = true then [Call.lookup queryIP] else []) := by
    cases s.geoip <;> rfl
  rw [hgeo, List.append_assoc]
  congr 1
  by_cases ht : nodeType = "steam" ∨ nodeType = "a2s"
  · by_cases hip : env.IsIPv4 queryIP = true
    · rw [if_pos ht, if_pos hip, if_pos ⟨ht, hip⟩]
    · rw [if_pos ht, if_neg hip, if_neg (fun h => hip h.2)]
  · rw [if_neg ht, if_neg (fun h => ht h.1)]

/-- The table after `processJob` is the table after its calls. -/
theorem processJob_eq_applyCalls (env : Env) (s : Server) (rows : Rows) (job : telemetryJob)
    (nowFirst nowLast : Int) :
    processJob env s rows job nowFirst nowLast =
      applyCalls rows (processJobCalls env s job nowFirst nowLast) := by
  rw [processJobCalls_eq]
  unfold processJob
  split_ifs <;> rfl

/-- C14. For every job and every outcome of the protocol query and of the
geolocation lookup, `processJob` calls `UpsertNode` exactly once and deletes
nothing; the node written has the application, port and version of the beacon,
its type or "generic" when that is empty, and as address the IP of the job
with "::1" replaced by "127.0.0.1"; every protocol query and every geolocation
lookup made is for that same address. -/
theorem process_job_one_upsert (env : Env) (s : Server) (rows : Rows) (job : telemetryJob)
    (nowFirst nowLast : Int) :
    ∃ n : Node,
      upserts (processJobCalls env s job nowFirst nowLast) = [n] ∧
      deletes (processJobCalls env s job nowFirst nowLast) = [] ∧
      processJob env s rows job nowFirst nowLast = UpsertNode rows n ∧
      n.Application = job.Req.Application ∧
      n.Port = job.Req.Port ∧
      n.Version = job.Req.Version ∧
      n.Type_ = (if job.Req.Type_ = "" then "generic" else job.Req.Type_) ∧
      n.IP = (if job.IP = "::1" then "127.0.0.1" else job.IP) ∧
      (∀ q ∈ queries (processJobCalls env s job nowFirst nowLast), q = (n.IP, n.Port)) ∧
      (∀ ip ∈ lookups (processJobCalls env s job nowFirst nowLast), ip = n.IP) := by
  refine ⟨jobNode env s job nowFirst nowLast, ?_, ?_, rfl, rfl, rfl, rfl, rfl, rfl, ?_, ?_⟩
  · rw [processJobCalls_eq]
    split_ifs <;> rfl
  · rw [processJobCalls_eq]
    split_ifs <;> rfl
  · have hip : (jobNode env s job nowFirst nowLast).IP =
        (if job.IP = "::1" then "127.0.0.1" else job.IP) := rfl
    have hport : (jobNode env s job nowFirst nowLast).Port = job.Req.Port := rfl
    rw [processJobCalls_eq, hip, hport]
    generalize (if job.IP = "::1" then "127.0.0.1" else job.IP) = queryIP
    generalize (jobNode env s job nowFirst nowLast) = n
    split_ifs <;> simp [queries]
  · have hip : (jobNode env s job nowFirst nowLast).IP =
        (if job.IP = "::1" then "127.0.0.1" else job.IP) := rfl
    rw [processJobCalls_eq, hip]
    generalize (if job.IP = "::1" then "127.0.0.1" else job.IP) = queryIP
    generalize (jobNode env s job nowFirst nowLast) = n
    split_ifs <;> simp [lookups]

theorem getNode_delete_self (rows : Rows) (k : Key) : GetNode (DeleteNode rows k) k = none := by
  rw [getNode_eq_none_iff]
  intro m hm
  unfold DeleteNode at hm
  simpa using (List.mem_filter.1 hm).2

theorem getNode_delete_other (rows : Rows) (k k' : Key) (h : k ≠ k') :
    GetNode (DeleteNode rows k) k' = GetNode rows k' := by
  induction rows with
  | nil => rfl
  | cons a t ih =>
    unfold DeleteNode at ih ⊢
    by_cases h1 : a.key = k
    · have h2 : ¬ a.key = k' := fun h3 => h (h1.symm.trans h3)
      rw [List.filter_cons_of_neg (by simpa using h1), getNode_cons, if_neg h2]
      exact ih
    · rw [List.filter_cons_of_pos (by simpa using h1), getNode_cons, getNode_cons]
      by_cases h2 : a.key = k'
      · rw [if_pos h2, if_pos h2]
      · rw [if_neg h2, if_neg h2]
        exact ih

/-- The table after `processNode` is the table after its calls. -/
theorem processNode_eq_applyCalls (env : Env) (rows : Rows) (node : Node) (now : Int) :
    processNode env rows node now = applyCalls rows (processNodeCalls env node now) := by
  unfold processNode processNodeCalls
  split_ifs
  · rfl
  · cases env.QueryServer node.IP node.Port <;> rfl

/-- C16. For a node whose port is at most 1000 (999, and 1000 itself) or above
65535, `processNode` makes one call, `DeleteNode` with the key of the node: no
protocol query and no merge; afterwards no record has that key and the records
of other keys are found as before.  For a node with `1000 < port ≤ 65535` the
first call is the protocol query for its address and port, and a record is
deleted only when that query fails. -/
theorem maintenance_port_check (env : Env) (rows : Rows) (node : Node) (now : Int) :
    ((node.Port ≤ 1000 ∨ node.Port > 65535) →
      processNodeCalls env node now = [Call.delete node.key] ∧
      processNode env rows node now = DeleteNode rows node.key ∧
      GetNode (processNode env rows node now) node.key = none ∧
      ∀ k : Key, node.key ≠ k → GetNode (processNode env rows node now) k = GetNode rows k) ∧
    ((1000 < node.Port ∧ node.Port ≤ 65535) →
      (processNodeCalls env node now).head? = some (Call.query node.IP node.Port) ∧
      queries (processNodeCalls env node now) = [(node.IP, node.Port)] ∧
      (deletes (processNodeCalls env node now) ≠ [] →
        env.QueryServer node.IP node.Port = none)) := by
  constructor
  · intro hbad
    have hp : processNode env rows node now = DeleteNode rows node.key := by
      unfold processNode
      rw [if_pos hbad]
    refine ⟨?_, hp, ?_, ?_⟩
    · unfold processNodeCalls
      rw [if_pos hbad]
    · rw [hp]
      exact getNode_delete_self rows node.key
    · intro k hk
      rw [hp]
      exact getNode_delete_other rows node.key k hk
  · intro hok
    have hgood : ¬ (node.Port ≤ 1000 ∨ node.Port > 65535) := by omega
    unfold processNodeCalls
    rw [if_neg hgood]
    cases hq : env.QueryServer node.IP node.Port with
    | none => exact ⟨rfl, rfl, fun _ => rfl⟩
    | some info => exact ⟨rfl, rfl, fun h => absurd rfl h⟩

/-- Witness of C16: a stored node with port 1000 is deleted without a query. -/
theorem maintenance_port_check_witness :
    processNodeCalls sampleEnv { storedNode with Port := 1000 } 5000 =
        [Call.delete ({ storedNode with Port := 1000 } : Node).key] ∧
      processNode sampleEnv [generatedNode, { storedNode with Port := 1000 }]
          { storedNode with Port := 1000 } 5000 =
        DeleteNode [generatedNode, { storedNode with Port := 1000 }]
          ({ storedNode with Port := 1000 } : Node).key ∧
      GetNode (processNode sampleEnv [generatedNode, { storedNode with Port := 1000 }]
          { storedNode with Port := 1000 } 5000)
          ({ storedNode with Port := 1000 } : Node).key = none ∧
      ∀ k : Key, ({ storedNode with Port := 1000 } : Node).key ≠ k →
        GetNode (processNode sampleEnv [generatedNode, { storedNode with Port := 1000 }]
          { storedNode with Port := 1000 } 5000) k =
          GetNode [generatedNode, { storedNode with Port := 1000 }] k :=
  (maintenance_port_check sampleEnv [generatedNode, { storedNode with Port := 1000 }]
    { storedNode with Port := 1000 } 5000).1 (by decide)

/-- Counterexample to C17 as stated: `storedNode` (port 2302, map
`chernarusplus`) is re-validated at clock value 5000 while its server answers
the query with an empty name and map `livonia`.  The query succeeds and the
record is retained, but its stored enrichment fields are not the values
returned by the query: they are the ones stored before. -/
theorem revalidation_keeps_old_enrichment :
    1000 < storedNode.Port ∧ storedNode.Port ≤ 65535 ∧
      GetNode [storedNode] storedNode.key = some storedNode ∧
      (namelessEnv.QueryServer storedNode.IP storedNode.Port).map Info.Map = some "livonia" ∧
      (GetNode (processNode namelessEnv [storedNode] storedNode 5000) storedNode.key).map
          (fun r => (r.ServerName, r.MapName, r.Players, r.MaxPlayers, r.LastSeen)) =
        some ("DayZ #1", "chernarusplus", 10, 60, 5000) := by
  decide

/-- C17, amended. For a stored node with `1000 < port ≤ 65535`: if the protocol
query fails, `processNode` deletes the record of the node and makes no merge;
if the query succeeds the record is retained and its `last_seen` is the clock
reading of the re-validation, its stored enrichment fields are the values
returned by the query when the returned server name is non-empty, and they are
the previously stored ones when the returned server name is empty. -/
theorem maintenance_revalidation (env : Env) (rows : Rows) (node old : Node) (now : Int)
    (hport : 1000 < node.Port ∧ node.Port ≤ 65535)
    (hstored : GetNode rows node.key = some old) :
    (env.QueryServer node.IP node.Port = none →
      GetNode (processNode env rows node now) node.key = none ∧
      deletes (processNodeCalls env node now) = [node.key] ∧
      upserts (processNodeCalls env node now) = []) ∧
    (∀ info : Info, env.QueryServer node.IP node.Port = some info →
      ∃ r, GetNode (processNode env rows node now) node.key = some r ∧
        deletes (processNodeCalls env node now) = [] ∧
        r.LastSeen = now ∧
        (info.Name ≠ "" →
          r.enrichment =
            { ServerName := info.Name, MapName := info.Map, Players := info.Players,
              MaxPlayers := info.MaxPlayers, GameVersion := info.Version,
              GameName := info.Game, ServerOS := info.Environment }) ∧
        (info.Name = "" → r.enrichment = old.enrichment)) := by
  have hgood : ¬ (node.Port ≤ 1000 ∨ node.Port > 65535) := by omega
  constructor
  · intro hfail
    unfold processNode processNodeCalls
    rw [if_neg hgood, if_neg hgood, hfail]
    exact ⟨getNode_delete_self rows node.key, rfl, rfl⟩
  · intro info hinfo
    have hkey : (refreshedNode node info now).key = node.key := rfl
    refine ⟨onConflict old (refreshedNode node info now), ?_, ?_, rfl, ?_, ?_⟩
    · unfold processNode
      rw [if_neg hgood, hinfo]
      simp only
      have := getNode_upsert_self rows (refreshedNode node info now)
      rw [hkey, hstored] at this
      exact this
    · unfold processNodeCalls
      rw [if_neg hgood, hinfo]
      rfl
    · intro hname
      simp [onConflict, Node.enrichment, refreshedNode, hname]
    · intro hname
      simp [onConflict, Node.enrichment, refreshedNode, hname]

/-- Witness of C17 (amended): `storedNode` re-validated while its server
answers with a name. -/
theorem maintenance_revalidation_witness :
    ∃ r, GetNode (processNode answeringEnv [storedNode] storedNode 5000) storedNode.key =
        some r ∧
      deletes (processNodeCalls answeringEnv storedNode 5000) = [] ∧
      r.LastSeen = 5000 ∧
      (("DayZ #9" : String) ≠ "" →
        r.enrichment =
          { ServerName := "DayZ #9", MapName := "livonia", Players := 5, MaxPlayers := 40,
            GameVersion := "1.26", GameName := "dayz", ServerOS := "Windows" }) ∧
      (("DayZ #9" : String) = "" → r.enrichment = storedNode.enrichment) :=
  (maintenance_revalidation answeringEnv [storedNode] storedNode storedNode 5000
    (by decide) (by decide)).2
    { Name := "DayZ #9", Map := "livonia", Version := "1.26", Game := "dayz",
      Environment := "Windows", Players := 5, MaxPlayers := 40 } (by decide)


/-! ### Shutdown -/

/-- Evaluation for C18: after `StopWorkers` has closed the queue, the valid
beacon `sampleRequest` is not answered "not accounted": the handler stores the
clock reading under the soft key and then panics on the send to the closed
channel.  No job is added. -/
theorem closed_queue_send_panics :
    validBeacon sampleEnv sampleServer sampleRequest = some sampleJob ∧
      (closeQueue (StartWorkers emptyState)).st.closed = true ∧
      (handleTelemetry sampleEnv sampleServer 1000 1000
          (closeQueue (StartWorkers emptyState)).st sampleRequest).2 =
        Reply.panicked "send on closed channel" ∧
      (handleTelemetry sampleEnv sampleServer 1000 1000
          (closeQueue (StartWorkers emptyState)).st sampleRequest).1.queue = [] := by
  decide

/-- A move of a worker of a draining pool leaves the pool draining, takes one
from the moves left, and keeps every job, processed, in process or queued. -/
theorem workerStep_draining (env : Env) (s : Server) (p p' : Pool) (m : WorkerMove)
    (hd : Draining p) (hstep : workerStep env s p m = some p') :
    Draining p' ∧ movesLeft p' + 1 = movesLeft p ∧
      List.Perm (p'.processed ++ p'.processing ++ p'.st.queue)
        (p.processed ++ p.processing ++ p.st.queue) := by
  obtain ⟨hclosed, hempty, hcount⟩ := hd
  cases m with
  | receive =>
    simp only [workerStep] at hstep
    cases hw : p.waiting with
    | zero => rw [hw] at hstep; simp at hstep
    | succ w =>
      cases hq : p.st.queue with
      | nil => rw [hw, hq] at hstep; simp at hstep
      | cons job rest =>
        rw [hw, hq] at hstep
        simp only [Option.some.injEq] at hstep
        subst hstep
        refine ⟨⟨hclosed, ?_, ?_⟩, ?_, ?_⟩
        · intro hex
          have := hempty hex
          rw [hq] at this
          exact absurd this (by simp)
        · simp only [List.length_append, List.length_cons, List.length_nil]
          omega
        · unfold movesLeft
          simp only [List.length_append, List.length_cons, List.length_nil, hq]
          omega
        · simp [hq]
  | finish job nowFirst nowLast =>
    simp only [workerStep] at hstep
    by_cases hmem : job ∈ p.processing
    · rw [if_pos hmem] at hstep
      simp only [Option.some.injEq] at hstep
      subst hstep
      have hlen : (p.processing.erase job).length + 1 = p.processing.length := by
        rw [List.length_erase_of_mem hmem]
        have := List.length_pos_of_mem hmem
        omega
      refine ⟨⟨hclosed, hempty, ?_⟩, ?_, ?_⟩
      · simp only
        omega
      · unfold movesLeft
        simp only
        omega
      · have h1 : List.Perm (job :: p.processing.erase job) p.processing :=
          (List.perm_cons_erase hmem).symm
        simp only [List.append_assoc, List.singleton_append]
        exact List.Perm.append_left _ (List.Perm.append_right _ h1)
    · rw [if_neg hmem] at hstep
      exact absurd hstep (by simp)
  | exit =>
    simp only [workerStep] at hstep
    by_cases hc : 0 < p.waiting ∧ p.st.queue = [] ∧ p.st.closed = true
    · rw [if_pos hc] at hstep
      simp only [Option.some.injEq] at hstep
      subst hstep
      refine ⟨⟨hclosed, fun _ => hc.2.1, ?_⟩, ?_, List.Perm.refl _⟩
      · simp only
        omega
      · unfold movesLeft
        simp only
        omega
    · rw [if_neg hc] at hstep
      exact absurd hstep (by simp)

/-- While a worker of a draining pool has not exited, some worker can move. -/
theorem workerStep_progress (env : Env) (s : Server) (p : Pool) (hd : Draining p)
    (hnot : allExited p = false) : ∃ m p', workerStep env s p m = some p' := by
  obtain ⟨hclosed, hempty, hcount⟩ := hd
  have hex : p.exited ≠ workerCount := by
    simpa [allExited] using hnot
  cases hproc : p.processing with
  | cons job rest =>
    refine ⟨WorkerMove.finish job 0 0, ?_⟩
    simp only [workerStep]
    rw [if_pos (by rw [hproc]; exact List.mem_cons_self _ _)]
    exact ⟨_, rfl⟩
  | nil =>
    rw [hproc] at hcount
    simp only [List.length_nil, add_zero] at hcount
    have hw : 0 < p.waiting := by omega
    cases hq : p.st.queue with
    | nil =>
      refine ⟨WorkerMove.exit, ?_⟩
      simp only [workerStep]
      rw [if_pos ⟨hw, hq, hclosed⟩]
      exact ⟨_, rfl⟩
    | cons job rest =>
      obtain ⟨w, hw'⟩ : ∃ w, p.waiting = w + 1 := ⟨p.waiting - 1, by omega⟩
      refine ⟨WorkerMove.receive, ?_⟩
      simp only [workerStep]
      rw [hw', hq]
      exact ⟨_, rfl⟩

/-- Runs of the workers of a draining pool. -/
theorem runWorkers_draining (env : Env) (s : Server) (moves : List WorkerMove) :
    ∀ p p' : Pool, Draining p → runWorkers env s p moves = some p' →
      Draining p' ∧ moves.length + movesLeft p' = movesLeft p ∧
        List.Perm (p'.processed ++ p'.processing ++ p'.st.queue)
          (p.processed ++ p.processing ++ p.st.queue) := by
  induction moves with
  | nil =>
    intro p p' hd hrun
    simp only [runWorkers, Option.some.injEq] at hrun
    subst hrun
    exact ⟨hd, by simp, List.Perm.refl _⟩
  | cons m rest ih =>
    intro p p' hd hrun
    unfold runWorkers at hrun
    cases hstep : workerStep env s p m with
    | none => rw [hstep] at hrun; exact absurd hrun (by simp)
    | some p1 =>
      rw [hstep] at hrun
      obtain ⟨hd1, hm1, hp1⟩ := workerStep_draining env s p p1 m hd hstep
      obtain ⟨hd', hm', hp'⟩ := ih p1 p' hd1 hrun
      refine ⟨hd', ?_, hp'.trans hp1⟩
      simp only [List.length_cons]
      omega

/-- The workers of a draining pool can run until all have exited. -/
theorem runWorkers_complete (env : Env) (s : Server) (n : Nat) :
    ∀ p : Pool, Draining p → movesLeft p = n →
      ∃ moves p', runWorkers env s p moves = some p' ∧ allExited p' = true := by
  induction n with
  | zero =>
    intro p hd hn
    refine ⟨[], p, rfl, ?_⟩
    obtain ⟨_, _, hcount⟩ := hd
    unfold movesLeft at hn
    have hl : p.processing.length = 0 := by omega
    have hw : p.waiting = 0 := by omega
    simp only [allExited, decide_eq_true_eq]
    omega
  | succ n ih =>
    intro p hd hn
    cases hex : allExited p with
    | true => exact ⟨[], p, rfl, hex⟩
    | false =>
      obtain ⟨m, p1, hstep⟩ := workerStep_progress env s p hd hex
      obtain ⟨hd1, hm1, _⟩ := workerStep_draining env s p p1 m hd hstep
      obtain ⟨moves, p', hrun, hdone⟩ := ih p1 hd1 (by omega)
      refine ⟨m :: moves, p', ?_, hdone⟩
      unfold runWorkers
      rw [hstep]
      exact hrun

/-- The table and the record of returned calls after a run of the workers:
every call `processJob` that returns has written its node once. -/
theorem runWorkers_rows (env : Env) (s : Server) (moves : List WorkerMove) :
    ∀ p p' : Pool, runWorkers env s p moves = some p' →
      p'.processed = p.processed ++ (returnedCalls moves).map (fun d => d.1) ∧
      p'.st.rows = (returnedCalls moves).foldl
        (fun rows d => processJob env s rows d.1 d.2.1 d.2.2) p.st.rows := by
  induction moves with
  | nil =>
    intro p p' hrun
    simp only [runWorkers, Option.some.injEq] at hrun
    subst hrun
    simp [returnedCalls]
  | cons m rest ih =>
    intro p p' hrun
    unfold runWorkers at hrun
    cases hstep : workerStep env s p m with
    | none => rw [hstep] at hrun; exact absurd hrun (by simp)
    | some p1 =>
      rw [hstep] at hrun
      obtain ⟨h1, h2⟩ := ih p1 p' hrun
      cases m with
      | receive =>
        simp only [workerStep] at hstep
        cases hw : p.waiting with
        | zero => rw [hw] at hstep; simp at hstep
        | succ w =>
          cases hq : p.st.queue with
          | nil => rw [hw, hq] at hstep; simp at hstep
          | cons job tail =>
            rw [hw, hq] at hstep
            simp only [Option.some.injEq] at hstep
            subst hstep
            exact ⟨h1, h2⟩
      | finish job nowFirst nowLast =>
        simp only [workerStep] at hstep
        by_cases hmem : job ∈ p.processing
        · rw [if_pos hmem] at hstep
          simp only [Option.some.injEq] at hstep
          subst hstep
          refine ⟨?_, ?_⟩
          · rw [h1]
            simp [returnedCalls]
          · rw [h2]
            simp [returnedCalls]
        · rw [if_neg hmem] at hstep
          exact absurd hstep (by simp)
      | exit =>
        simp only [workerStep] at hstep
        by_cases hc : 0 < p.waiting ∧ p.st.queue = [] ∧ p.st.closed = true
        · rw [if_pos hc] at hstep
          simp only [Option.some.injEq] at hstep
          subst hstep
          exact ⟨h1, h2⟩
        · rw [if_neg hc] at hstep
          exact absurd hstep (by simp)

/-- C19. Let `StopWorkers` close the queue of a pool in which no worker has
exited.  Then, in every interleaving of the moves of the workers: the run
cannot exceed the moves left at the call, and while a worker has not exited
some worker can move, so `wg.Wait()` returns; the table is the one at the call
with one `processJob`, that is one `UpsertNode` of the job's node, for every
call that has returned, in the order of the returns; and when `wg.Wait()`
returns the queue is empty, no job is in process, and the calls that have
returned since the close are, each job once, those in process at the call and
those in the queue at the call. -/
theorem stop_workers_drains (env : Env) (s : Server) (p0 : Pool)
    (hrunning : p0.exited = 0)
    (hworkers : p0.waiting + p0.processing.length = workerCount) :
    (∀ (moves : List WorkerMove) (p : Pool),
      runWorkers env s (closeQueue p0) moves = some p →
        moves.length + movesLeft p = movesLeft p0 ∧
        (allExited p = false → ∃ m p', workerStep env s p m = some p') ∧
        p.processed = p0.processed ++ (returnedCalls moves).map (fun d => d.1) ∧
        p.st.rows = (returnedCalls moves).foldl
          (fun rows d => processJob env s rows d.1 d.2.1 d.2.2) p0.st.rows ∧
        p.st.rows = (returnedCalls moves).foldl
          (fun rows d => UpsertNode rows (jobNode env s d.1 d.2.1 d.2.2)) p0.st.rows ∧
        (allExited p = true →
          p.st.queue = [] ∧ p.processing = [] ∧
          List.Perm ((returnedCalls moves).map (fun d => d.1))
            (p0.processing ++ p0.st.queue) ∧
          List.Perm p.processed (p0.processed ++ p0.processing ++ p0.st.queue))) ∧
    (∃ (moves : List WorkerMove) (p : Pool),
      runWorkers env s (closeQueue p0) moves = some p ∧ allExited p = true) := by
  have hd0 : Draining (closeQueue p0) := by
    refine ⟨rfl, ?_, ?_⟩
    · intro h
      have : (closeQueue p0).exited = p0.exited := rfl
      omega
    · show p0.waiting + p0.processing.length + p0.exited = workerCount
      omega
  constructor
  · intro moves p hrun
    obtain ⟨hd, hm, hp⟩ := runWorkers_draining env s moves (closeQueue p0) p hd0 hrun
    obtain ⟨hproc, hrows⟩ := runWorkers_rows env s moves (closeQueue p0) p hrun
    refine ⟨hm, workerStep_progress env s p hd, hproc, hrows, hrows, ?_⟩
    intro hdone
    obtain ⟨_, hempty, hcount⟩ := hd
    have hex : p.exited = workerCount := by simpa [allExited] using hdone
    have hq : p.st.queue = [] := hempty (by rw [hex]; decide)
    have hnone : p.processing = [] := by
      apply List.eq_nil_of_length_eq_zero
      omega
    rw [hq, hnone] at hp
    have hperm : List.Perm p.processed (p0.processed ++ p0.processing ++ p0.st.queue) := by
      simpa using hp
    refine ⟨hq, hnone, ?_, hperm⟩
    have hproc' : p.processed = p0.processed ++ (returnedCalls moves).map (fun d => d.1) := hproc
    rw [hproc', List.append_assoc] at hperm
    exact (List.perm_append_left_iff _).1 hperm
  · exact runWorkers_complete env s _ (closeQueue p0) hd0 rfl

set_option maxRecDepth 100000 in
/-- Witness of C19: the queue of `drainingPool`, before its close, holds two
jobs while a third is in process.  The workers can run until all have exited;
and the run `drainingRun` ends with all workers exited and the three jobs
written once each, in the order in which their calls returned. -/
theorem stop_workers_drains_witness :
    (∃ (moves : List WorkerMove) (p : Pool),
      runWorkers sampleEnv sampleServer
          (closeQueue { drainingPool with st := { drainingPool.st with closed := false } })
          moves = some p ∧
        allExited p = true) ∧
    (∃ p : Pool,
      runWorkers sampleEnv sampleServer
          (closeQueue { drainingPool with st := { drainingPool.st with closed := false } })
          drainingRun = some p ∧
        allExited p = true ∧
        p.st.rows.map Node.IP = ["192.0.2.1", "198.51.100.4", "203.0.113.7"] ∧
        p.st.rows.map Node.Count = [1, 1, 1] ∧
        p.st.rows = (returnedCalls drainingRun).foldl
          (fun rows d => UpsertNode rows (jobNode sampleEnv sampleServer d.1 d.2.1 d.2.2)) []) :=
  ⟨(stop_workers_drains sampleEnv sampleServer
      { drainingPool with st := { drainingPool.st with closed := false } } rfl rfl).2,
    (runWorkers sampleEnv sampleServer
        (closeQueue { drainingPool with st := { drainingPool.st with closed := false } })
        drainingRun).get (by decide),
    by decide, by decide, by decide, by decide,
    ((stop_workers_drains sampleEnv sampleServer
      { drainingPool with st := { drainingPool.st with closed := false } } rfl rfl).1
      drainingRun _ (by decide)).2.2.2.2.1⟩

/-! ### Pruning -/

theorem filter_length_add (rows : Rows) (q : Node → Bool) :
    (rows.filter q).length + (rows.filter (fun m => !q m)).length = rows.length := by
  induction rows with
  | nil => rfl
  | cons a t ih =>
    cases h : q a
    · simp only [List.filter_cons, h, Bool.not_false, if_true, List.length_cons]
      simp only [Bool.false_eq_true, if_false]
      omega
    · simp only [List.filter_cons, h, Bool.not_true, if_true, List.length_cons]
      simp only [Bool.false_eq_true, if_false]
      omega

/-- C20. For every table and every non-empty application name `a`,
`DeleteEmptyNodes(a)` leaves exactly the records that are not both of
application `a` and without server name, unchanged and in their order, and
returns the number of records removed, which is the number of records of
application `a` without server name; `DeleteEmptyNodes("")` does the same for
the records without server name of all applications. -/
theorem delete_empty_nodes (rows : Rows) (a : String) :
    (a ≠ "" →
      (DeleteEmptyNodes rows a).1 =
          rows.filter (fun m => ¬ (m.Application = a ∧ m.ServerName = "")) ∧
        (∀ m : Node, m ∈ (DeleteEmptyNodes rows a).1 ↔
          m ∈ rows ∧ (m.ServerName ≠ "" ∨ m.Application ≠ a)) ∧
        (DeleteEmptyNodes rows a).2 =
          ((rows.filter (fun m => m.Application = a ∧ m.ServerName = "")).length : Int) ∧
        (DeleteEmptyNodes rows a).2 =
          (rows.length : Int) - ((DeleteEmptyNodes rows a).1.length : Int)) ∧
    ((DeleteEmptyNodes rows "").1 = rows.filter (fun m => ¬ (m.ServerName = "")) ∧
      (∀ m : Node, m ∈ (DeleteEmptyNodes rows "").1 ↔ m ∈ rows ∧ m.ServerName ≠ "") ∧
      (DeleteEmptyNodes rows "").2 =
        ((rows.filter (fun m => m.ServerName = "")).length : Int) ∧
      (DeleteEmptyNodes rows "").2 =
        (rows.length : Int) - ((DeleteEmptyNodes rows "").1.length : Int)) := by
  constructor
  · intro ha
    have hfun : (fun m : Node => decide (¬ (m.ServerName = "" ∧ m.Application = a))) =
        (fun m : Node => decide (¬ (m.Application = a ∧ m.ServerName = ""))) := by
      funext m
      simp only [and_comm]
    have hfun2 : (fun m : Node => decide (m.ServerName = "" ∧ m.Application = a)) =
        (fun m : Node => decide (m.Application = a ∧ m.ServerName = "")) := by
      funext m
      simp only [and_comm]
    have hD : DeleteEmptyNodes rows a =
        (rows.filter (fun m => ¬ (m.Application = a ∧ m.ServerName = "")),
          ((rows.filter (fun m => m.Application = a ∧ m.ServerName = "")).length : Int)) := by
      unfold DeleteEmptyNodes
      rw [if_pos ha, hfun, hfun2]
    rw [hD]
    refine ⟨rfl, ?_, rfl, ?_⟩
    · intro m
      simp only [List.mem_filter, decide_eq_true_eq]
      constructor
      · rintro ⟨hm, hn⟩
        refine ⟨hm, ?_⟩
        by_cases hs : m.ServerName = ""
        · exact Or.inr (fun happ => hn ⟨happ, hs⟩)
        · exact Or.inl hs
      · rintro ⟨hm, hn⟩
        refine ⟨hm, ?_⟩
        rintro ⟨happ, hs⟩
        rcases hn with hn | hn
        · exact hn hs
        · exact hn happ
    · have h := filter_length_add rows (fun m => decide (m.Application = a ∧ m.ServerName = ""))
      have hneg : (fun m : Node => !decide (m.Application = a ∧ m.ServerName = "")) =
          (fun m : Node => decide (¬ (m.Application = a ∧ m.ServerName = ""))) := by
        funext m
        simp
      rw [hneg] at h
      simp only
      omega
  · have hD : DeleteEmptyNodes rows "" =
        (rows.filter (fun m => ¬ (m.ServerName = "")),
          ((rows.filter (fun m => m.ServerName = "")).length : Int)) := by
      unfold DeleteEmptyNodes
      rw [if_neg (by simp)]
    rw [hD]
    refine ⟨rfl, ?_, rfl, ?_⟩
    · intro m
      simp only [List.mem_filter, decide_eq_true_eq, ne_eq]
    · have h := filter_length_add rows (fun m => decide (m.ServerName = ""))
      have hneg : (fun m : Node => !decide (m.ServerName = "")) =
          (fun m : Node => decide (¬ (m.ServerName = ""))) := by
        funext m
        simp
      rw [hneg] at h
      simp only
      omega

/-- Witness of C20: pruning application `MetricZ` in a table with a record of
`MetricZ` without server name, one of `MetricZ` with a server name and one of
another application. -/
theorem delete_empty_nodes_witness :
    (DeleteEmptyNodes [bareNode, { namedNode with Port := 2303 }, generatedNode] "MetricZ").1 =
        [bareNode, { namedNode with Port := 2303 }, generatedNode].filter
          (fun m => ¬ (m.Application = "MetricZ" ∧ m.ServerName = "")) ∧
      (∀ m : Node,
        m ∈ (DeleteEmptyNodes [bareNode, { namedNode with Port := 2303 }, generatedNode]
            "MetricZ").1 ↔
          m ∈ [bareNode, { namedNode with Port := 2303 }, generatedNode] ∧
            (m.ServerName ≠ "" ∨ m.Application ≠ "MetricZ")) ∧
      (DeleteEmptyNodes [bareNode, { namedNode with Port := 2303 }, generatedNode] "MetricZ").2 =
        (([bareNode, { namedNode with Port := 2303 }, generatedNode].filter
          (fun m => m.Application = "MetricZ" ∧ m.ServerName = "")).length : Int) ∧
      (DeleteEmptyNodes [bareNode, { namedNode with Port := 2303 }, generatedNode] "MetricZ").2 =
        (([bareNode, { namedNode with Port := 2303 }, generatedNode] : List Node).length : Int) -
          ((DeleteEmptyNodes [bareNode, { namedNode with Port := 2303 }, generatedNode]
            "MetricZ").1.length : Int) :=
  (delete_empty_nodes [bareNode, { namedNode with Port := 2303 }, generatedNode] "MetricZ").1
    (by decide)


/-! ### Point lookups and deletion -/

theorem uniqueKeys_eq_of_key {rows : Rows} (huniq : UniqueKeys rows) {m m' : Node}
    (hm : m ∈ rows) (hm' : m' ∈ rows) (hkey : m.key = m'.key) : m = m' :=
  List.inj_on_of_nodup_map huniq hm hm' hkey

theorem deleteNode_absent (rows : Rows) (k : Key) (habsent : GetNode rows k = none) :
    DeleteNode rows k = rows := by
  unfold DeleteNode
  rw [List.filter_eq_self]
  intro m hm
  have := (getNode_eq_none_iff rows k).1 habsent m hm
  simpa using this

/-- C21. For every table with unique keys and every key: `GetNode` returns the
stored record with that key when there is one, and not-found when there is
none; after `DeleteNode` for the key, `GetNode` for that key returns not-found
and `GetNode` for every other key returns what it returned before; `DeleteNode`
for an absent key changes nothing. -/
theorem get_and_delete_node (rows : Rows) (k : Key) (huniq : UniqueKeys rows) :
    (∀ m : Node, m ∈ rows → m.key = k → GetNode rows k = some m) ∧
      ((∀ m ∈ rows, m.key ≠ k) → GetNode rows k = none) ∧
      GetNode (DeleteNode rows k) k = none ∧
      (∀ k' : Key, k ≠ k' → GetNode (DeleteNode rows k) k' = GetNode rows k') ∧
      (GetNode rows k = none → DeleteNode rows k = rows) := by
  refine ⟨?_, ?_, getNode_delete_self rows k, ?_, deleteNode_absent rows k⟩
  · intro m hm hk
    cases hg : GetNode rows k with
    | none => exact absurd hk ((getNode_eq_none_iff rows k).1 hg m hm)
    | some m' =>
      have hkey : m'.key = m.key := (getNode_key hg).trans hk.symm
      rw [uniqueKeys_eq_of_key huniq (getNode_mem hg) hm hkey]
  · intro h
    exact (getNode_eq_none_iff rows k).2 h
  · intro k' hk
    exact getNode_delete_other rows k k' hk

/-- Witness of C21: lookups in and deletion from a two-row table. -/
theorem get_and_delete_node_witness :
    (∀ m : Node, m ∈ [generatedNode, storedNode] → m.key = storedNode.key →
        GetNode [generatedNode, storedNode] storedNode.key = some m) ∧
      ((∀ m ∈ [generatedNode, storedNode], m.key ≠ storedNode.key) →
        GetNode [generatedNode, storedNode] storedNode.key = none) ∧
      GetNode (DeleteNode [generatedNode, storedNode] storedNode.key) storedNode.key = none ∧
      (∀ k' : Key, storedNode.key ≠ k' →
        GetNode (DeleteNode [generatedNode, storedNode] storedNode.key) k' =
          GetNode [generatedNode, storedNode] k') ∧
      (GetNode [generatedNode, storedNode] storedNode.key = none →
        DeleteNode [generatedNode, storedNode] storedNode.key = [generatedNode, storedNode]) :=
  get_and_delete_node [generatedNode, storedNode] storedNode.key (by decide)

/-! ### Listing -/

/-- C22. `GetNodesSubset(app, onlyEmpty)` returns exactly the stored nodes `n`
with (`app` empty or `n.Application = app`) and (`onlyEmpty` false or
`n.ServerName` empty), each as often as it is stored and in the order of the
table; with `onlyEmpty = true` every node returned has an empty server name,
and with `onlyEmpty = false` every node of the scope is returned. -/
theorem get_nodes_subset (rows : Rows) (app : String) (onlyEmpty : Bool) :
    GetNodesSubset rows app onlyEmpty =
        rows.filter (fun n => (app = "" ∨ n.Application = app) ∧
          (onlyEmpty = false ∨ n.ServerName = "")) ∧
      (∀ n : Node, n ∈ GetNodesSubset rows app onlyEmpty ↔
        n ∈ rows ∧ (app = "" ∨ n.Application = app) ∧
          (onlyEmpty = false ∨ n.ServerName = "")) ∧
      (∀ n ∈ GetNodesSubset rows app true, n.ServerName = "") ∧
      (∀ n ∈ rows, (app = "" ∨ n.Application = app) → n ∈ GetNodesSubset rows app false) := by
  have hmain : ∀ b : Bool, GetNodesSubset rows app b =
      rows.filter (fun n => (app = "" ∨ n.Application = app) ∧
        (b = false ∨ n.ServerName = "")) := by
    intro b
    unfold GetNodesSubset
    by_cases happ : app = ""
    · cases b
      · simp [happ]
      · simp [happ]
    · cases b
      · simp [happ]
      · simp [happ, List.filter_filter, Bool.and_comm]
  have hmem : ∀ (b : Bool) (n : Node), n ∈ GetNodesSubset rows app b ↔
      n ∈ rows ∧ (app = "" ∨ n.Application = app) ∧ (b = false ∨ n.ServerName = "") := by
    intro b n
    rw [hmain b]
    simp only [List.mem_filter, decide_eq_true_eq]
  refine ⟨hmain onlyEmpty, hmem onlyEmpty, ?_, ?_⟩
  · intro n hn
    have := ((hmem true n).1 hn).2.2
    simpa using this
  · intro n hn hscope
    exact (hmem false n).2 ⟨hn, hscope, Or.inl rfl⟩

/-- The listing holds every stored node exactly once. -/
theorem getNodes_perm (loc : Location) (rows : Rows) : List.Perm (GetNodes loc rows) rows :=
  List.perm_insertionSort (seenNotBefore loc) rows

theorem textLE_total (a b : List Char) : textLE a b = true ∨ textLE b a = true := by
  induction a generalizing b with
  | nil => left; rfl
  | cons x xs ih =>
    cases b with
    | nil => right; rfl
    | cons y ys =>
      simp only [textLE, Bool.or_eq_true, Bool.and_eq_true, decide_eq_true_eq]
      rcases Nat.lt_trichotomy x.toNat y.toNat with h | h | h
      · exact Or.inl (Or.inl h)
      · rcases ih ys with h' | h'
        · exact Or.inl (Or.inr ⟨h, h'⟩)
        · exact Or.inr (Or.inr ⟨h.symm, h'⟩)
      · exact Or.inr (Or.inl h)

theorem textLE_trans (a b c : List Char) (hab : textLE a b = true) (hbc : textLE b c = true) :
    textLE a c = true := by
  induction a generalizing b c with
  | nil => rfl
  | cons x xs ih =>
    cases b with
    | nil => simp [textLE] at hab
    | cons y ys =>
      cases c with
      | nil => simp [textLE] at hbc
      | cons z zs =>
        simp only [textLE, Bool.or_eq_true, Bool.and_eq_true, decide_eq_true_eq] at hab hbc ⊢
        rcases hab with h1 | ⟨h1, h1'⟩ <;> rcases hbc with h2 | ⟨h2, h2'⟩
        · exact Or.inl (by omega)
        · exact Or.inl (by omega)
        · exact Or.inl (by omega)
        · exact Or.inr ⟨by omega, ih ys zs h1' h2'⟩

/-- The listing is in the order of the stored texts, greatest first. -/
theorem getNodes_sorted_text (loc : Location) (rows : Rows) :
    List.Pairwise (seenNotBefore loc) (GetNodes loc rows) := by
  haveI : IsTotal Node (seenNotBefore loc) := ⟨fun a b => textLE_total _ _⟩
  haveI : IsTrans Node (seenNotBefore loc) := ⟨fun a b c hab hbc => textLE_trans _ _ _ hbc hab⟩
  exact List.sorted_insertionSort (seenNotBefore loc) rows

/-- Evaluation for C23.  `GetNodes` returns every stored node exactly once, but
not in the order of `last_seen`: the query orders the stored texts, greatest
first, and these begin with the wall clock time of the location.  A server in `Europe/Berlin` sees
one node at 02:30 summer time on 27 October 2024 and another forty minutes
later, at 02:10 winter time.  The listing has the node seen first in front:
the `last_seen` of the first node of the result is less than that of the
second.  In `time.UTC` the same table is listed latest first. -/
theorem get_nodes_fall_back :
    (∀ (loc : Location) (rows : Rows), List.Perm (GetNodes loc rows) rows) ∧
    (∀ (loc : Location) (rows : Rows), List.Pairwise (seenNotBefore loc) (GetNodes loc rows)) ∧
    formatTime berlin earlyNode.LastSeen = "2024-10-27 02:30:00.25 +0200 CEST" ∧
    formatTime berlin lateNode.LastSeen = "2024-10-27 02:10:00.5 +0100 CET" ∧
    earlyNode.LastSeen < lateNode.LastSeen ∧
    UpsertNode (UpsertNode [] earlyNode) lateNode = [insertRow earlyNode, insertRow lateNode] ∧
    GetNodes berlin (UpsertNode (UpsertNode [] earlyNode) lateNode) =
      [insertRow earlyNode, insertRow lateNode] ∧
    ¬ List.Chain' (fun a b => b.LastSeen ≤ a.LastSeen)
      (GetNodes berlin (UpsertNode (UpsertNode [] earlyNode) lateNode)) ∧
    formatTime utc earlyNode.LastSeen = "2024-10-27 00:30:00.25 +0000 UTC" ∧
    formatTime utc lateNode.LastSeen = "2024-10-27 01:10:00.5 +0000 UTC" ∧
    GetNodes utc (UpsertNode (UpsertNode [] earlyNode) lateNode) =
      [insertRow lateNode, insertRow earlyNode] := by
  have hget : GetNodes berlin (UpsertNode (UpsertNode [] earlyNode) lateNode) =
      [insertRow earlyNode, insertRow lateNode] := by decide
  refine ⟨getNodes_perm, getNodes_sorted_text, by decide, by decide, by decide, by decide,
    hget, ?_,
    by decide, by decide, by decide⟩
  rw [hget]
  intro h
  have hfirst : (insertRow lateNode).LastSeen ≤ (insertRow earlyNode).LastSeen :=
    (List.chain'_cons.1 h).1
  revert hfirst
  decide

/-- Witness of C22: the nodes without server name of application `MetricZ`. -/
theorem get_nodes_subset_witness :
    ∀ n ∈ GetNodesSubset [bareNode, { namedNode with Port := 2303 }, generatedNode]
      "MetricZ" true, n.ServerName = "" :=
  (get_nodes_subset [bareNode, { namedNode with Port := 2303 }, generatedNode]
    "MetricZ" true).2.2.1

/-! ### The source address -/

theorem firstPart_no_comma (x : String) : ',' ∉ (firstPart x).toList := by
  unfold firstPart
  intro h
  have := List.mem_takeWhile_imp h
  simp at this

/-- The text after the first part is empty or begins with the comma. -/
theorem firstPart_rest (x : String) :
    ∃ rest : List Char, x.toList = (firstPart x).toList ++ rest ∧
      (rest = [] ∨ rest.head? = some ',') := by
  refine ⟨x.toList.dropWhile (fun c => c ≠ ','), ?_, ?_⟩
  · unfold firstPart
    exact (List.takeWhile_append_dropWhile _ _).symm
  · have h := List.head?_dropWhile_not (fun c => decide (c ≠ ',')) x.toList
    cases hd : x.toList.dropWhile (fun c => decide (c ≠ ',')) with
    | nil => exact Or.inl rfl
    | cons c t =>
      right
      rw [hd] at h
      simp only [List.head?_cons, decide_eq_false_iff_not, ne_eq, not_not] at h
      rw [List.head?_cons, h]

/-- The text that `TrimSpace` removes from a string is white space before and
after the result. -/
theorem trimSpace_decompose (y : String) :
    ∃ lead trail : List Char, y.toList = lead ++ (TrimSpace y).toList ++ trail ∧
      (∀ c ∈ lead, isSpace c = true) ∧ (∀ c ∈ trail, isSpace c = true) := by
  refine ⟨y.toList.takeWhile isSpace,
    ((y.toList.dropWhile isSpace).reverse.takeWhile isSpace).reverse, ?_, ?_, ?_⟩
  · have h1 : y.toList = y.toList.takeWhile isSpace ++ y.toList.dropWhile isSpace :=
      (List.takeWhile_append_dropWhile _ _).symm
    have h2 : (y.toList.dropWhile isSpace).reverse =
        (y.toList.dropWhile isSpace).reverse.takeWhile isSpace ++
          (y.toList.dropWhile isSpace).reverse.dropWhile isSpace :=
      (List.takeWhile_append_dropWhile _ _).symm
    have h3 : y.toList.dropWhile isSpace =
        ((y.toList.dropWhile isSpace).reverse.dropWhile isSpace).reverse ++
          ((y.toList.dropWhile isSpace).reverse.takeWhile isSpace).reverse := by
      rw [← List.reverse_append, ← h2, List.reverse_reverse]
    unfold TrimSpace
    show y.toList = y.toList.takeWhile isSpace ++
      ((y.toList.dropWhile isSpace).reverse.dropWhile isSpace).reverse ++ _
    rw [List.append_assoc, ← h3, ← h1]
  · intro c hc
    exact List.mem_takeWhile_imp hc
  · intro c hc
    exact List.mem_takeWhile_imp (List.mem_reverse.1 hc)

/-- The result of `TrimSpace` does not begin with white space. -/
theorem trimSpace_head (y : String) (c : Char)
    (h : (TrimSpace y).toList.head? = some c) : isSpace c = false := by
  unfold TrimSpace at h
  change (((y.toList.dropWhile isSpace).reverse.dropWhile isSpace).reverse).head? = some c at h
  rw [List.head?_reverse] at h
  -- the last character of a suffix of the reversed text is the first of the text
  have hsuf : (y.toList.dropWhile isSpace).reverse.dropWhile isSpace <:+
      (y.toList.dropWhile isSpace).reverse := List.dropWhile_suffix _
  obtain ⟨pre, hpre⟩ := hsuf
  have hlast : (y.toList.dropWhile isSpace).reverse.getLast? = some c := by
    rw [← hpre, List.getLast?_append, h]
    rfl
  rw [List.getLast?_reverse] at hlast
  have hnot := List.head?_dropWhile_not isSpace y.toList
  rw [hlast] at hnot
  exact hnot

/-- The result of `TrimSpace` does not end with white space. -/
theorem trimSpace_last (y : String) (c : Char)
    (h : (TrimSpace y).toList.getLast? = some c) : isSpace c = false := by
  unfold TrimSpace at h
  change (((y.toList.dropWhile isSpace).reverse.dropWhile isSpace).reverse).getLast? = some c at h
  rw [List.getLast?_reverse] at h
  have hnot := List.head?_dropWhile_not isSpace (y.toList.dropWhile isSpace).reverse
  rw [h] at hnot
  exact hnot

theorem char_eq_iff_toNat (c d : Char) : c = d ↔ c.toNat = d.toNat := by
  constructor
  · intro h; rw [h]
  · intro h
    apply Char.ext
    apply UInt32.ext
    exact h

/-- The white space of `TrimSpace`, by code point. -/
theorem isSpace_iff (c : Char) :
    isSpace c = true ↔
      c.toNat ∈ [9, 10, 11, 12, 13, 32, 133, 160, 5760, 8232, 8233, 8239, 8287, 12288] ∨
        (8192 ≤ c.toNat ∧ c.toNat ≤ 8202) := by
  unfold isSpace
  simp only [Bool.or_eq_true, Bool.and_eq_true, decide_eq_true_eq, char_eq_iff_toNat,
    List.mem_cons, List.mem_singleton, List.not_mem_nil, or_false]
  have e1 : '\t'.toNat = 9 := rfl
  have e2 : '\n'.toNat = 10 := rfl
  have e3 : '\r'.toNat = 13 := rfl
  have e4 : ' '.toNat = 32 := rfl
  rw [e1, e2, e3, e4]
  omega

/-- C24. With `trustProxy` false, `GetRealIP` depends on `RemoteAddr` alone: it
is the host part of `RemoteAddr`, or `RemoteAddr` itself when that has no
host and port form, so two requests with the same `RemoteAddr` get the same
address whatever their headers.  With `trustProxy` true it is a non-empty
`CF-Connecting-IP`; else, for a non-empty `X-Forwarded-For`, the trimmed first
comma-separated element: the header is white space, the result, white space
and then nothing or a comma and more, the text before that comma holds no
comma, and the result neither begins nor ends with white space; else the
address obtained from `RemoteAddr`.  White space is the characters that
`unicode.IsSpace` names. -/
theorem get_real_ip (env : Env) (r : Request) :
    (∀ r' : Request, r'.RemoteAddr = r.RemoteAddr →
      GetRealIP env r' false = GetRealIP env r false) ∧
    GetRealIP env r false =
      (match env.SplitHostPort r.RemoteAddr with
        | none => r.RemoteAddr
        | some ip => ip) ∧
    (r.CFConnectingIP ≠ "" → GetRealIP env r true = r.CFConnectingIP) ∧
    (r.CFConnectingIP = "" → r.XForwardedFor ≠ "" →
      ∃ lead trail rest : List Char,
        r.XForwardedFor.toList = lead ++ (GetRealIP env r true).toList ++ trail ++ rest ∧
        (rest = [] ∨ rest.head? = some ',') ∧
        ',' ∉ lead ++ (GetRealIP env r true).toList ++ trail ∧
        (∀ c ∈ lead, isSpace c = true) ∧ (∀ c ∈ trail, isSpace c = true) ∧
        (∀ c, (GetRealIP env r true).toList.head? = some c → isSpace c = false) ∧
        (∀ c, (GetRealIP env r true).toList.getLast? = some c → isSpace c = false)) ∧
    (r.CFConnectingIP = "" → r.XForwardedFor = "" →
      GetRealIP env r true = GetRealIP env r false) ∧
    (∀ c : Char, isSpace c = true ↔
      c.toNat ∈ [9, 10, 11, 12, 13, 32, 133, 160, 5760, 8232, 8233, 8239, 8287, 12288] ∨
        (8192 ≤ c.toNat ∧ c.toNat ≤ 8202)) := by
  refine ⟨?_, ?_, ?_, ?_, ?_, isSpace_iff⟩
  · intro r' h
    simp [GetRealIP, h]
  · simp [GetRealIP]
  · intro h
    simp [GetRealIP, h]
  · intro h1 h2
    have hval : GetRealIP env r true = TrimSpace (firstPart r.XForwardedFor) := by
      simp [GetRealIP, h1, h2]
    rw [hval]
    obtain ⟨rest, hrest, hcomma⟩ := firstPart_rest r.XForwardedFor
    obtain ⟨lead, trail, htrim, hlead, htrail⟩ := trimSpace_decompose (firstPart r.XForwardedFor)
    refine ⟨lead, trail, rest, ?_, hcomma, ?_, hlead, htrail,
      trimSpace_head _, trimSpace_last _⟩
    · rw [← htrim]
      exact hrest
    · rw [← htrim]
      exact firstPart_no_comma _
  · intro h1 h2
    simp [GetRealIP, h1, h2]

/-- Witness of C24: a request through a proxy with `X-Forwarded-For` set to
" 198.51.100.4 , 10.0.0.1"; the address is "198.51.100.4". -/
theorem get_real_ip_witness :
    GetRealIP sampleEnv proxiedRequest true = "198.51.100.4" ∧
    ∃ lead trail rest : List Char,
      proxiedRequest.XForwardedFor.toList =
        lead ++ (GetRealIP sampleEnv proxiedRequest true).toList ++ trail ++ rest ∧
      (rest = [] ∨ rest.head? = some ',') ∧
      ',' ∉ lead ++ (GetRealIP sampleEnv proxiedRequest true).toList ++ trail ∧
      (∀ c ∈ lead, isSpace c = true) ∧ (∀ c ∈ trail, isSpace c = true) ∧
      (∀ c, (GetRealIP sampleEnv proxiedRequest true).toList.head? = some c →
        isSpace c = false) ∧
      (∀ c, (GetRealIP sampleEnv proxiedRequest true).toList.getLast? = some c →
        isSpace c = false) :=
  ⟨by decide, (get_real_ip sampleEnv proxiedRequest).2.2.2.1 (by decide) (by decide)⟩


/-! ### Maintenance tasks -/

theorem mem_getNodesSubset (rows : Rows) (app : String) (onlyEmpty : Bool) (n : Node) :
    n ∈ GetNodesSubset rows app onlyEmpty ↔
      n ∈ rows ∧ (app = "" ∨ n.Application = app) ∧ (onlyEmpty = false ∨ n.ServerName = "") := by
  unfold GetNodesSubset
  by_cases happ : app = "" <;> cases onlyEmpty <;> simp [happ, List.mem_filter, and_assoc]
  intro _
  exact and_comm

theorem getNodesSubset_sublist (rows : Rows) (app : String) (onlyEmpty : Bool) :
    List.Sublist (GetNodesSubset rows app onlyEmpty) rows := by
  unfold GetNodesSubset
  by_cases happ : app ≠ "" <;> cases onlyEmpty
  · simp only [if_pos happ]
    exact List.filter_sublist _
  · simp only [if_pos happ, if_true]
    exact (List.filter_sublist _).trans (List.filter_sublist _)
  · simp only [if_neg happ]
    exact List.Sublist.refl _
  · simp only [if_neg happ, if_true]
    exact List.filter_sublist _

/-- The keys of a batch fetched from a table with unique keys are distinct. -/
theorem getNodesSubset_keys (rows : Rows) (app : String) (onlyEmpty : Bool)
    (huniq : UniqueKeys rows) : ((GetNodesSubset rows app onlyEmpty).map Node.key).Nodup :=
  List.Nodup.sublist (List.Sublist.map _ (getNodesSubset_sublist rows app onlyEmpty)) huniq

/-- The function `processNode` leaves the records of other keys as they were. -/
theorem processNode_other (env : Env) (rows : Rows) (node : Node) (now : Int) (k : Key)
    (hk : node.key ≠ k) : GetNode (processNode env rows node now) k = GetNode rows k := by
  unfold processNode
  split_ifs
  · exact getNode_delete_other rows node.key k hk
  · cases env.QueryServer node.IP node.Port with
    | none => exact getNode_delete_other rows node.key k hk
    | some info => exact getNode_upsert_other rows (refreshedNode node info now) k hk

/-- What `processNode` leaves under the key of its node depends on the table
through the record of that key only. -/
theorem processNode_self (env : Env) (rows rows' : Rows) (node : Node) (now : Int)
    (h : GetNode rows node.key = GetNode rows' node.key) :
    GetNode (processNode env rows node now) node.key =
      GetNode (processNode env rows' node now) node.key := by
  unfold processNode
  split_ifs
  · rw [getNode_delete_self, getNode_delete_self]
  · cases env.QueryServer node.IP node.Port with
    | none =>
      show GetNode (DeleteNode rows node.key) node.key = GetNode (DeleteNode rows' node.key) node.key
      rw [getNode_delete_self, getNode_delete_self]
    | some info =>
      have h1 := getNode_upsert_self rows (refreshedNode node info now)
      have h2 := getNode_upsert_self rows' (refreshedNode node info now)
      have hkey : (refreshedNode node info now).key = node.key := rfl
      rw [hkey] at h1 h2
      show GetNode (UpsertNode rows (refreshedNode node info now)) node.key =
        GetNode (UpsertNode rows' (refreshedNode node info now)) node.key
      rw [h1, h2, h]

/-- The worker pool is `processNode` for the nodes of the batch, one after the
other, each with its clock reading. -/
theorem runWorkerPool_eq_foldl (env : Env) (batch : List Node) :
    ∀ (rows : Rows) (clock : Nat → Int) (k : Nat),
      runWorkerPool env rows batch (fun i => clock (i + k)) =
        (batch.enumFrom k).foldl (fun acc e => processNode env acc e.2 (clock e.1)) rows := by
  induction batch with
  | nil => intro rows clock k; rfl
  | cons n rest ih =>
    intro rows clock k
    have hclock : (fun i => clock (i + 1 + k)) = (fun i => clock (i + (k + 1))) := by
      funext i
      congr 1
      omega
    simp only [runWorkerPool, List.enumFrom_cons, List.foldl_cons, Nat.zero_add]
    rw [hclock]
    exact ih _ clock (k + 1)

theorem runWorkerPool_other (env : Env) (batch : List Node) :
    ∀ (rows : Rows) (clock : Nat → Int) (k : Key), (∀ node ∈ batch, node.key ≠ k) →
      GetNode (runWorkerPool env rows batch clock) k = GetNode rows k := by
  induction batch with
  | nil => intro rows clock k _; rfl
  | cons n rest ih =>
    intro rows clock k hk
    simp only [runWorkerPool]
    rw [ih _ _ k (fun node hnode => hk node (List.mem_cons_of_mem _ hnode))]
    exact processNode_other env rows n (clock 0) k (hk n (List.mem_cons_self _ _))

theorem runWorkerPool_self (env : Env) (batch : List Node) :
    ∀ (rows : Rows) (clock : Nat → Int), (batch.map Node.key).Nodup →
      ∀ (i : Nat) (node : Node), batch[i]? = some node →
        GetNode (runWorkerPool env rows batch clock) node.key =
          GetNode (processNode env rows node (clock i)) node.key := by
  induction batch with
  | nil => intro rows clock _ i node hi; simp at hi
  | cons n rest ih =>
    intro rows clock hnd i node hi
    rw [List.map_cons, List.nodup_cons] at hnd
    simp only [runWorkerPool]
    cases i with
    | zero =>
      simp only [List.getElem?_cons_zero, Option.some.injEq] at hi
      subst hi
      apply runWorkerPool_other
      intro m hm hkey
      exact hnd.1 (List.mem_map.2 ⟨m, hm, hkey⟩)
    | succ j =>
      simp only [List.getElem?_cons_succ] at hi
      rw [ih _ _ hnd.2 j node hi]
      apply processNode_self
      apply processNode_other
      intro hkey
      exact hnd.1 (List.mem_map.2 ⟨node, List.getElem?_mem hi, hkey.symm⟩)

/-- The table after `maintenance.Run` is the table after its calls. -/
theorem run_eq_applyMaintCalls (env : Env) (cfg : Config) (rows : Rows) (clock : Nat → Int) :
    (Run env cfg rows clock).2 = applyMaintCalls env rows (RunCalls cfg rows) clock := by
  have hpool : ∀ (batch : List Node) (rows : Rows) (clock : Nat → Int),
      applyMaintCalls env rows (batch.map MaintCall.processNode) clock =
        runWorkerPool env rows batch clock := by
    intro batch
    induction batch with
    | nil => intro rows clock; rfl
    | cons n rest ih =>
      intro rows clock
      simp only [List.map_cons, applyMaintCalls, runWorkerPool]
      exact ih _ _
  unfold Run RunCalls
  split_ifs
  · rfl
  · simp only [applyMaintCalls]
    rw [hpool]
  · simp only [applyMaintCalls]
    rw [hpool]
  · rfl

/-- The worker pool on a batch fetched from the table: `processNode` for each
node of the batch in turn; under the key of a node of the batch it leaves what
`processNode` of that node alone leaves, and under every other key the record
that was there. -/
theorem runWorkerPool_batch (env : Env) (rows : Rows) (app : String) (onlyEmpty : Bool)
    (clock : Nat → Int) :
    runWorkerPool env rows (GetNodesSubset rows app onlyEmpty) clock =
        ((GetNodesSubset rows app onlyEmpty).enum).foldl
          (fun acc e => processNode env acc e.2 (clock e.1)) rows ∧
      (UniqueKeys rows → ∀ (i : Nat) (node : Node),
        (GetNodesSubset rows app onlyEmpty)[i]? = some node →
          GetNode (runWorkerPool env rows (GetNodesSubset rows app onlyEmpty) clock) node.key =
            GetNode (processNode env rows node (clock i)) node.key) ∧
      (∀ k : Key, (∀ node ∈ GetNodesSubset rows app onlyEmpty, node.key ≠ k) →
        GetNode (runWorkerPool env rows (GetNodesSubset rows app onlyEmpty) clock) k =
          GetNode rows k) := by
  refine ⟨?_, ?_, ?_⟩
  · exact runWorkerPool_eq_foldl env _ rows clock 0
  · intro huniq i node hi
    exact runWorkerPool_self env _ rows clock (getNodesSubset_keys rows app onlyEmpty huniq)
      i node hi
  · intro k hk
    exact runWorkerPool_other env _ rows clock k hk

/-- C25. `maintenance.Run` returns false exactly when `PruneEmpty`,
`CheckInactive` and `CheckAll` are all empty, and then it makes no call.  With
`PruneEmpty` set its only call is `DeleteEmptyNodes`, whatever the check flags,
and the table afterwards is the one that call leaves.  With `PruneEmpty` empty
and `CheckInactive` set, whatever `CheckAll`, it fetches the nodes without
server name and calls `processNode` for exactly these stored nodes: the table
afterwards is the result of `processNode` for each of them in turn; under the
key of each it holds what `processNode` of that node leaves, and under every
other key the record that was there.  With `CheckAll` alone the same holds for
every stored node of the scope.  The table afterwards is in each case the
table after the calls made.  The application name passed to the storage is the
empty name for the flag value "AnyApp" and the flag value itself otherwise. -/
theorem maintenance_run (env : Env) (cfg : Config) (rows : Rows) (clock : Nat → Int) :
    ((Run env cfg rows clock).1 = false ↔
      cfg.Storage.PruneEmpty = "" ∧ cfg.Storage.CheckInactive = "" ∧
        cfg.Storage.CheckAll = "") ∧
    (Run env cfg rows clock).2 = applyMaintCalls env rows (RunCalls cfg rows) clock ∧
    (cfg.Storage.PruneEmpty ≠ "" →
      RunCalls cfg rows = [MaintCall.deleteEmptyNodes (parseAppName cfg.Storage.PruneEmpty)] ∧
      (Run env cfg rows clock).2 =
        (DeleteEmptyNodes rows (parseAppName cfg.Storage.PruneEmpty)).1) ∧
    (cfg.Storage.PruneEmpty = "" → cfg.Storage.CheckInactive ≠ "" →
      RunCalls cfg rows =
        MaintCall.getNodesSubset (parseAppName cfg.Storage.CheckInactive) true ::
          (GetNodesSubset rows (parseAppName cfg.Storage.CheckInactive) true).map
            MaintCall.processNode ∧
      (∀ node : Node, MaintCall.processNode node ∈ RunCalls cfg rows ↔
        node ∈ rows ∧
          (parseAppName cfg.Storage.CheckInactive = "" ∨
            node.Application = parseAppName cfg.Storage.CheckInactive) ∧
          node.ServerName = "") ∧
      (Run env cfg rows clock).2 =
        ((GetNodesSubset rows (parseAppName cfg.Storage.CheckInactive) true).enum).foldl
          (fun acc e => processNode env acc e.2 (clock e.1)) rows ∧
      (UniqueKeys rows → ∀ (i : Nat) (node : Node),
        (GetNodesSubset rows (parseAppName cfg.Storage.CheckInactive) true)[i]? = some node →
          GetNode (Run env cfg rows clock).2 node.key =
            GetNode (processNode env rows node (clock i)) node.key) ∧
      (∀ k : Key,
        (∀ node ∈ GetNodesSubset rows (parseAppName cfg.Storage.CheckInactive) true,
          node.key ≠ k) →
        GetNode (Run env cfg rows clock).2 k = GetNode rows k)) ∧
    (cfg.Storage.PruneEmpty = "" → cfg.Storage.CheckInactive = "" →
      cfg.Storage.CheckAll ≠ "" →
      RunCalls cfg rows =
        MaintCall.getNodesSubset (parseAppName cfg.Storage.CheckAll) false ::
          (GetNodesSubset rows (parseAppName cfg.Storage.CheckAll) false).map
            MaintCall.processNode ∧
      (∀ node : Node, MaintCall.processNode node ∈ RunCalls cfg rows ↔
        node ∈ rows ∧
          (parseAppName cfg.Storage.CheckAll = "" ∨
            node.Application = parseAppName cfg.Storage.CheckAll)) ∧
      (Run env cfg rows clock).2 =
        ((GetNodesSubset rows (parseAppName cfg.Storage.CheckAll) false).enum).foldl
          (fun acc e => processNode env acc e.2 (clock e.1)) rows ∧
      (UniqueKeys rows → ∀ (i : Nat) (node : Node),
        (GetNodesSubset rows (parseAppName cfg.Storage.CheckAll) false)[i]? = some node →
          GetNode (Run env cfg rows clock).2 node.key =
            GetNode (processNode env rows node (clock i)) node.key) ∧
      (∀ k : Key,
        (∀ node ∈ GetNodesSubset rows (parseAppName cfg.Storage.CheckAll) false,
          node.key ≠ k) →
        GetNode (Run env cfg rows clock).2 k = GetNode rows k)) ∧
    (cfg.Storage.PruneEmpty = "" → cfg.Storage.CheckInactive = "" →
      cfg.Storage.CheckAll = "" →
      RunCalls cfg rows = [] ∧ (Run env cfg rows clock).2 = rows) ∧
    parseAppName "AnyApp" = "" ∧
    (∀ value : String, value ≠ "AnyApp" → parseAppName value = value) := by
  refine ⟨?_, run_eq_applyMaintCalls env cfg rows clock, ?_, ?_, ?_, ?_, by decide, ?_⟩
  · unfold Run
    by_cases h1 : cfg.Storage.PruneEmpty ≠ ""
    · rw [if_pos h1]
      simp [h1]
    · by_cases h2 : cfg.Storage.CheckInactive ≠ ""
      · rw [if_neg h1, if_pos h2]
        simp [h2]
      · by_cases h3 : cfg.Storage.CheckAll ≠ ""
        · rw [if_neg h1, if_neg h2, if_pos h3]
          simp [h3]
        · rw [if_neg h1, if_neg h2, if_neg h3]
          simp only [ne_eq, not_not] at h1 h2 h3
          simp [h1, h2, h3]
  · intro h1
    unfold RunCalls Run
    rw [if_pos h1, if_pos h1]
    exact ⟨rfl, rfl⟩
  · intro h1 h2
    have h1' : ¬ cfg.Storage.PruneEmpty ≠ "" := fun h => h h1
    have hcalls : RunCalls cfg rows =
        MaintCall.getNodesSubset (parseAppName cfg.Storage.CheckInactive) true ::
          (GetNodesSubset rows (parseAppName cfg.Storage.CheckInactive) true).map
            MaintCall.processNode := by
      unfold RunCalls
      rw [if_neg h1', if_pos h2]
    have hrun : (Run env cfg rows clock).2 = runWorkerPool env rows
        (GetNodesSubset rows (parseAppName cfg.Storage.CheckInactive) true) clock := by
      unfold Run
      rw [if_neg h1', if_pos h2]
    obtain ⟨hfold, hself, hother⟩ :=
      runWorkerPool_batch env rows (parseAppName cfg.Storage.CheckInactive) true clock
    rw [hrun]
    refine ⟨hcalls, ?_, hfold, hself, hother⟩
    intro node
    rw [hcalls]
    simp only [List.mem_cons, List.mem_map, MaintCall.processNode.injEq, false_or,
      exists_eq_right]
    rw [mem_getNodesSubset]
    simp
  · intro h1 h2 h3
    have h1' : ¬ cfg.Storage.PruneEmpty ≠ "" := fun h => h h1
    have h2' : ¬ cfg.Storage.CheckInactive ≠ "" := fun h => h h2
    have hcalls : RunCalls cfg rows =
        MaintCall.getNodesSubset (parseAppName cfg.Storage.CheckAll) false ::
          (GetNodesSubset rows (parseAppName cfg.Storage.CheckAll) false).map
            MaintCall.processNode := by
      unfold RunCalls
      rw [if_neg h1', if_neg h2', if_pos h3]
    have hrun : (Run env cfg rows clock).2 = runWorkerPool env rows
        (GetNodesSubset rows (parseAppName cfg.Storage.CheckAll) false) clock := by
      unfold Run
      rw [if_neg h1', if_neg h2', if_pos h3]
    obtain ⟨hfold, hself, hother⟩ :=
      runWorkerPool_batch env rows (parseAppName cfg.Storage.CheckAll) false clock
    rw [hrun]
    refine ⟨hcalls, ?_, hfold, hself, hother⟩
    intro node
    rw [hcalls]
    simp only [List.mem_cons, List.mem_map, MaintCall.processNode.injEq, false_or,
      exists_eq_right]
    rw [mem_getNodesSubset]
    simp
  · intro h1 h2 h3
    unfold RunCalls Run
    simp [h1, h2, h3]
  · intro value hvalue
    unfold parseAppName AnyApplications
    rw [if_neg hvalue]

/-- Witness of C25: both check flags set, `CheckInactive` without a value, on
a table of three nodes of which one has no server name.  That node alone is
re-validated: its server answers, so its record takes the server name and is
counted once more, and the two other records stay as they were. -/
theorem maintenance_run_witness :
    (Run answeringEnv bothChecksConfig
        [bareNode, { namedNode with Port := 2303 }, generatedNode] (fun _ => 5000)).2.map
        (fun n => (n.Port, n.ServerName, n.Count, n.LastSeen)) =
      [(2302, "DayZ #9", 1, 5000), (2303, "DayZ #2", 0, 300),
        (2350, "DayZ Server #7 [PvP]", 0, 604800000000000)] ∧
    (∀ node : Node,
      MaintCall.processNode node ∈
          RunCalls bothChecksConfig [bareNode, { namedNode with Port := 2303 }, generatedNode] ↔
        node ∈ [bareNode, { namedNode with Port := 2303 }, generatedNode] ∧
          (parseAppName bothChecksConfig.Storage.CheckInactive = "" ∨
            node.Application = parseAppName bothChecksConfig.Storage.CheckInactive) ∧
          node.ServerName = "") ∧
    GetNode (Run answeringEnv bothChecksConfig
        [bareNode, { namedNode with Port := 2303 }, generatedNode] (fun _ => 5000)).2
        bareNode.key =
      GetNode (processNode answeringEnv
        [bareNode, { namedNode with Port := 2303 }, generatedNode] bareNode 5000) bareNode.key :=
  ⟨by decide,
    ((maintenance_run answeringEnv bothChecksConfig
      [bareNode, { namedNode with Port := 2303 }, generatedNode] (fun _ => 5000)).2.2.2.1
      (by decide) (by decide)).2.1,
    ((maintenance_run answeringEnv bothChecksConfig
      [bareNode, { namedNode with Port := 2303 }, generatedNode] (fun _ => 5000)).2.2.2.1
      (by decide) (by decide)).2.2.2.1 (by decide) 0 bareNode (by decide)⟩


/-! ### The soft limit under a full queue -/

/-- C26. A valid beacon passes the soft limit while the queue is open and
full: it is answered "not accounted" and nothing is queued, but its clock
reading `t1` is recorded under its soft key.  While that entry stands, every
further valid beacon with the same soft key whose soft-limit test reads a clock
value less than the soft window after `t1` is answered "ok" and changes
nothing, so it is not queued either. -/
theorem full_queue_still_suppresses (env : Env) (s : Server) (st0 : State) (r1 : Request)
    (job1 : telemetryJob) (c1 t1 : Int)
    (hvalid1 : validBeacon env s r1 = some job1)
    (hsoft1 : softHit s st0.seenCache (softKey job1.IP job1.Req.Port) c1 = false)
    (hopen : st0.closed = false)
    (hfull : st0.queue.length = queueCapacity) :
    (handleTelemetry env s c1 t1 st0 r1).2 = Reply.response (respondOK "not accounted") ∧
      (handleTelemetry env s c1 t1 st0 r1).1.queue = st0.queue ∧
      (handleTelemetry env s c1 t1 st0 r1).1.rows = st0.rows ∧
      (handleTelemetry env s c1 t1 st0 r1).1.seenCache.Load (softKey job1.IP job1.Req.Port) =
        some t1 ∧
      ∀ (st : State) (r2 : Request) (job2 : telemetryJob) (c2 t2 : Int),
        validBeacon env s r2 = some job2 →
        softKey job2.IP job2.Req.Port = softKey job1.IP job1.Req.Port →
        st.seenCache.Load (softKey job1.IP job1.Req.Port) = some t1 →
        c2 - t1 < s.softLimitDur →
        handleTelemetry env s c2 t2 st r2 = (st, Reply.response (respondOK "ok")) := by
  have hroom : ¬ st0.queue.length < queueCapacity := by omega
  have hfirst : handleTelemetry env s c1 t1 st0 r1 =
      ({ st0 with seenCache := st0.seenCache.Store (softKey job1.IP job1.Req.Port) t1 },
        Reply.response (respondOK "not accounted")) := by
    rw [handleTelemetry_valid env s c1 t1 st0 r1 job1 hvalid1]
    unfold afterValidation
    simp [hsoft1, hopen, hroom]
  rw [hfirst]
  refine ⟨rfl, rfl, rfl, load_store_self _ _ _, ?_⟩
  intro st r2 job2 c2 t2 hvalid2 hkey hkept hlt
  rw [handleTelemetry_valid env s c2 t2 st r2 job2 hvalid2]
  unfold afterValidation
  have hhit : softHit s st.seenCache (softKey job2.IP job2.Req.Port) c2 = true := by
    rw [hkey]
    simp [softHit, hkept, hlt]
  rw [if_pos hhit]

/-- Witness of C26: `sampleRequest` arriving at clock value 5000 when the queue
holds 1000 jobs, and again at 6000. -/
theorem full_queue_still_suppresses_witness :
    handleTelemetry sampleEnv sampleServer 6000 6000
        (handleTelemetry sampleEnv sampleServer 5000 5000 fullState sampleRequest).1
        sampleRequest =
      ((handleTelemetry sampleEnv sampleServer 5000 5000 fullState sampleRequest).1,
        Reply.response (respondOK "ok")) :=
  (full_queue_still_suppresses sampleEnv sampleServer fullState sampleRequest sampleJob
    5000 5000 (by decide) (by decide) rfl (List.length_replicate _ _)).2.2.2.2
    (handleTelemetry sampleEnv sampleServer 5000 5000 fullState sampleRequest).1
    sampleRequest sampleJob 6000 6000 (by decide) rfl
    (full_queue_still_suppresses sampleEnv sampleServer fullState sampleRequest sampleJob
      5000 5000 (by decide) (by decide) rfl (List.length_replicate _ _)).2.2.2.1
    (by decide)

/-! ### The count after a re-validation -/

/-- C27. A node is stored (the table holds it under its key) with
`1000 < port ≤ 65535` and its protocol query succeeds.  Then `processNode`
makes one merge and no delete, and the stored record afterwards has the count
of the node plus one and the `first_seen`, version, type and country code of
the node; so where the count was the number `beacons` of beacons merged for
the key, it is `beacons + 1` afterwards, more than that number. -/
theorem revalidation_counts (env : Env) (rows : Rows) (node : Node) (info : Info) (now : Int)
    (beacons : Int)
    (hport : 1000 < node.Port ∧ node.Port ≤ 65535)
    (hstored : GetNode rows node.key = some node)
    (hquery : env.QueryServer node.IP node.Port = some info)
    (hcount : node.Count = beacons) :
    upserts (processNodeCalls env node now) = [refreshedNode node info now] ∧
      deletes (processNodeCalls env node now) = [] ∧
      ∃ r, GetNode (processNode env rows node now) node.key = some r ∧
        r.Count = node.Count + 1 ∧
        r.FirstSeen = node.FirstSeen ∧
        r.Version = node.Version ∧
        r.Type_ = node.Type_ ∧
        r.CountryCode = node.CountryCode ∧
        r.Count = beacons + 1 ∧ beacons < r.Count := by
  have hgood : ¬ (node.Port ≤ 1000 ∨ node.Port > 65535) := by omega
  have hkey : (refreshedNode node info now).key = node.key := rfl
  refine ⟨?_, ?_, onConflict node (refreshedNode node info now), ?_, rfl, rfl, rfl, rfl, ?_,
    ?_, ?_⟩
  · unfold processNodeCalls
    rw [if_neg hgood, hquery]
    rfl
  · unfold processNodeCalls
    rw [if_neg hgood, hquery]
    rfl
  · unfold processNode
    rw [if_neg hgood, hquery]
    simp only
    have := getNode_upsert_self rows (refreshedNode node info now)
    rw [hkey, hstored] at this
    exact this
  · show (if (refreshedNode node info now).CountryCode ≠ "" then
        (refreshedNode node info now).CountryCode else node.CountryCode) = node.CountryCode
    have : (refreshedNode node info now).CountryCode = node.CountryCode := rfl
    rw [this]
    split <;> rfl
  · show node.Count + 1 = beacons + 1
    rw [hcount]
  · show beacons < node.Count + 1
    omega

/-- Witness of C27: `storedNode`, merged three times, re-validated while its
server answers. -/
theorem revalidation_counts_witness :
    upserts (processNodeCalls answeringEnv storedNode 5000) =
        [refreshedNode storedNode
          { Name := "DayZ #9", Map := "livonia", Version := "1.26", Game := "dayz",
            Environment := "Windows", Players := 5, MaxPlayers := 40 } 5000] ∧
      deletes (processNodeCalls answeringEnv storedNode 5000) = [] ∧
      ∃ r, GetNode (processNode answeringEnv [generatedNode, storedNode] storedNode 5000)
          storedNode.key = some r ∧
        r.Count = storedNode.Count + 1 ∧
        r.FirstSeen = storedNode.FirstSeen ∧
        r.Version = storedNode.Version ∧
        r.Type_ = storedNode.Type_ ∧
        r.CountryCode = storedNode.CountryCode ∧
        r.Count = 3 + 1 ∧ (3 : Int) < r.Count :=
  revalidation_counts answeringEnv [generatedNode, storedNode] storedNode
    { Name := "DayZ #9", Map := "livonia", Version := "1.26", Game := "dayz",
      Environment := "Windows", Players := 5, MaxPlayers := 40 } 5000 3
    (by decide) (by decide) (by decide) (by decide)


/-! ### Eviction of idle clients -/

/-- A limiter idle for longer than the window is full: it decides, and is left,
as a new limiter. -/
theorem allow_expired (lim : Limiter) (l : ℚ) (K W : Int) (t : Int)
    (hgood : GoodLimiter l K lim) (hl : 0 < l) (hK : 1 ≤ K) (hW : 0 < W)
    (hrefill : ∀ d : Int, Seconds d * l = ((d : ℚ) * K) / W)
    (hidle : W < t - lim.last) :
    lim.Allow t = (NewLimiter (some l) K).Allow t := by
  obtain ⟨hlim, hburst, htok0, htokK⟩ := hgood
  rw [allow_fresh l hl K hK t]
  have hKq : (1 : ℚ) ≤ (K : ℚ) := by exact_mod_cast hK
  have hWq : (0 : ℚ) < (W : ℚ) := by exact_mod_cast hW
  have hdq : (W : ℚ) ≤ ((t - lim.last : Int) : ℚ) := by exact_mod_cast hidle.le
  have hdelta : (K : ℚ) ≤ Seconds (t - lim.last) * l := by
    rw [hrefill, le_div_iff₀ hWq]
    nlinarith
  have hnow : ¬ t < lim.last := by omega
  unfold Limiter.Allow
  rw [hlim]
  simp only [if_neg hl.ne', if_neg hnow, hburst]
  generalize Seconds (t - lim.last) * l = δ at hdelta ⊢
  have htokens : (if lim.tokens + δ > (K : ℚ) then (K : ℚ) else lim.tokens + δ) = (K : ℚ) := by
    by_cases h1 : lim.tokens + δ > (K : ℚ)
    · rw [if_pos h1]
    · rw [if_neg h1]
      linarith
  rw [htokens, if_pos ⟨hK, by linarith⟩]

/-- The limiter left by `Allow` is well formed and its last admission is not
after the clock value of the call. -/
theorem allow_good (lim : Limiter) (l : ℚ) (K : Int) (t : Int)
    (hgood : GoodLimiter l K lim) (hl : 0 < l) (hnow : lim.last ≤ t) :
    GoodLimiter l K (lim.Allow t).2 ∧ (lim.Allow t).2.last ≤ t := by
  obtain ⟨hlim, hburst, htok0, htokK⟩ := hgood
  have hd : 0 ≤ Seconds (t - lim.last) * l :=
    mul_nonneg (seconds_nonneg (by omega)) hl.le
  unfold Limiter.Allow
  rw [hlim]
  simp only [if_neg hl.ne', if_neg (not_lt.2 hnow), hburst]
  generalize Seconds (t - lim.last) * l = δ at hd ⊢
  by_cases h1 : lim.tokens + δ > (K : ℚ)
  · simp only [if_pos h1]
    by_cases h2 : 1 ≤ K ∧ (0 : ℚ) ≤ (K : ℚ) - 1
    · rw [if_pos h2]
      exact ⟨⟨rfl, rfl, h2.2, by simp only; linarith⟩, le_refl _⟩
    · rw [if_neg h2]
      exact ⟨⟨hlim, hburst, htok0, htokK⟩, hnow⟩
  · simp only [if_neg h1]
    by_cases h2 : 1 ≤ K ∧ (0 : ℚ) ≤ lim.tokens + δ - 1
    · rw [if_pos h2]
      exact ⟨⟨rfl, rfl, h2.2, by simp only; linarith⟩, le_refl _⟩
    · rw [if_neg h2]
      exact ⟨⟨hlim, hburst, htok0, htokK⟩, hnow⟩

theorem load_eq_none_of_not_mem {α : Type} (m : StrMap α) (k : String)
    (h : k ∉ m.map Prod.fst) : m.Load k = none := by
  unfold StrMap.Load
  rw [Option.map_eq_none', List.find?_eq_none]
  intro e he hk
  apply h
  exact List.mem_map.2 ⟨e, he, by simpa using hk⟩

/-- The entry of an address after a sweep. -/
theorem load_sweep (now : Int) (m : StrMap client) (ip : String) (huniq : UniqueIPs m) :
    (sweepClients now m).Load ip =
      match m.Load ip with
      | none => none
      | some c => if now - c.lastSeen > clientIdleLimit then none else some c := by
  induction m with
  | nil => rfl
  | cons e rest ih =>
    unfold UniqueIPs at huniq
    rw [List.map_cons, List.nodup_cons] at huniq
    by_cases hk : e.1 = ip
    · have hload : StrMap.Load (e :: rest) ip = some e.2 := by
        unfold StrMap.Load
        rw [List.find?_cons_of_pos _ (by simpa using hk)]
        rfl
      rw [hload]
      simp only
      by_cases hidle : now - e.2.lastSeen > clientIdleLimit
      · rw [if_pos hidle]
        unfold sweepClients
        rw [List.filter_cons_of_neg (fun h => (of_decide_eq_true h) hidle)]
        apply load_eq_none_of_not_mem
        intro hmem
        apply huniq.1
        rw [hk]
        obtain ⟨x, hx, hxk⟩ := List.mem_map.1 hmem
        exact List.mem_map.2 ⟨x, (List.mem_filter.1 hx).1, hxk⟩
      · rw [if_neg hidle]
        unfold sweepClients
        rw [List.filter_cons_of_pos (by
          show decide (¬ (now - e.2.lastSeen > clientIdleLimit)) = true
          exact decide_eq_true hidle)]
        unfold StrMap.Load
        rw [List.find?_cons_of_pos _ (by simpa using hk)]
        rfl
    · have hload : StrMap.Load (e :: rest) ip = StrMap.Load rest ip := by
        unfold StrMap.Load
        rw [List.find?_cons_of_neg _ (by simpa using hk)]
      rw [hload, ← ih huniq.2]
      unfold sweepClients
      by_cases hidle : now - e.2.lastSeen > clientIdleLimit
      · rw [List.filter_cons_of_neg (fun h => (of_decide_eq_true h) hidle)]
      · rw [List.filter_cons_of_pos (by
          show decide (¬ (now - e.2.lastSeen > clientIdleLimit)) = true
          exact decide_eq_true hidle)]
        unfold StrMap.Load
        rw [List.find?_cons_of_neg _ (by simpa using hk)]

theorem uniqueIPs_sweep (now : Int) (m : StrMap client) (huniq : UniqueIPs m) :
    UniqueIPs (sweepClients now m) := by
  unfold UniqueIPs sweepClients at *
  exact List.Nodup.sublist (List.Sublist.map _ (List.filter_sublist _)) huniq

theorem uniqueIPs_store (m : StrMap client) (ip : String) (c : client) (huniq : UniqueIPs m) :
    UniqueIPs (m.Store ip c) := by
  unfold UniqueIPs StrMap.Store at *
  rw [List.map_cons, List.nodup_cons]
  constructor
  · intro hmem
    obtain ⟨x, hx, hxk⟩ := List.mem_map.1 hmem
    have := (List.mem_filter.1 hx).2
    simp only [decide_eq_true_eq] at this
    exact this hxk
  · exact List.Nodup.sublist (List.Sublist.map _ (List.filter_sublist _)) huniq

theorem agree_mono (l : ℚ) (K : Int) (g : Int) (T T' : Int) (mA mB : StrMap client)
    (hag : Agree l K g T mA mB) (hT : T ≤ T') : Agree l K g T' mA mB := by
  unfold Agree at hag ⊢
  intro ip
  have hip := hag ip
  cases hB : mB.Load ip with
  | none =>
    rw [hB] at hip
    exact hip
  | some c =>
    rw [hB] at hip
    obtain ⟨hg, hlast, hseen, hor⟩ := hip
    refine ⟨hg, hlast, by omega, ?_⟩
    rcases hor with h1 | ⟨h1, h2⟩
    · exact Or.inl h1
    · exact Or.inr ⟨h1, by omega⟩

/-- The limiters that the two servers use for an address decide alike, and the
limiter left is well formed. -/
theorem agree_allow (s : Server) (l : ℚ) (g : Int) (T t : Int) (mA mB : StrMap client)
    (ip : String)
    (hlimit : hardLimit s.hardLimitCount s.hardLimitWin = some l) (hl : 0 < l)
    (hK : 1 ≤ s.hardLimitCount) (hW : 0 < s.hardLimitWin)
    (hW10 : s.hardLimitWin + g ≤ clientIdleLimit)
    (hrefill : ∀ d : Int, Seconds d * l = ((d : ℚ) * s.hardLimitCount) / s.hardLimitWin)
    (hag : Agree l s.hardLimitCount g T mA mB) (hT : T ≤ t) :
    (limiterOf s mA ip).Allow t = (limiterOf s mB ip).Allow t ∧
      GoodLimiter l s.hardLimitCount ((limiterOf s mB ip).Allow t).2 ∧
      ((limiterOf s mB ip).Allow t).2.last ≤ t := by
  have hKq : (1 : ℚ) ≤ (s.hardLimitCount : ℚ) := by exact_mod_cast hK
  have hfresh : GoodLimiter l s.hardLimitCount
      ((NewLimiter (some l) s.hardLimitCount).Allow t).2 ∧
      ((NewLimiter (some l) s.hardLimitCount).Allow t).2.last ≤ t := by
    rw [allow_fresh l hl s.hardLimitCount hK t]
    exact ⟨⟨rfl, rfl, by simp only; linarith, by simp only; linarith⟩, le_refl _⟩
  unfold Agree at hag
  have hip := hag ip
  unfold limiterOf
  cases hB : mB.Load ip with
  | none =>
    rw [hB] at hip
    simp only at hip
    rw [hip, hlimit]
    exact ⟨rfl, hfresh⟩
  | some c =>
    rw [hB] at hip
    obtain ⟨hg, hlast, hseen, hor⟩ := hip
    have hgood := allow_good c.limiter l s.hardLimitCount t hg hl (by omega)
    rcases hor with h1 | ⟨h1, h2⟩
    · rw [h1]
      exact ⟨rfl, hgood⟩
    · rw [h1, hlimit]
      simp only
      refine ⟨?_, hgood⟩
      exact (allow_expired c.limiter l s.hardLimitCount s.hardLimitWin t hg hl hK hW hrefill
        (by omega)).symm

theorem agree_store (l : ℚ) (K : Int) (g : Int) (T t tSeen : Int) (mA mB : StrMap client)
    (ip : String) (lim : Limiter) (hag : Agree l K g T mA mB) (hT : T ≤ t)
    (hgood : GoodLimiter l K lim) (hlast : lim.last ≤ t) (hgap : lim.last ≤ tSeen + g) :
    Agree l K g t (mA.Store ip { limiter := lim, lastSeen := tSeen })
      (mB.Store ip { limiter := lim, lastSeen := tSeen }) := by
  have hag' := agree_mono l K g T t mA mB hag hT
  unfold Agree at hag' ⊢
  intro ip'
  by_cases hip : ip = ip'
  · rw [← hip, load_store_self, load_store_self]
    exact ⟨hgood, hgap, hlast, Or.inl rfl⟩
  · rw [load_store_other _ _ _ _ hip, load_store_other _ _ _ _ hip]
    exact hag' ip'

theorem agree_sweep (l : ℚ) (K : Int) (g : Int) (T now : Int) (mA mB : StrMap client)
    (hag : Agree l K g T mA mB) (huniq : UniqueIPs mA) (hT : T ≤ now) :
    Agree l K g now (sweepClients now mA) mB := by
  have hag' := agree_mono l K g T now mA mB hag hT
  unfold Agree at hag' ⊢
  intro ip
  have hip := hag' ip
  rw [load_sweep now mA ip huniq]
  cases hB : mB.Load ip with
  | none =>
    rw [hB] at hip
    simp only at hip ⊢
    rw [hip]
  | some c =>
    rw [hB] at hip
    obtain ⟨hg, hlast, hseen, hor⟩ := hip
    refine ⟨hg, hlast, hseen, ?_⟩
    rcases hor with h1 | ⟨h1, h2⟩
    · rw [h1]
      simp only
      by_cases hidle : now - c.lastSeen > clientIdleLimit
      · rw [if_pos hidle]
        exact Or.inr ⟨rfl, hidle⟩
      · rw [if_neg hidle]
        exact Or.inl rfl
    · rw [h1]
      exact Or.inr ⟨rfl, h2⟩

/-- A server that drops idle clients and one that never does answer every
request alike, as long as their client maps agree. -/
theorem serveEvents_agree {σ : Type} (env : Env) (s : Server) (l : ℚ) (g : Int)
    (hlimit : hardLimit s.hardLimitCount s.hardLimitWin = some l) (hl : 0 < l)
    (hK : 1 ≤ s.hardLimitCount) (hW : 0 < s.hardLimitWin)
    (hW10 : s.hardLimitWin + g ≤ clientIdleLimit)
    (hrefill : ∀ d : Int, Seconds d * l = ((d : ℚ) * s.hardLimitCount) / s.hardLimitWin)
    (events : List (Event σ)) :
    ∀ (mA mB : StrMap client) (st : σ) (T : Int),
      Agree l s.hardLimitCount g T mA mB → UniqueIPs mA →
      (∀ e ∈ events, T ≤ e.time) →
      List.Pairwise (fun e1 e2 : Event σ => e1.time ≤ e2.time) events →
      (∀ a : Arrival σ, Event.request a ∈ events → a.nowAllow ≤ a.nowSeen + g) →
      (serveEvents env s mA st events).2 = (serveAll env s mB st (requestsOf events)).2 := by
  induction events with
  | nil => intro mA mB st T _ _ _ _ _; rfl
  | cons e rest ih =>
    intro mA mB st T hag huniq hT hclock hgap
    have hrestT : ∀ e' ∈ rest, e.time ≤ e'.time := (List.pairwise_cons.1 hclock).1
    have hrestClock := (List.pairwise_cons.1 hclock).2
    have hrestGap : ∀ a : Arrival σ, Event.request a ∈ rest → a.nowAllow ≤ a.nowSeen + g :=
      fun a ha => hgap a (List.mem_cons_of_mem _ ha)
    have hTe : T ≤ e.time := hT e (List.mem_cons_self _ _)
    cases e with
    | sweep now =>
      have hag' := agree_sweep l s.hardLimitCount g T now mA mB hag huniq hTe
      exact ih (sweepClients now mA) mB st now hag' (uniqueIPs_sweep now mA huniq) hrestT
        hrestClock hrestGap
    | request a =>
      have hseen : a.nowAllow ≤ a.nowSeen + g := hgap a (List.mem_cons_self _ _)
      obtain ⟨hallow, hgood, hlast⟩ := agree_allow s l g T a.nowAllow mA mB
        (GetRealIP env a.req s.trustProxy) hlimit hl hK hW hW10 hrefill hag hTe
      have hA := rateLimit_eq env s a.next mA st a.req a.nowSeen a.nowAllow
      have hB := rateLimit_eq env s a.next mB st a.req a.nowSeen a.nowAllow
      rw [hallow] at hA
      have hag' := agree_store l s.hardLimitCount g T a.nowAllow a.nowSeen mA mB
        (GetRealIP env a.req s.trustProxy) _ hag hTe hgood hlast (le_trans hlast hseen)
      have hih := ih _ _
        (if ((limiterOf s mB (GetRealIP env a.req s.trustProxy)).Allow a.nowAllow).1 = false
          then (st, tooManyRequests) else a.next st a.req).1
        a.nowAllow hag' (uniqueIPs_store mA _ _ huniq) hrestT hrestClock hrestGap
      show (serveEvents env s mA st (Event.request a :: rest)).2 =
        (serveAll env s mB st (a :: requestsOf rest)).2
      simp only [serveEvents, serveAll]
      rw [hA, hB]
      simp only
      rw [hih]

theorem agree_empty (l : ℚ) (K : Int) (g : Int) (T : Int) : Agree l K g T [] [] := by
  intro ip
  rfl

/-- Counterexample to C28 as stated: hard limit 1 per window of exactly ten
minutes.  The limiter of the first request reads the clock 10 ns after the
reading kept as `lastSeen`; the sweep 10 minutes and 5 ns after that `lastSeen`
drops the client, idle for more than ten minutes, while its bucket, 5 ns short
of the window, is not full.  The request arriving then is admitted by the
server that dropped the client and rejected with 429 by one that did not. -/
theorem eviction_changes_decision_at_ten_minutes :
    tenMinuteServer.hardLimitWin ≤ clientIdleLimit ∧
      (serveEvents sampleEnv tenMinuteServer [] emptyState gapEvents).2.2 =
        [Reply.response (respondOK "successfully accounted"),
          Reply.response (respondOK "successfully accounted")] ∧
      (serveAll sampleEnv tenMinuteServer [] emptyState (requestsOf gapEvents)).2.2 =
        [Reply.response (respondOK "successfully accounted"), tooManyRequests] := by
  decide!

/-- C28, amended. The per-IP limiter is an exact token bucket of capacity
`K ≥ 1` refilled at `K / W`, and the limiter reads the clock for a request at
most `g` after the reading kept as the client's last activity.  If the window
`W` and `g` together are at most ten minutes, then from server start, for every
sequence of requests and sweeps with non-decreasing clock values, the server
that drops the clients idle for more than ten minutes gives the same replies,
and leaves the state behind the limiter the same, as a server that never drops
a client.  For a window of twenty minutes the two differ: with limit 1, a
request, a sweep eleven minutes later and a second request twelve minutes
after the first, the second request is admitted after the eviction and is
rejected with 429 without it. -/
theorem eviction_keeps_decisions {σ : Type} (env : Env) (s : Server) (st : σ)
    (events : List (Event σ)) (g : Int)
    (hK : 1 ≤ s.hardLimitCount) (hW : 0 < s.hardLimitWin)
    (hW10 : s.hardLimitWin + g ≤ clientIdleLimit)
    (hgap : ∀ a : Arrival σ, Event.request a ∈ events → a.nowAllow ≤ a.nowSeen + g)
    (hclock : List.Pairwise (fun e1 e2 : Event σ => e1.time ≤ e2.time) events) :
    ((serveEvents env s [] st events).2.1 = (serveAll env s [] st (requestsOf events)).2.1 ∧
      (serveEvents env s [] st events).2.2 = (serveAll env s [] st (requestsOf events)).2.2) ∧
    (slowServer.hardLimitWin > clientIdleLimit ∧
      (serveEvents sampleEnv slowServer [] emptyState evictionEvents).2.2 =
        [Reply.response (respondOK "successfully accounted"),
          Reply.response (respondOK "successfully accounted")] ∧
      (serveAll sampleEnv slowServer [] emptyState (requestsOf evictionEvents)).2.2 =
        [Reply.response (respondOK "successfully accounted"), tooManyRequests]) := by
  constructor
  · obtain ⟨l, hlimit, hl, hrefill⟩ := hardLimit_pos s.hardLimitCount s.hardLimitWin hK hW
    have hmain : (serveEvents env s [] st events).2 =
        (serveAll env s [] st (requestsOf events)).2 := by
      cases events with
      | nil => rfl
      | cons e rest =>
        exact serveEvents_agree env s l g hlimit hl hK hW hW10 hrefill (e :: rest) [] [] st e.time
          (agree_empty l s.hardLimitCount g e.time) List.nodup_nil
          (fun e' he' => by
            rcases List.mem_cons.1 he' with h | h
            · rw [h]
            · exact (List.pairwise_cons.1 hclock).1 e' h)
          hclock hgap
    rw [hmain]
    exact ⟨rfl, rfl⟩
  · decide!

/-- Witness of C28: hard limit 2 per minute, the limiter reading the clock up
to one second after the reading kept as last activity; a request, a sweep
eleven minutes later and two further requests. -/
theorem eviction_keeps_decisions_witness :
    (serveEvents sampleEnv sampleServer [] emptyState
        [Event.request { sampleArrival 1000000000000 2302 with nowAllow := 1000000000250 },
          Event.sweep 1660000000000,
          Event.request (sampleArrival 1720000000000 2303),
          Event.request { sampleArrival 1720000000001 2304 with nowAllow := 1721000000001 }]).2.2 =
      (serveAll sampleEnv sampleServer [] emptyState
        (requestsOf
          [Event.request { sampleArrival 1000000000000 2302 with nowAllow := 1000000000250 },
            Event.sweep 1660000000000,
            Event.request (sampleArrival 1720000000000 2303),
            Event.request
              { sampleArrival 1720000000001 2304 with nowAllow := 1721000000001 }])).2.2 :=
  (eviction_keeps_decisions sampleEnv sampleServer emptyState
    [Event.request { sampleArrival 1000000000000 2302 with nowAllow := 1000000000250 },
      Event.sweep 1660000000000,
      Event.request (sampleArrival 1720000000000 2303),
      Event.request { sampleArrival 1720000000001 2304 with nowAllow := 1721000000001 }]
    1000000000
    (by decide) (by decide) (by decide)
    (by
      intro a ha
      simp only [List.mem_cons, Event.request.injEq, List.mem_singleton, List.not_mem_nil,
        or_false] at ha
      rcases ha with h | h | h | h
      · rw [h]; decide
      · exact absurd h (by simp)
      · rw [h]; decide
      · rw [h]; decide)
    (by simp [Event.time, sampleArrival])).1.2

end Zenit
